import Mathlib

/-!
# Room and game-state engine of the multiplayer race server

A shallow embedding of `src/server/server.js`.  The process-wide `rooms` table, the
objects it holds and the intervals still running on objects that left the table become
an explicit `State`; every socket handler and timer callback becomes a function
`State → State × List Out`, where `Out` lists the events emitted and the updates sent
to the player store.

Conventions of the embedding:

* Connection ids (`socket.id`) are opaque identities, modelled as `Nat`.
* Room codes are the decimal strings of numbers 1000..9999, modelled by their value.
  `Object.keys(rooms)` enumerates integer-like keys in ascending numeric order, so the
  table is kept as a list ordered by code and `getPlayerRoom` scans it front to back.
* The `roomCode` of `joinRoom` is text chosen by the client and `rooms` is a plain
  object, so `rooms[roomCode]` has three outcomes, told apart by `RoomKey`: the decimal
  text of a number (a stored room or `undefined`), a name every object inherits
  (`constructor`, `__proto__`, `toString`, ..: a truthy value that is no room), and any
  other text (`undefined`).
* `room.players` is keyed by connection id and keeps insertion order; it is a list of
  players whose `id` field is the key (the server never changes `id`).
* `Math.floor(Math.random() * n)` is an arbitrary index below `n`; the draw is an
  explicit argument `r` and the index is `randIndex r n`.
* `room.timer` holds the interval handle; the handle is modelled by the `countdown`
  variable captured by the interval callback.  `createRoom` overwrites `rooms[code]`
  and `disconnect` deletes an emptied room without `clearInterval`: the interval of
  such a room keeps running on the object it captured.  `State.orphans` lists these
  objects with the code their interval captured, and `Event.orphanTick` fires one.  No
  handler and no broadcast reads such an object again; it stays listed after its
  interval has cleared itself.
* `setTimeout(() => spawnPowerUp(roomCode), 5000)` is not tracked: `Event.spawnPowerUp`
  may fire at any time, which covers every schedule the server can produce.
* A `TypeError` thrown in a handler or timer callback is caught by nothing and ends
  the process.  The step that throws is recorded as `Out.uncaught` and leaves what the
  callback had done before the throw; a run stops being a run of the server at its
  first `Out.uncaught`, and what is proved of all runs holds of the runs before it.
* Every event carries the payload object the client sends (`{ maxPlayers }`,
  `{ roomCode }`, `{ username, avatar }`).
* The wins counter lives in the external player store; updates to it are recorded as
  `Out.winsDelta`.  The `await` in the `moveRight` handler happens after all changes to
  the room, so the handler is taken as one step with `gameOver` emitted last.
-/

namespace Game

/-- Track end: `MAX_POSITION` in server.js. -/
def MAX_POSITION : Int := 10

/-- In-room player entry; `username` and `avatar` are absent until `setUserInfo`. -/
structure Player where
  id : Nat
  position : Int
  speedBoost : Bool
  penaltyTime : Nat
  username : Option String
  avatar : Option String
deriving DecidableEq, Repr

structure Wall where
  position : Int
  hits : Nat
  maxHits : Nat
deriving DecidableEq, Repr

/-- Power-up object; `position` is `none` when the array read in `spawnPowerUp`
yields `undefined`. -/
structure PowerUp where
  position : Option Int
deriving DecidableEq, Repr

structure GameState where
  walls : List Wall
  powerUp : Option PowerUp
  penaltyZones : List Int
  started : Bool
deriving DecidableEq, Repr

/-- Room object; `timer` is `some c` while the interval is active, `c` being the
value of its `countdown` variable. -/
structure Room where
  players : List Player
  gameState : GameState
  maxPlayers : Int
  timer : Option Int
deriving DecidableEq, Repr

/-- The `rooms` table, ordered by room code, and the room objects that left the table
while their interval was running (each with the room code the interval captured). -/
structure State where
  rooms : List (Nat × Room)
  orphans : List (Nat × Room)
deriving DecidableEq, Repr

/-- What the client sent as `roomCode`, by what `rooms[roomCode]` can yield. -/
inductive RoomKey where
  | code (n : Nat)
  | inherited
  | text
deriving DecidableEq, Repr

/-- Events emitted to sockets or rooms, and updates sent to the player store. -/
inductive Out where
  | roomCreated (conn code : Nat) (maxPlayers : Int)
  | error (conn : Nat) (msg : String)
  | updatePlayers (code : Nat) (players : List Player) (gameState : GameState)
  | joinedRoom (conn code : Nat) (maxPlayers : Int)
  | countdown (code : Nat) (value : Int)
  | countdownStopped (code : Nat)
  | gameStarted (code : Nat)
  | gameOver (code : Nat) (winnerId : Nat)
  | playerLeft (code : Nat) (id : Nat)
  | winsDelta (conn : Nat) (delta : Int)
  | uncaught
deriving DecidableEq, Repr

/-- Inbound socket events and timer callbacks, with their random draws. -/
inductive Event where
  | createRoom (conn : Nat) (maxPlayers : Int) (rCode rWall1 rWall2 : Nat)
  | joinRoom (conn : Nat) (roomCode : RoomKey)
  | setUserInfo (conn : Nat) (username avatar : String) (storeOk : Bool)
  | moveLeft (conn : Nat)
  | moveRight (conn : Nat)
  | resetGame (conn : Nat) (rWall1 rWall2 : Nat)
  | disconnect (conn : Nat)
  | tick (roomCode : Nat) (r : Nat)
  | spawnPowerUp (roomCode : Nat) (r : Nat)
  | orphanTick (i : Nat) (r : Nat)
deriving DecidableEq, Repr

/-- The value of `Math.floor(Math.random() * n)` for the draw `r`. -/
def randIndex (r n : Nat) : Nat := if n = 0 then 0 else r % n

/-- The player literal of `createRoom` and `joinRoom`. -/
def newPlayer (conn : Nat) : Player :=
  { id := conn, position := 5, speedBoost := false, penaltyTime := 0,
    username := none, avatar := none }

/-- The `gameState` literal of `createRoom` and `resetGame`. -/
def freshGameState (rWall1 rWall2 : Nat) : GameState :=
  { walls := [ { position := (randIndex rWall1 4 : Nat) + 1, hits := 0, maxHits := 3 },
               { position := (randIndex rWall2 4 : Nat) + 6, hits := 0, maxHits := 3 } ],
    powerUp := none,
    penaltyZones := [2, 7],
    started := false }

/-- Read `room.players[conn]`. -/
def Room.player? (room : Room) (conn : Nat) : Option Player :=
  room.players.find? (fun p => p.id == conn)

/-- Mutate the entry `players[conn]` (the one `Room.player?` reads) in place. -/
def updatePlayer : List Player → Nat → (Player → Player) → List Player
  | [], _, _ => []
  | q :: qs, conn, f => if q.id == conn then f q :: qs else q :: updatePlayer qs conn f

/-- Assignment `players[p.id] = p`: replaces an existing entry where it stands,
appends a new key at the end. -/
def setPlayer (players : List Player) (p : Player) : List Player :=
  if players.any (fun q => q.id == p.id) then updatePlayer players p.id (fun _ => p)
  else players ++ [p]

/-- Read `rooms[code]`. -/
def lookup (s : State) (code : Nat) : Option Room :=
  (s.rooms.find? (fun cr => cr.1 == code)).map (fun cr => cr.2)

/-- Assignment `rooms[code] = room`, keeping the keys in ascending order. -/
def setRoom : List (Nat × Room) → Nat → Room → List (Nat × Room)
  | [], code, room => [(code, room)]
  | (c, r) :: rest, code, room =>
    if code < c then (code, room) :: (c, r) :: rest
    else if code = c then (code, room) :: rest
    else (c, r) :: setRoom rest code room

/-- Statement `delete rooms[code]`. -/
def deleteRoom (rooms : List (Nat × Room)) (code : Nat) : List (Nat × Room) :=
  rooms.filter (fun cr => cr.1 != code)

/-- First room code, in key order, whose `players` has an entry for the connection. -/
def getPlayerRoom (s : State) (playerId : Nat) : Option Nat :=
  (s.rooms.find? (fun cr => cr.2.players.any (fun p => p.id == playerId))).map (fun cr => cr.1)

/-- Collect the power-up when the player stands on it. -/
def checkPowerUp (room : Room) (playerId : Nat) : Room :=
  match room.gameState.powerUp, room.player? playerId with
  | some pu, some p =>
    if pu.position = some p.position then
      { room with
        players := updatePlayer room.players playerId (fun q => { q with speedBoost := true }),
        gameState := { room.gameState with powerUp := none } }
    else room
  | _, _ => room

/-- Penalty rule on one player entry: new entry and store updates issued. -/
def checkPenaltyOn (penaltyZones : List Int) (playerId : Nat) (player : Player) :
    Player × List Out :=
  if penaltyZones.contains player.position then
    if player.penaltyTime + 1 ≥ 3 then
      ({ player with penaltyTime := 0 }, [Out.winsDelta playerId (-1)])
    else ({ player with penaltyTime := player.penaltyTime + 1 }, [])
  else ({ player with penaltyTime := 0 }, [])

/-- Function `checkPenalty(playerId, roomCode)` on the room object. -/
def checkPenalty (room : Room) (playerId : Nat) : Room × List Out :=
  match room.player? playerId with
  | none => (room, [])
  | some player =>
    ({ room with
       players := updatePlayer room.players playerId
         (fun q => (checkPenaltyOn room.gameState.penaltyZones playerId q).1) },
      (checkPenaltyOn room.gameState.penaltyZones playerId player).2)

/-- Candidate cells of `spawnPowerUp`: 0..MAX_POSITION without wall cells and
penalty zones. -/
def availablePositions (gs : GameState) : List Int :=
  ((List.range (MAX_POSITION + 1).toNat).map (fun (i : Nat) => (i : Int))).filter
    (fun p => !gs.walls.any (fun w => w.position == p) && !gs.penaltyZones.contains p)

/-- Function `spawnPowerUp(roomCode)` on the room object, with draw `r`. -/
def spawnPowerUp (room : Room) (code r : Nat) : Room × List Out :=
  match room.gameState.powerUp with
  | some _ => (room, [])
  | none =>
    let av := availablePositions room.gameState
    let gs : GameState :=
      { room.gameState with powerUp := some { position := av[randIndex r av.length]? } }
    ({ room with gameState := gs }, [Out.updatePlayers code room.players gs])

/-- Function `startGameCountdown(roomCode)`: arms the interval unless one is active. -/
def startGameCountdown (room : Room) (code : Nat) : Room × List Out :=
  match room.timer with
  | some _ => (room, [])
  | none => ({ room with timer := some 10 }, [Out.countdown code 10])

/-- One firing of the interval callback of `startGameCountdown`; nothing fires when
the room has no active interval. -/
def timerTick (room : Room) (code r : Nat) : Room × List Out :=
  match room.timer with
  | none => (room, [])
  | some c =>
    let c1 := c - 1
    if c1 ≤ 0 then
      let room1 : Room :=
        { room with timer := none, gameState := { room.gameState with started := true } }
      let res := spawnPowerUp room1 code r
      (res.1, [Out.countdown code c1] ++ res.2 ++ [Out.gameStarted code])
    else ({ room with timer := some c1 }, [Out.countdown code c1])

/-- Increment `hits` of the first wall at `pos` (the object returned by `find`). -/
def hitWall : List Wall → Int → List Wall
  | [], _ => []
  | w :: ws, pos =>
    if w.position = pos then { w with hits := w.hits + 1 } :: ws else w :: hitWall ws pos

/-- The `updatePlayers` broadcast of a room. -/
def snapshot (code : Nat) (room : Room) : Out :=
  Out.updatePlayers code room.players room.gameState

/-- Body of the `joinRoom` handler once `rooms[roomCode]` is found: the rejection
message, or the room after the join with what is emitted. -/
def joinRoomIn (roomCode : Nat) (room : Room) (conn : Nat) : Except String (Room × List Out) :=
  if (room.players.length : Int) ≥ room.maxPlayers then Except.error "Room is full"
  else if room.gameState.started then Except.error "Game has already started"
  else
    let room1 : Room := { room with players := setPlayer room.players (newPlayer conn) }
    let outs1 := [snapshot roomCode room1, Out.joinedRoom conn roomCode room1.maxPlayers]
    if (room1.players.length : Int) = room1.maxPlayers then
      let res := startGameCountdown room1 roomCode
      Except.ok (res.1, outs1 ++ res.2)
    else Except.ok (room1, outs1)

/-- Handler of `joinRoom` for connection `conn`.  For an inherited name `room` is
truthy, `room.players` is `undefined` and `Object.keys` throws. -/
def joinRoom (s : State) (conn : Nat) : RoomKey → State × List Out
  | RoomKey.inherited => (s, [Out.uncaught])
  | RoomKey.text => (s, [Out.error conn "Room not found"])
  | RoomKey.code roomCode =>
    match lookup s roomCode with
    | none => (s, [Out.error conn "Room not found"])
    | some room =>
      match joinRoomIn roomCode room conn with
      | Except.error msg => (s, [Out.error conn msg])
      | Except.ok res => ({ s with rooms := setRoom s.rooms roomCode res.1 }, res.2)

/-- The room literal of `createRoom`. -/
def freshRoom (conn : Nat) (maxPlayers : Int) (rWall1 rWall2 : Nat) : Room :=
  { players := [newPlayer conn], gameState := freshGameState rWall1 rWall2,
    maxPlayers := maxPlayers, timer := none }

/-- The code drawn by `createRoom`: `Math.floor(1000 + Math.random() * 9000)`. -/
def drawCode (rCode : Nat) : Nat := 1000 + randIndex rCode 9000

/-- What an object leaving the table under `code` without `clearInterval` adds to the
left-over objects: itself, when its interval is running. -/
def orphaned (code : Nat) : Option Room → List (Nat × Room)
  | none => []
  | some room =>
    match room.timer with
    | none => []
    | some _ => [(code, room)]

/-- Handler of `createRoom`: `rooms[roomCode]` is assigned without looking at the table,
so a room already stored under the code drawn leaves the table. -/
def createRoom (s : State) (conn : Nat) (maxPlayers : Int) (rCode rWall1 rWall2 : Nat) :
    State × List Out :=
  ({ rooms := setRoom s.rooms (drawCode rCode) (freshRoom conn maxPlayers rWall1 rWall2),
     orphans := s.orphans ++ orphaned (drawCode rCode) (lookup s (drawCode rCode)) },
    [Out.roomCreated conn (drawCode rCode) maxPlayers])

/-- Run a handler body on the room `getPlayerRoom` resolves for the connection; the
body returns `none` when it touches nothing. -/
def onPlayerRoom (s : State) (conn : Nat) (f : Nat → Room → Option (Room × List Out)) :
    State × List Out :=
  match getPlayerRoom s conn with
  | none => (s, [])
  | some code =>
    match lookup s code with
    | none => (s, [])
    | some room =>
      match f code room with
      | none => (s, [])
      | some res => ({ s with rooms := setRoom s.rooms code res.1 }, res.2)

/-- Body of the `setUserInfo` handler after the store calls succeeded. -/
def setUserInfoIn (code : Nat) (room : Room) (conn : Nat) (username avatar : String) :
    Option (Room × List Out) :=
  let room1 : Room :=
    { room with
      players := updatePlayer room.players conn
        (fun q => { q with username := some username, avatar := some avatar }) }
  some (room1, [snapshot code room1])

/-- Handler of `setUserInfo`; a failing store call is caught before the room is touched. -/
def setUserInfo (s : State) (conn : Nat) (username avatar : String) (storeOk : Bool) :
    State × List Out :=
  if storeOk then onPlayerRoom s conn (fun code room => setUserInfoIn code room conn username avatar)
  else (s, [])

/-- Whether the live power-up lies on the cell. -/
def powerUpAt (gs : GameState) (cell : Int) : Bool :=
  match gs.powerUp with
  | some pu => decide (pu.position = some cell)
  | none => false

/-- Commit `player.position = cell`, then run `checkPowerUp` and `checkPenalty`. -/
def landOn (room : Room) (conn : Nat) (cell : Int) : Room × List Out :=
  let room1 : Room :=
    { room with players := updatePlayer room.players conn (fun q => { q with position := cell }) }
  checkPenalty (checkPowerUp room1 conn) conn

/-- Body of the `moveLeft` handler on the caller's room. -/
def moveLeftIn (code : Nat) (room : Room) (conn : Nat) : Option (Room × List Out) :=
  if room.gameState.started then
    match room.player? conn with
    | none => none
    | some player =>
      if player.position > 0 then
        let res := landOn room conn (player.position - 1)
        some (res.1, res.2 ++ [snapshot code res.1])
      else none
  else none

/-- Handler of `moveLeft`. -/
def moveLeft (s : State) (conn : Nat) : State × List Out :=
  onPlayerRoom s conn (fun code room => moveLeftIn code room conn)

/-- Whether the boost doubles the step of a right move. -/
def boostApplies (player : Player) : Bool :=
  player.speedBoost && decide (player.position + 1 < MAX_POSITION)

/-- The `nextPosition` of a right move. -/
def targetCell (player : Player) : Int :=
  if boostApplies player then player.position + 1 + 1 else player.position + 1

/-- Whether an active wall (`hits < maxHits`) stands on the cell. -/
def activeWallAt (walls : List Wall) (pos : Int) : Bool :=
  walls.any (fun w => w.position == pos && decide (w.hits < w.maxHits))

/-- The boost is spent (`player.speedBoost = false`) when it doubles the step. -/
def consumeBoost (room : Room) (conn : Nat) (player : Player) : Room :=
  if boostApplies player then
    { room with
      players := updatePlayer room.players conn (fun q => { q with speedBoost := false }) }
  else room

/-- The wall list after the wall `wall`, found on cell `pos`, took a hit: its `hits`
goes up by one, and on reaching `maxHits` every wall of its cell is filtered out. -/
def wallsAfterHit (walls : List Wall) (pos : Int) (wall : Wall) : List Wall :=
  if wall.hits + 1 = wall.maxHits then
    (hitWall walls pos).filter (fun w => w.position != wall.position)
  else hitWall walls pos

/-- The room after the active wall `wall` on the target cell absorbed a right move. -/
def absorbedBy (room : Room) (conn : Nat) (player : Player) (wall : Wall) : Room :=
  { consumeBoost room conn player with
    gameState :=
      { room.gameState with
        walls := wallsAfterHit room.gameState.walls (targetCell player) wall } }

/-- What a winning move adds: the store update and the `gameOver` broadcast. -/
def winOuts (code conn : Nat) (nextPosition : Int) : List Out :=
  if nextPosition = MAX_POSITION then [Out.winsDelta conn 1, Out.gameOver code conn] else []

/-- Body of the `moveRight` handler on the caller's room. -/
def moveRightIn (code : Nat) (room : Room) (conn : Nat) : Option (Room × List Out) :=
  if room.gameState.started then
    match room.player? conn with
    | none => none
    | some player =>
      let nextPosition := targetCell player
      let room0 := consumeBoost room conn player
      let found := room.gameState.walls.find? (fun w => w.position == nextPosition)
      match found.filter (fun wall => decide (wall.hits < wall.maxHits)) with
      | some wall =>
        some (absorbedBy room conn player wall, [snapshot code (absorbedBy room conn player wall)])
      | none =>
        if nextPosition ≤ MAX_POSITION ∧ activeWallAt room.gameState.walls nextPosition = false then
          let res := landOn room0 conn nextPosition
          some (res.1, res.2 ++ [snapshot code res.1] ++ winOuts code conn nextPosition)
        else if boostApplies player then some (room0, [])
        else none
  else none

/-- Handler of `moveRight`. -/
def moveRight (s : State) (conn : Nat) : State × List Out :=
  onPlayerRoom s conn (fun code room => moveRightIn code room conn)

/-- Body of the `resetGame` handler on the caller's room. -/
def resetGameIn (code : Nat) (room : Room) (rWall1 rWall2 : Nat) : Option (Room × List Out) :=
  let room1 : Room :=
    { room with
      players := room.players.map
        (fun q => { q with position := 5, speedBoost := false, penaltyTime := 0 }),
      gameState := freshGameState rWall1 rWall2,
      timer := none }
  some (room1, [snapshot code room1])

/-- Handler of `resetGame`. -/
def resetGame (s : State) (conn : Nat) (rWall1 rWall2 : Nat) : State × List Out :=
  onPlayerRoom s conn (fun code room => resetGameIn code room rWall1 rWall2)

/-- Body of the `disconnect` handler on the caller's room: `none` when the room is
left empty (it is then deleted), else the room without the caller. -/
def disconnectIn (code : Nat) (room : Room) (conn : Nat) : Option (Room × List Out) :=
  let players1 := room.players.filter (fun p => p.id != conn)
  if players1.length = 0 then none
  else
    match room.timer with
    | some _ =>
      some ({ room with players := players1, timer := none },
        [Out.playerLeft code conn, Out.countdownStopped code])
    | none => some ({ room with players := players1 }, [Out.playerLeft code conn])

/-- Handler of `disconnect`.  An emptied room is deleted from the table with no look at
its timer. -/
def disconnect (s : State) (conn : Nat) : State × List Out :=
  match getPlayerRoom s conn with
  | none => (s, [])
  | some code =>
    match lookup s code with
    | none => (s, [])
    | some room =>
      match disconnectIn code room conn with
      | none =>
        ({ rooms := deleteRoom s.rooms code,
           orphans := s.orphans ++
             orphaned code
               (some { room with players := room.players.filter (fun p => p.id != conn) }) },
          [])
      | some res => ({ s with rooms := setRoom s.rooms code res.1 }, res.2)

/-- Firing of the interval of the room stored under `roomCode`: the object the callback
captured is still the one in the table.  The intervals of objects that left the table
fire through `orphanTick`. -/
def tick (s : State) (roomCode r : Nat) : State × List Out :=
  match lookup s roomCode with
  | none => (s, [])
  | some room =>
    match room.timer with
    | none => (s, [])
    | some _ =>
      let res := timerTick room roomCode r
      ({ s with rooms := setRoom s.rooms roomCode res.1 }, res.2)

/-- A call `spawnPowerUp(roomCode)` from a timer callback; `room.gameState` throws
before anything is touched when no room is stored under the code. -/
def spawn (s : State) (roomCode r : Nat) : State × List Out :=
  match lookup s roomCode with
  | none => (s, [Out.uncaught])
  | some room =>
    match room.gameState.powerUp with
    | some _ => (s, [])
    | none =>
      let res := spawnPowerUp room roomCode r
      ({ s with rooms := setRoom s.rooms roomCode res.1 }, res.2)

/-- Firing of the interval of the `i`-th room object that left the table.  The callback
of `startGameCountdown` runs on the object it captured: it counts down and broadcasts
to the code; on reaching 0 it clears itself and sets `started` on that object, while its
`spawnPowerUp(roomCode)` acts on whatever is stored under the code now. -/
def orphanTick (s : State) (i r : Nat) : State × List Out :=
  match s.orphans[i]? with
  | none => (s, [])
  | some (code, room) =>
    match room.timer with
    | none => (s, [])
    | some c =>
      if c - 1 ≤ 0 then
        let room1 : Room :=
          { room with timer := none, gameState := { room.gameState with started := true } }
        let s1 : State := { s with orphans := s.orphans.set i (code, room1) }
        match lookup s1 code with
        | none => (s1, [Out.countdown code (c - 1), Out.uncaught])
        | some _ =>
          ((spawn s1 code r).1,
            [Out.countdown code (c - 1)] ++ (spawn s1 code r).2 ++ [Out.gameStarted code])
      else
        ({ s with orphans := s.orphans.set i (code, { room with timer := some (c - 1) }) },
          [Out.countdown code (c - 1)])

/-- One event of the server. -/
def step (s : State) : Event → State × List Out
  | Event.createRoom conn maxPlayers rCode rWall1 rWall2 =>
    createRoom s conn maxPlayers rCode rWall1 rWall2
  | Event.joinRoom conn roomCode => joinRoom s conn roomCode
  | Event.setUserInfo conn username avatar storeOk => setUserInfo s conn username avatar storeOk
  | Event.moveLeft conn => moveLeft s conn
  | Event.moveRight conn => moveRight s conn
  | Event.resetGame conn rWall1 rWall2 => resetGame s conn rWall1 rWall2
  | Event.disconnect conn => disconnect s conn
  | Event.tick roomCode r => tick s roomCode r
  | Event.spawnPowerUp roomCode r => spawn s roomCode r
  | Event.orphanTick i r => orphanTick s i r

/-- Run a sequence of events, collecting everything emitted. -/
def run (s : State) : List Event → State × List Out
  | [] => (s, [])
  | e :: es =>
    let r1 := step s e
    let r2 := run r1.1 es
    (r2.1, r1.2 ++ r2.2)

/-- The server right after start: no rooms, no intervals. -/
def init : State := { rooms := [], orphans := [] }

/-- States the server can be in: those reached from `init` by some events. -/
def Reachable (s : State) : Prop := ∃ evs : List Event, (run init evs).1 = s

/-- Every listed player stands on the track. -/
def PlayersOnTrack (players : List Player) : Prop :=
  ∀ p ∈ players, 0 ≤ p.position ∧ p.position ≤ 10

/-- Some handler or timer callback turns the room object `room` into `room1`. -/
def RoomTrans (room room1 : Room) : Prop :=
  (∃ code conn outs, joinRoomIn code room conn = Except.ok (room1, outs)) ∨
  (∃ code conn username avatar outs,
    setUserInfoIn code room conn username avatar = some (room1, outs)) ∨
  (∃ code conn outs, moveLeftIn code room conn = some (room1, outs)) ∨
  (∃ code conn outs, moveRightIn code room conn = some (room1, outs)) ∨
  (∃ code r1 r2 outs, resetGameIn code room r1 r2 = some (room1, outs)) ∨
  (∃ code conn outs, disconnectIn code room conn = some (room1, outs)) ∨
  (∃ code r, room1 = (timerTick room code r).1) ∨
  (∃ code r, room1 = (spawnPowerUp room code r).1)

/-- Shape of the wall list: every wall has `maxHits` 3, is still active and stands on
one of the cells 1..9, and no two walls share a cell. -/
def WallsOK (walls : List Wall) : Prop :=
  (∀ w ∈ walls, w.maxHits = 3 ∧ w.hits < w.maxHits ∧ 1 ≤ w.position ∧ w.position ≤ 9) ∧
  (walls.map (fun w => w.position)).Nodup

/-- Shape of a room of the table: well-shaped walls, the fixed penalty zones, and a
non-empty `players` object whose keys are distinct. -/
structure RoomWF (room : Room) : Prop where
  walls : WallsOK room.gameState.walls
  zones : room.gameState.penaltyZones = [2, 7]
  ids : (room.players.map (fun p => p.id)).Nodup
  nonempty : room.players ≠ []

/-- The keys of the table are in strictly ascending order. -/
def Sorted (s : State) : Prop := (s.rooms.map (fun cr => cr.1)).Pairwise (fun a b => a < b)

/-- A `createRoom` asks for a capacity of at least one player; other events pass. -/
def validCapacity : Event → Bool
  | Event.createRoom _ maxPlayers _ _ _ => decide (1 ≤ maxPlayers)
  | _ => true

/-- Recognise a `gameOver` broadcast. -/
def Out.isGameOver : Out → Bool
  | Out.gameOver _ _ => true
  | _ => false

/-- Recognise a `resetGame` event. -/
def Event.isReset : Event → Bool
  | Event.resetGame _ _ _ => true
  | _ => false

/-! ### Sample runs -/

/-- Connection 1 creates room 1000 for two players (walls on cells 1 and 6),
connection 2 joins, and the countdown runs its ten ticks. -/
def startedTrace : List Event :=
  [Event.createRoom 1 2 0 0 0, Event.joinRoom 2 (RoomKey.code 1000)] ++ List.replicate 10 (Event.tick 1000 0)

/-- After `startedTrace`, connection 1 breaks the wall on cell 6 and walks to cell 10. -/
def winTrace : List Event := startedTrace ++ List.replicate 8 (Event.moveRight 1)

/-- After `startedTrace`, connection 1 breaks the wall on cell 6 and walks to cell 9. -/
def nearWinTrace : List Event := startedTrace ++ List.replicate 7 (Event.moveRight 1)

/-- After `winTrace`, the winner steps back to cell 9 and forward to cell 10 again. -/
def secondWinTrace : List Event := winTrace ++ [Event.moveLeft 1, Event.moveRight 1]

/-- Connection 1 creates room 1000 for two players, connection 2 joins, and the join
of connection 3 is rejected. -/
def fullRoomTrace : List Event :=
  [Event.createRoom 1 2 0 0 0, Event.joinRoom 2 (RoomKey.code 1000), Event.joinRoom 3 (RoomKey.code 1000)]

/-- Connection 1 creates room 1000 for two players and sets its user info. -/
def namedTrace : List Event :=
  [Event.createRoom 1 2 0 0 0, Event.setUserInfo 1 "ann" "a" true]

/-- Room 1000 at the end of `nearWinTrace`: connection 1 on cell 9 without boost, no
wall on cell 10. -/
def nearWinRoom : Room :=
  { players := [{ newPlayer 1 with position := 9 }, newPlayer 2],
    gameState :=
      { walls := [{ position := 1, hits := 0, maxHits := 3 }],
        powerUp := some { position := some 0 },
        penaltyZones := [2, 7],
        started := true },
    maxPlayers := 2,
    timer := none }

/-- Connection 1 creates room 1000 for two players and connection 2 joins. -/
def joinedTrace : List Event := [Event.createRoom 1 2 0 0 0, Event.joinRoom 2 (RoomKey.code 1000)]

/-- Room 1000 of `joinedTrace` at the moment `startGameCountdown` is called. -/
def lobbyRoom : Room :=
  { players := [newPlayer 1, newPlayer 2], gameState := freshGameState 0 0,
    maxPlayers := 2, timer := none }

/-- After `joinedTrace`, three ticks of the countdown of room 1000. -/
def countingTrace : List Event := joinedTrace ++ List.replicate 3 (Event.tick 1000 0)

/-- Room 1000 at the end of `countingTrace`: full, counter at 7. -/
def countingRoom : Room := { lobbyRoom with timer := some 7 }

/-- A started room whose player 1 stands on penalty cell 7 with two penalty counts. -/
def penaltyRoom : Room :=
  { players := [{ newPlayer 1 with position := 7, penaltyTime := 2 }, newPlayer 2],
    gameState := { freshGameState 0 0 with started := true },
    maxPlayers := 2,
    timer := none }

/-- Entry of connection 1 at the end of `winTrace`. -/
def winnerEntry : Player := { newPlayer 1 with position := 10 }

/-- Room 1000 at the end of `winTrace`. -/
def wonRoom : Room :=
  { players := [winnerEntry, newPlayer 2],
    gameState :=
      { walls := [{ position := 1, hits := 0, maxHits := 3 }],
        powerUp := some { position := some 0 },
        penaltyZones := [2, 7],
        started := true },
    maxPlayers := 2,
    timer := none }

/-- Whether `room.players` has an entry for the connection. -/
def Room.hasPlayer (room : Room) (conn : Nat) : Bool :=
  room.players.any (fun p => p.id == conn)

/-- A createRoom or joinRoom passes when its connection is in no room of the state;
every other event passes. -/
def entersFromOutside (s : State) : Event → Bool
  | Event.createRoom conn _ _ _ _ => (getPlayerRoom s conn).isNone
  | Event.joinRoom conn _ => (getPlayerRoom s conn).isNone
  | _ => true

/-- Runs in which createRoom and joinRoom are only issued by connections that are in
no room at that moment. -/
def singleRoomRun : State → List Event → Bool
  | _, [] => true
  | s, e :: es => entersFromOutside s e && singleRoomRun (step s e).1 es

/-- No connection has entries in rooms stored under two different codes. -/
def SingleRoom (s : State) : Prop :=
  ∀ conn, ∀ cr1 ∈ s.rooms, ∀ cr2 ∈ s.rooms,
    cr1.2.hasPlayer conn = true → cr2.2.hasPlayer conn = true → cr1.1 = cr2.1

/-- Connection 1 creates room 1000, connection 2 creates room 2000, and connection 1
joins room 2000 as well. -/
def twoRoomsTrace : List Event :=
  [Event.createRoom 1 2 0 0 0, Event.createRoom 2 2 1000 0 0, Event.joinRoom 1 (RoomKey.code 2000)]

/-- After `twoRoomsTrace`, the countdown of room 2000 runs its ten ticks: room 2000 is
started with connection 1 on cell 5 and walls on cells 1 and 6. -/
def twoRoomsStartedTrace : List Event := twoRoomsTrace ++ List.replicate 10 (Event.tick 2000 0)

/-- As `twoRoomsStartedTrace`, with the walls of room 2000 on cells 1 and 7. -/
def twoRoomsFreeTrace : List Event :=
  [Event.createRoom 1 2 0 0 0, Event.createRoom 2 2 1000 0 1,
    Event.joinRoom 1 (RoomKey.code 2000)] ++ List.replicate 10 (Event.tick 2000 0)

/-- After `countingTrace`, connection 3 creates a room and draws code 1000 again; the
interval of the overwritten room fires its remaining seven times. -/
def collisionTrace : List Event :=
  countingTrace ++ [Event.createRoom 3 2 0 0 0] ++ List.replicate 7 (Event.orphanTick 0 0)

/-- Whether the event is a leave or a reset handled on the room stored under `code`, or
a createRoom that draws `code`. -/
def disturbs (s : State) (code : Nat) : Event → Bool
  | Event.createRoom _ _ rCode _ _ => drawCode rCode == code
  | Event.resetGame conn _ _ => getPlayerRoom s conn == some code
  | Event.disconnect conn => getPlayerRoom s conn == some code
  | _ => false

/-- Runs in which no event disturbs the room stored under `code`. -/
def undisturbedRun (code : Nat) : State → List Event → Bool
  | _, [] => true
  | s, e :: es => !disturbs s code e && undisturbedRun code (step s e).1 es

/-- Number of firings of the interval of the room stored under `code` in a run. -/
def ownTicks (code : Nat) : List Event → Nat
  | [] => 0
  | Event.tick c _ :: es => (if c = code then 1 else 0) + ownTicks code es
  | _ :: es => ownTicks code es

/-- Recognise a `disconnect` event. -/
def Event.isLeave : Event → Bool
  | Event.disconnect _ => true
  | _ => false

/-- The values of the `countdown` broadcasts to a room code, in order. -/
def countdownValues (code : Nat) : List Out → List Int
  | [] => []
  | Out.countdown c v :: outs =>
    if c = code then v :: countdownValues code outs else countdownValues code outs
  | _ :: outs => countdownValues code outs

/-- Three ticks of the countdown of room 1000 with other events among them: a move of
connection 1 and a join attempt of connection 3. -/
def busyCountTrace : List Event :=
  [Event.tick 1000 0, Event.moveRight 1, Event.tick 1000 0,
    Event.joinRoom 3 (RoomKey.code 1000), Event.tick 1000 0]

/-- After `busyCountTrace`, six more ticks: nine in all. -/
def busyNineTrace : List Event := busyCountTrace ++ List.replicate 6 (Event.tick 1000 0)

/-- After `countingTrace`, connection 3 creates a room and draws code 1000 again,
connection 4 joins it and leaves, and the interval of the overwritten room fires its
remaining seven times. -/
def leftoverTrace : List Event :=
  countingTrace ++
    [Event.createRoom 3 2 0 0 0, Event.joinRoom 4 (RoomKey.code 1000), Event.disconnect 4] ++
    List.replicate 7 (Event.orphanTick 0 0)

/-- Recognise a `joinRoom` with the room code `code`. -/
def joinsRoom (code : Nat) : Event → Bool
  | Event.joinRoom _ (RoomKey.code c) => c == code
  | _ => false

/-- Penalty counters as the moves leave them: at most 1, and 0 off the cells 2 and 7. -/
def PenaltyOK (players : List Player) : Prop :=
  ∀ p ∈ players, p.penaltyTime ≤ 1 ∧ (p.position ∉ ([2, 7] : List Int) → p.penaltyTime = 0)

/-- No wins-decrement is among the emitted items. -/
def NoDecrement (outs : List Out) : Prop :=
  ∀ conn, Out.winsDelta conn (-1) ∉ outs

/-! ## The rooms table -/

theorem lookup_mem {s : State} {code : Nat} {room : Room} (h : lookup s code = some room) :
    (code, room) ∈ s.rooms := by
  unfold lookup at h
  cases hf : s.rooms.find? (fun cr => cr.1 == code) with
  | none => simp [hf] at h
  | some cr =>
    rw [hf] at h
    simp only [Option.map_some', Option.some.injEq] at h
    have h1 := List.find?_some hf
    have h2 := List.mem_of_find?_eq_some hf
    simp only [beq_iff_eq] at h1
    obtain ⟨c, r⟩ := cr
    simp only at h h1
    subst h; subst h1
    exact h2

theorem mem_setRoom {rooms : List (Nat × Room)} {code : Nat} {room : Room} {cr : Nat × Room}
    (h : cr ∈ setRoom rooms code room) : cr = (code, room) ∨ cr ∈ rooms := by
  induction rooms with
  | nil => simp [setRoom] at h; exact Or.inl h
  | cons hd tl ih =>
    obtain ⟨c, r⟩ := hd
    unfold setRoom at h
    split_ifs at h with h1 h2
    · simp only [List.mem_cons] at h ⊢
      tauto
    · simp only [List.mem_cons] at h ⊢
      tauto
    · simp only [List.mem_cons] at h ⊢
      rcases h with h | h
      · exact Or.inr (Or.inl h)
      · rcases ih h with h | h
        · exact Or.inl h
        · exact Or.inr (Or.inr h)

theorem mem_deleteRoom {rooms : List (Nat × Room)} {code : Nat} {cr : Nat × Room}
    (h : cr ∈ deleteRoom rooms code) : cr ∈ rooms :=
  (List.mem_filter.mp h).1

theorem lookup_set (rooms : List (Nat × Room)) (o : List (Nat × Room)) (code : Nat) (room : Room)
    (code1 : Nat) :
    lookup { rooms := setRoom rooms code room, orphans := o } code1 =
      if code1 = code then some room else lookup { rooms := rooms, orphans := o } code1 := by
  induction rooms with
  | nil =>
    by_cases h : code1 = code
    · simp [lookup, setRoom, h]
    · have h2 : ¬ code = code1 := fun e => h e.symm
      simp [lookup, setRoom, h, h2]
  | cons hd tl ih =>
    obtain ⟨c, r⟩ := hd
    unfold setRoom
    simp only [lookup] at ih ⊢
    split_ifs with h1 h2 h3 h4 h5
    all_goals simp_all [List.find?_cons]
    all_goals first | omega | (split <;> simp_all)

theorem lookup_setRoom (s : State) (code : Nat) (room : Room) (code1 : Nat) :
    lookup { s with rooms := setRoom s.rooms code room } code1 =
      if code1 = code then some room else lookup s code1 :=
  lookup_set s.rooms s.orphans code room code1

theorem lookup_orphans (s : State) (o : List (Nat × Room)) (code : Nat) :
    lookup { s with orphans := o } code = lookup s code := rfl

/-- The table after a call `spawnPowerUp(roomCode)` from a timer callback. -/
theorem spawn_rooms (s : State) (code r : Nat) :
    (spawn s code r).1.rooms = s.rooms ∨
    ∃ room, lookup s code = some room ∧
      (spawn s code r).1.rooms = setRoom s.rooms code (spawnPowerUp room code r).1 := by
  unfold spawn
  split
  · exact Or.inl rfl
  · rename_i room hl
    split
    · exact Or.inl rfl
    · exact Or.inr ⟨room, hl, rfl⟩

/-- The table after a firing of an interval whose room object left the table: unchanged,
or a power-up spawned into the room now stored under the interval's code. -/
theorem orphanTick_rooms (s : State) (i r : Nat) :
    (orphanTick s i r).1.rooms = s.rooms ∨
    ∃ code room, lookup s code = some room ∧
      (orphanTick s i r).1.rooms = setRoom s.rooms code (spawnPowerUp room code r).1 := by
  unfold orphanTick
  split
  · exact Or.inl rfl
  · rename_i code room0 _
    have hsp := fun room1 => spawn_rooms { s with orphans := s.orphans.set i (code, room1) } code r
    split
    · exact Or.inl rfl
    · split
      · dsimp only
        split
        · exact Or.inl rfl
        · rcases hsp { room0 with
            timer := none, gameState := { room0.gameState with started := true } } with
            h | ⟨room, hl, h⟩
          · exact Or.inl h
          · exact Or.inr ⟨code, room, hl, h⟩
      · exact Or.inl rfl

/-- Every room of the table after an event is an old room, the room literal of a
`createRoom`, or the result of a handler body on an old room with the same code. -/
theorem step_rooms (s : State) (e : Event) (cr : Nat × Room) (h : cr ∈ (step s e).1.rooms) :
    cr ∈ s.rooms ∨
    (∃ conn maxPlayers rCode r1 r2, e = Event.createRoom conn maxPlayers rCode r1 r2 ∧
      cr.2 = freshRoom conn maxPlayers r1 r2) ∨
    (∃ room, (cr.1, room) ∈ s.rooms ∧ RoomTrans room cr.2) := by
  have key : ∀ (f : Nat → Room → Option (Room × List Out)) (conn : Nat),
      (∀ code room res, f code room = some res → RoomTrans room res.1) →
      cr ∈ (onPlayerRoom s conn f).1.rooms →
      cr ∈ s.rooms ∨ (∃ room, (cr.1, room) ∈ s.rooms ∧ RoomTrans room cr.2) := by
    intro f conn hf hmem
    unfold onPlayerRoom at hmem
    split at hmem
    · exact Or.inl hmem
    · split at hmem
      · exact Or.inl hmem
      · rename_i code _ _ room hl
        split at hmem
        · exact Or.inl hmem
        · rename_i res hres
          rcases mem_setRoom hmem with h1 | h1
          · subst h1
            exact Or.inr ⟨room, lookup_mem hl, hf code room res hres⟩
          · exact Or.inl h1
  have lift : (cr ∈ s.rooms ∨ (∃ room, (cr.1, room) ∈ s.rooms ∧ RoomTrans room cr.2)) →
      cr ∈ s.rooms ∨
      (∃ conn maxPlayers rCode r1 r2, e = Event.createRoom conn maxPlayers rCode r1 r2 ∧
        cr.2 = freshRoom conn maxPlayers r1 r2) ∨
      (∃ room, (cr.1, room) ∈ s.rooms ∧ RoomTrans room cr.2) := by
    rintro (h1 | h1)
    · exact Or.inl h1
    · exact Or.inr (Or.inr h1)
  cases e with
  | createRoom conn maxPlayers rCode r1 r2 =>
    simp only [step, createRoom] at h
    rcases mem_setRoom h with h1 | h1
    · subst h1
      exact Or.inr (Or.inl ⟨conn, maxPlayers, rCode, r1, r2, rfl, rfl⟩)
    · exact Or.inl h1
  | joinRoom conn key1 =>
    apply lift
    cases key1 with
    | inherited => exact Or.inl h
    | text => exact Or.inl h
    | code roomCode =>
      simp only [step, joinRoom] at h
      split at h
      · exact Or.inl h
      · rename_i room hl
        split at h
        · exact Or.inl h
        · rename_i res hres
          rcases mem_setRoom h with h1 | h1
          · subst h1
            exact Or.inr ⟨room, lookup_mem hl, Or.inl ⟨roomCode, conn, res.2, hres⟩⟩
          · exact Or.inl h1
  | setUserInfo conn username avatar storeOk =>
    apply lift
    simp only [step, setUserInfo] at h
    split at h
    · refine key _ conn ?_ h
      intro code room res hres
      exact Or.inr (Or.inl ⟨code, conn, username, avatar, res.2, hres⟩)
    · exact Or.inl h
  | moveLeft conn =>
    apply lift
    refine key _ conn ?_ h
    intro code room res hres
    exact Or.inr (Or.inr (Or.inl ⟨code, conn, res.2, hres⟩))
  | moveRight conn =>
    apply lift
    refine key _ conn ?_ h
    intro code room res hres
    exact Or.inr (Or.inr (Or.inr (Or.inl ⟨code, conn, res.2, hres⟩)))
  | resetGame conn r1 r2 =>
    apply lift
    refine key _ conn ?_ h
    intro code room res hres
    exact Or.inr (Or.inr (Or.inr (Or.inr (Or.inl ⟨code, r1, r2, res.2, hres⟩))))
  | disconnect conn =>
    apply lift
    simp only [step, disconnect] at h
    split at h
    · exact Or.inl h
    · split at h
      · exact Or.inl h
      · rename_i code _ _ room hl
        split at h
        · exact Or.inl (mem_deleteRoom h)
        · rename_i res hres
          rcases mem_setRoom h with h1 | h1
          · subst h1
            exact Or.inr ⟨room, lookup_mem hl,
              Or.inr (Or.inr (Or.inr (Or.inr (Or.inr (Or.inl ⟨code, conn, res.2, hres⟩)))))⟩
          · exact Or.inl h1
  | tick roomCode r =>
    apply lift
    simp only [step, tick] at h
    split at h
    · exact Or.inl h
    · rename_i room hl
      split at h
      · exact Or.inl h
      · rcases mem_setRoom h with h1 | h1
        · subst h1
          exact Or.inr ⟨room, lookup_mem hl,
            Or.inr (Or.inr (Or.inr (Or.inr (Or.inr (Or.inr (Or.inl ⟨roomCode, r, rfl⟩))))))⟩
        · exact Or.inl h1
  | spawnPowerUp roomCode r =>
    apply lift
    simp only [step, spawn] at h
    split at h
    · exact Or.inl h
    · rename_i room hl
      split at h
      · exact Or.inl h
      · rcases mem_setRoom h with h1 | h1
        · subst h1
          exact Or.inr ⟨room, lookup_mem hl,
            Or.inr (Or.inr (Or.inr (Or.inr (Or.inr (Or.inr (Or.inr ⟨roomCode, r, rfl⟩))))))⟩
        · exact Or.inl h1
  | orphanTick i r =>
    apply lift
    simp only [step] at h
    rcases orphanTick_rooms s i r with h1 | ⟨code, room, hl, h1⟩
    · rw [h1] at h
      exact Or.inl h
    · rw [h1] at h
      rcases mem_setRoom h with h2 | h2
      · subst h2
        exact Or.inr ⟨room, lookup_mem hl,
          Or.inr (Or.inr (Or.inr (Or.inr (Or.inr (Or.inr (Or.inr ⟨code, r, rfl⟩))))))⟩
      · exact Or.inl h2

/-- Induction principle for room invariants: a property that holds of the room
literal of every allowed `createRoom` and is kept by every handler body holds of every
room after any run of allowed events. -/
theorem run_allRooms (P : Room → Prop) (Q : Event → Prop)
    (hfresh : ∀ conn maxPlayers rCode r1 r2, Q (Event.createRoom conn maxPlayers rCode r1 r2) →
      P (freshRoom conn maxPlayers r1 r2))
    (htrans : ∀ room room1, P room → RoomTrans room room1 → P room1) :
    ∀ (evs : List Event) (s : State), (∀ e ∈ evs, Q e) → (∀ cr ∈ s.rooms, P cr.2) →
      ∀ cr ∈ (run s evs).1.rooms, P cr.2 := by
  intro evs
  induction evs with
  | nil => intro s _ hs cr hcr; exact hs cr hcr
  | cons e es ih =>
    intro s hQ hs cr hcr
    simp only [run] at hcr
    refine ih (step s e).1 (fun e1 he1 => hQ e1 (List.mem_cons_of_mem _ he1)) ?_ cr hcr
    intro cr1 hcr1
    rcases step_rooms s e cr1 hcr1 with h | ⟨conn, mp, rc, r1, r2, he, hr⟩ | ⟨room, hmem, ht⟩
    · exact hs cr1 h
    · rw [hr]
      exact hfresh conn mp rc r1 r2 (he ▸ hQ e (List.mem_cons_self _ _))
    · exact htrans room cr1.2 (hs (cr1.1, room) hmem) ht

/-! ## Player entries -/

theorem mem_updatePlayer {players : List Player} {conn : Nat} {f : Player → Player} {q : Player}
    (h : q ∈ updatePlayer players conn f) :
    q ∈ players ∨ ∃ p, players.find? (fun p => p.id == conn) = some p ∧ q = f p := by
  induction players with
  | nil => simp [updatePlayer] at h
  | cons hd tl ih =>
    unfold updatePlayer at h
    by_cases hc : (hd.id == conn) = true
    · rw [if_pos hc] at h
      simp only [List.mem_cons] at h
      rcases h with h | h
      · exact Or.inr ⟨hd, by simp [List.find?_cons, hc], h⟩
      · exact Or.inl (List.mem_cons_of_mem _ h)
    · rw [if_neg hc] at h
      simp only [List.mem_cons] at h
      rcases h with h | h
      · exact Or.inl (h ▸ List.mem_cons_self _ _)
      · rcases ih h with h1 | ⟨p, hp, hq⟩
        · exact Or.inl (List.mem_cons_of_mem _ h1)
        · refine Or.inr ⟨p, ?_, hq⟩
          simp only [Bool.not_eq_true] at hc
          simp [List.find?_cons, hc, hp]

theorem find?_updatePlayer (players : List Player) (conn : Nat) (f : Player → Player)
    (hf : ∀ p, (f p).id = p.id) :
    (updatePlayer players conn f).find? (fun p => p.id == conn) =
      (players.find? (fun p => p.id == conn)).map f := by
  induction players with
  | nil => simp [updatePlayer]
  | cons hd tl ih =>
    unfold updatePlayer
    by_cases hc : (hd.id == conn) = true
    · have hc2 : ((f hd).id == conn) = true := by rw [hf]; exact hc
      simp [List.find?_cons, hc, hc2]
    · simp only [Bool.not_eq_true] at hc
      simp [List.find?_cons, hc, ih]

theorem length_updatePlayer (players : List Player) (conn : Nat) (f : Player → Player) :
    (updatePlayer players conn f).length = players.length := by
  induction players with
  | nil => simp [updatePlayer]
  | cons hd tl ih =>
    unfold updatePlayer
    split <;> simp [ih]

theorem onTrack_updatePlayer {players : List Player} {conn : Nat} {f : Player → Player}
    (h : PlayersOnTrack players)
    (hf : ∀ p, players.find? (fun p => p.id == conn) = some p →
      0 ≤ (f p).position ∧ (f p).position ≤ 10) :
    PlayersOnTrack (updatePlayer players conn f) := by
  intro q hq
  rcases mem_updatePlayer hq with h1 | ⟨p, hp, rfl⟩
  · exact h q h1
  · exact hf p hp

theorem onTrack_updatePlayer_keep {players : List Player} {conn : Nat} {f : Player → Player}
    (h : PlayersOnTrack players) (hf : ∀ p, (f p).position = p.position) :
    PlayersOnTrack (updatePlayer players conn f) := by
  refine onTrack_updatePlayer h ?_
  intro p hp
  rw [hf]
  exact h p (List.mem_of_find?_eq_some hp)

theorem onTrack_checkPowerUp {room : Room} (conn : Nat) (h : PlayersOnTrack room.players) :
    PlayersOnTrack (checkPowerUp room conn).players := by
  unfold checkPowerUp
  split
  · split
    · exact onTrack_updatePlayer_keep h (fun _ => rfl)
    · exact h
  · exact h

theorem checkPenaltyOn_position (zones : List Int) (conn : Nat) (p : Player) :
    (checkPenaltyOn zones conn p).1.position = p.position := by
  unfold checkPenaltyOn
  split_ifs <;> rfl

theorem checkPenaltyOn_id (zones : List Int) (conn : Nat) (p : Player) :
    (checkPenaltyOn zones conn p).1.id = p.id := by
  unfold checkPenaltyOn
  split_ifs <;> rfl

theorem onTrack_checkPenalty {room : Room} (conn : Nat) (h : PlayersOnTrack room.players) :
    PlayersOnTrack (checkPenalty room conn).1.players := by
  unfold checkPenalty
  split
  · exact h
  · exact onTrack_updatePlayer_keep h (fun p => checkPenaltyOn_position _ _ p)

theorem mem_setPlayer {players : List Player} {p q : Player} (h : q ∈ setPlayer players p) :
    q = p ∨ q ∈ players := by
  unfold setPlayer at h
  split at h
  · rcases mem_updatePlayer h with h1 | ⟨_, _, h1⟩
    · exact Or.inr h1
    · exact Or.inl h1
  · rcases List.mem_append.mp h with h1 | h1
    · exact Or.inr h1
    · exact Or.inl (List.mem_singleton.mp h1)

theorem spawnPowerUp_players (room : Room) (code r : Nat) :
    (spawnPowerUp room code r).1.players = room.players := by
  unfold spawnPowerUp
  split <;> rfl

theorem timerTick_players (room : Room) (code r : Nat) :
    (timerTick room code r).1.players = room.players := by
  unfold timerTick
  split
  · rfl
  · dsimp only
    split
    · rw [spawnPowerUp_players]
    · rfl

theorem startGameCountdown_players (room : Room) (code : Nat) :
    (startGameCountdown room code).1.players = room.players := by
  unfold startGameCountdown
  split <;> rfl

/-- What a successful join does to the room: the caller's entry is assigned, the
game state and capacity stay, and the join was admitted. -/
theorem joinRoomIn_ok {code : Nat} {room room1 : Room} {conn : Nat} {outs : List Out}
    (h : joinRoomIn code room conn = Except.ok (room1, outs)) :
    room1.players = setPlayer room.players (newPlayer conn) ∧
    room1.gameState = room.gameState ∧ room1.maxPlayers = room.maxPlayers ∧
    (room.players.length : Int) < room.maxPlayers ∧ room.gameState.started = false := by
  unfold joinRoomIn at h
  split at h
  · exact absurd h (by simp)
  · rename_i h1
    split at h
    · exact absurd h (by simp)
    · rename_i h2
      dsimp only at h
      split at h
      · simp only [Except.ok.injEq, Prod.mk.injEq] at h
        obtain ⟨h, -⟩ := h
        subst h
        refine ⟨startGameCountdown_players _ _, ?_, ?_, by omega, by simpa using h2⟩
        · unfold startGameCountdown; split <;> rfl
        · unfold startGameCountdown; split <;> rfl
      · simp only [Except.ok.injEq, Prod.mk.injEq] at h
        obtain ⟨h, -⟩ := h
        subst h
        exact ⟨rfl, rfl, rfl, by omega, by simpa using h2⟩

theorem onTrack_landOn {room : Room} (conn : Nat) (cell : Int) (hr : PlayersOnTrack room.players)
    (hc : 0 ≤ cell ∧ cell ≤ 10) : PlayersOnTrack (landOn room conn cell).1.players := by
  unfold landOn
  apply onTrack_checkPenalty
  apply onTrack_checkPowerUp
  exact onTrack_updatePlayer hr (fun _ _ => hc)

/-- Case analysis of a left move that did something. -/
theorem moveLeftIn_cases {code : Nat} {room room1 : Room} {conn : Nat} {outs : List Out}
    (h : moveLeftIn code room conn = some (room1, outs)) :
    room.gameState.started = true ∧ ∃ player, room.player? conn = some player ∧
      0 < player.position ∧ room1 = (landOn room conn (player.position - 1)).1 ∧
      outs = (landOn room conn (player.position - 1)).2 ++ [snapshot code room1] := by
  unfold moveLeftIn at h
  split at h
  swap
  · exact absurd h (by simp)
  rename_i hst
  refine ⟨hst, ?_⟩
  split at h
  · exact absurd h (by simp)
  · rename_i player hp
    split at h
    swap
    · exact absurd h (by simp)
    rename_i h2
    simp only [Option.some.injEq, Prod.mk.injEq] at h
    obtain ⟨h, h3⟩ := h
    subst h
    exact ⟨player, hp, h2, rfl, h3.symm⟩

theorem onTrack_moveLeftIn {code : Nat} {room room1 : Room} {conn : Nat} {outs : List Out}
    (h : moveLeftIn code room conn = some (room1, outs)) (hr : PlayersOnTrack room.players) :
    PlayersOnTrack room1.players := by
  obtain ⟨-, player, hp, hpos, rfl, -⟩ := moveLeftIn_cases h
  have := hr player (List.mem_of_find?_eq_some hp)
  exact onTrack_landOn conn _ hr ⟨by omega, by omega⟩

theorem targetCell_bounds (player : Player) (h : 0 ≤ player.position) :
    0 ≤ targetCell player := by
  unfold targetCell
  split <;> omega

theorem onTrack_consumeBoost {room : Room} (conn : Nat) (player : Player)
    (hr : PlayersOnTrack room.players) : PlayersOnTrack (consumeBoost room conn player).players := by
  unfold consumeBoost
  split
  · exact onTrack_updatePlayer_keep hr (fun _ => rfl)
  · exact hr

theorem consumeBoost_gameState (room : Room) (conn : Nat) (player : Player) :
    (consumeBoost room conn player).gameState = room.gameState := by
  unfold consumeBoost
  split <;> rfl

/-- Case analysis of a right move that did something: absorbed by an active wall,
committed, or (not on any reachable state) only the boost was spent. -/
theorem moveRightIn_cases {code : Nat} {room room1 : Room} {conn : Nat} {outs : List Out}
    (h : moveRightIn code room conn = some (room1, outs)) :
    room.gameState.started = true ∧ ∃ player, room.player? conn = some player ∧
      ((∃ wall, room.gameState.walls.find? (fun w => w.position == targetCell player) = some wall ∧
          wall.hits < wall.maxHits ∧
          room1 = absorbedBy room conn player wall ∧
          outs = [snapshot code room1]) ∨
       (targetCell player ≤ 10 ∧ activeWallAt room.gameState.walls (targetCell player) = false ∧
          room1 = (landOn (consumeBoost room conn player) conn (targetCell player)).1 ∧
          outs = (landOn (consumeBoost room conn player) conn (targetCell player)).2 ++
            [snapshot code room1] ++ winOuts code conn (targetCell player)) ∨
       (room1 = consumeBoost room conn player ∧ outs = [])) := by
  unfold moveRightIn at h
  split at h
  swap
  · exact absurd h (by simp)
  rename_i hst
  refine ⟨hst, ?_⟩
  split at h
  · exact absurd h (by simp)
  · rename_i player hp
    refine ⟨player, hp, ?_⟩
    dsimp only at h
    split at h
    · rename_i wall hw
      simp only [Option.some.injEq, Prod.mk.injEq] at h
      obtain ⟨h, h3⟩ := h
      subst h
      rw [Option.filter_eq_some] at hw
      exact Or.inl ⟨wall, hw.1, by simpa using hw.2, rfl, h3.symm⟩
    · split at h
      · rename_i h2
        simp only [Option.some.injEq, Prod.mk.injEq] at h
        obtain ⟨h, h3⟩ := h
        subst h
        exact Or.inr (Or.inl ⟨h2.1, h2.2, rfl, h3.symm⟩)
      · split at h
        · simp only [Option.some.injEq, Prod.mk.injEq] at h
          obtain ⟨h, h3⟩ := h
          subst h
          exact Or.inr (Or.inr ⟨rfl, h3.symm⟩)
        · exact absurd h (by simp)

theorem onTrack_moveRightIn {code : Nat} {room room1 : Room} {conn : Nat} {outs : List Out}
    (h : moveRightIn code room conn = some (room1, outs)) (hr : PlayersOnTrack room.players) :
    PlayersOnTrack room1.players := by
  obtain ⟨-, player, hp, hcase⟩ := moveRightIn_cases h
  have h0 := onTrack_consumeBoost conn player hr
  have hpos := hr player (List.mem_of_find?_eq_some hp)
  rcases hcase with ⟨wall, -, -, rfl, -⟩ | ⟨h1, -, rfl, -⟩ | ⟨rfl, -⟩
  · exact h0
  · exact onTrack_landOn conn _ h0 ⟨targetCell_bounds player hpos.1, h1⟩
  · exact h0

theorem onTrack_roomTrans {room room1 : Room} (hr : PlayersOnTrack room.players)
    (ht : RoomTrans room room1) : PlayersOnTrack room1.players := by
  rcases ht with ⟨code, conn, outs, h⟩ | ⟨code, conn, u, a, outs, h⟩ | ⟨code, conn, outs, h⟩ |
    ⟨code, conn, outs, h⟩ | ⟨code, r1, r2, outs, h⟩ | ⟨code, conn, outs, h⟩ | ⟨code, r, h⟩ |
    ⟨code, r, h⟩
  · rw [(joinRoomIn_ok h).1]
    intro q hq
    rcases mem_setPlayer hq with h1 | h1
    · subst h1
      simp [newPlayer]
    · exact hr q h1
  · simp only [setUserInfoIn, Option.some.injEq, Prod.mk.injEq] at h
    obtain ⟨h, -⟩ := h
    subst h
    exact onTrack_updatePlayer_keep hr (fun _ => rfl)
  · exact onTrack_moveLeftIn h hr
  · exact onTrack_moveRightIn h hr
  · simp only [resetGameIn, Option.some.injEq, Prod.mk.injEq] at h
    obtain ⟨h, -⟩ := h
    subst h
    intro q hq
    simp only [List.mem_map] at hq
    obtain ⟨p, -, rfl⟩ := hq
    simp
  · unfold disconnectIn at h
    dsimp only at h
    split_ifs at h
    split at h
    all_goals
      simp only [Option.some.injEq, Prod.mk.injEq] at h
      obtain ⟨h, -⟩ := h
      subst h
      intro q hq
      exact hr q (List.mem_filter.mp hq).1
  · rw [h, timerTick_players]
    exact hr
  · rw [h, spawnPowerUp_players]
    exact hr

/-- Claim C1.  In every state reached from the empty table by any sequence of events
(createRoom, joinRoom, setUserInfo, moveLeft, moveRight with or without boost,
resetGame, disconnect, countdown ticks and power-up spawns), every player of every
room has an integer position with 0 <= position <= 10. -/
theorem C1_position_within_track (evs : List Event) (code : Nat) (room : Room) (p : Player)
    (hroom : (code, room) ∈ (run init evs).1.rooms) (hp : p ∈ room.players) :
    0 ≤ p.position ∧ p.position ≤ 10 := by
  have hall := run_allRooms (fun room => PlayersOnTrack room.players) (fun _ => True)
    (by
      intro conn mp rc r1 r2 _ q hq
      simp only [freshRoom, List.mem_singleton] at hq
      subst hq
      simp [newPlayer])
    (fun room room1 hr ht => onTrack_roomTrans hr ht)
    evs init (fun _ _ => trivial) (by intro cr hcr; simp [init] at hcr)
  exact hall (code, room) hroom p hp

/-- Witness of C1: at the end of `winTrace` connection 1 stands on cell 10. -/
theorem C1_position_within_track_witness :
    (1000, wonRoom) ∈ (run init winTrace).1.rooms ∧ winnerEntry ∈ wonRoom.players ∧
      (0 ≤ winnerEntry.position ∧ winnerEntry.position ≤ 10) :=
  ⟨by decide, by decide,
    C1_position_within_track winTrace 1000 wonRoom winnerEntry (by decide) (by decide)⟩

/-! ## Walls -/

theorem randIndex_lt (r n : Nat) (h : 0 < n) : randIndex r n < n := by
  unfold randIndex
  rw [if_neg (by omega)]
  exact Nat.mod_lt _ h

theorem wallsOK_fresh (r1 r2 : Nat) : WallsOK (freshGameState r1 r2).walls := by
  have h1 := randIndex_lt r1 4 (by decide)
  have h2 := randIndex_lt r2 4 (by decide)
  refine ⟨?_, ?_⟩
  · intro w hw
    simp only [freshGameState, List.mem_cons, List.mem_singleton, List.not_mem_nil,
      or_false] at hw
    rcases hw with rfl | rfl <;> refine ⟨rfl, by norm_num, ?_, ?_⟩ <;> dsimp only <;> omega
  · simp only [freshGameState, List.map_cons, List.map_nil, List.nodup_cons, List.mem_singleton,
      List.not_mem_nil, not_false_eq_true, List.nodup_nil, and_true]
    omega

theorem hitWall_positions (walls : List Wall) (pos : Int) :
    (hitWall walls pos).map (fun w => w.position) = walls.map (fun w => w.position) := by
  induction walls with
  | nil => rfl
  | cons hd tl ih =>
    unfold hitWall
    split
    · rfl
    · simp only [List.map_cons, ih]

theorem mem_hitWall {walls : List Wall} {pos : Int} {w : Wall} (h : w ∈ hitWall walls pos) :
    w ∈ walls ∨ ∃ wall, walls.find? (fun w => w.position == pos) = some wall ∧
      w = { wall with hits := wall.hits + 1 } := by
  induction walls with
  | nil => simp [hitWall] at h
  | cons hd tl ih =>
    unfold hitWall at h
    by_cases hc : hd.position = pos
    · rw [if_pos hc] at h
      simp only [List.mem_cons] at h
      rcases h with h | h
      · exact Or.inr ⟨hd, by simp [List.find?_cons, hc], h⟩
      · exact Or.inl (List.mem_cons_of_mem _ h)
    · rw [if_neg hc] at h
      simp only [List.mem_cons] at h
      rcases h with h | h
      · exact Or.inl (h ▸ List.mem_cons_self _ _)
      · rcases ih h with h1 | ⟨wall, hw, hq⟩
        · exact Or.inl (List.mem_cons_of_mem _ h1)
        · refine Or.inr ⟨wall, ?_, hq⟩
          simp [List.find?_cons, hc, hw]

/-- The wall list after a right move was absorbed by the active wall `wall`. -/
theorem wallsOK_hit {walls : List Wall} {pos : Int} {wall : Wall} (h : WallsOK walls)
    (hfind : walls.find? (fun w => w.position == pos) = some wall) :
    WallsOK (if wall.hits + 1 = wall.maxHits then
        (hitWall walls pos).filter (fun w => w.position != wall.position)
      else hitWall walls pos) := by
  have hmemw := List.mem_of_find?_eq_some hfind
  have hw := h.1 wall hmemw
  split
  · refine ⟨?_, ?_⟩
    · intro w hwm
      obtain ⟨hwm, hne⟩ := List.mem_filter.mp hwm
      rcases mem_hitWall hwm with h1 | ⟨wall1, hf1, rfl⟩
      · exact h.1 w h1
      · rw [hfind] at hf1
        obtain rfl := Option.some.inj hf1
        simp at hne
    · have hsub : List.Sublist
          (((hitWall walls pos).filter (fun w => w.position != wall.position)).map
            (fun w => w.position))
          ((hitWall walls pos).map (fun w => w.position)) :=
        List.Sublist.map _ (List.filter_sublist _)
      rw [hitWall_positions] at hsub
      exact h.2.sublist hsub
  · rename_i hne
    refine ⟨?_, ?_⟩
    · intro w hwm
      rcases mem_hitWall hwm with h1 | ⟨wall1, hf1, rfl⟩
      · exact h.1 w h1
      · rw [hfind] at hf1
        obtain rfl := Option.some.inj hf1
        dsimp only
        refine ⟨hw.1, ?_, hw.2.2.1, hw.2.2.2⟩
        omega
    · rw [hitWall_positions]
      exact h.2

/-! ## What each handler body leaves alone -/

theorem ids_updatePlayer (players : List Player) (conn : Nat) (f : Player → Player)
    (hf : ∀ p, (f p).id = p.id) :
    (updatePlayer players conn f).map (fun p => p.id) = players.map (fun p => p.id) := by
  induction players with
  | nil => rfl
  | cons hd tl ih =>
    unfold updatePlayer
    split
    · simp [hf]
    · simp [ih]

theorem checkPowerUp_ids (room : Room) (conn : Nat) :
    (checkPowerUp room conn).players.map (fun p => p.id) = room.players.map (fun p => p.id) := by
  unfold checkPowerUp
  split
  · split
    · exact ids_updatePlayer _ _ _ (fun _ => rfl)
    · rfl
  · rfl

theorem checkPowerUp_frame (room : Room) (conn : Nat) :
    (checkPowerUp room conn).gameState.walls = room.gameState.walls ∧
    (checkPowerUp room conn).gameState.penaltyZones = room.gameState.penaltyZones ∧
    (checkPowerUp room conn).gameState.started = room.gameState.started ∧
    (checkPowerUp room conn).maxPlayers = room.maxPlayers ∧
    (checkPowerUp room conn).timer = room.timer := by
  unfold checkPowerUp
  split
  · split <;> simp
  · simp

theorem checkPenalty_ids (room : Room) (conn : Nat) :
    (checkPenalty room conn).1.players.map (fun p => p.id) = room.players.map (fun p => p.id) := by
  unfold checkPenalty
  split
  · rfl
  · exact ids_updatePlayer _ _ _ (fun p => checkPenaltyOn_id _ _ p)

theorem checkPenalty_frame (room : Room) (conn : Nat) :
    (checkPenalty room conn).1.gameState = room.gameState ∧
    (checkPenalty room conn).1.maxPlayers = room.maxPlayers ∧
    (checkPenalty room conn).1.timer = room.timer := by
  unfold checkPenalty
  split <;> simp

theorem landOn_ids (room : Room) (conn : Nat) (cell : Int) :
    (landOn room conn cell).1.players.map (fun p => p.id) = room.players.map (fun p => p.id) := by
  unfold landOn
  rw [checkPenalty_ids, checkPowerUp_ids]
  exact ids_updatePlayer _ _ _ (fun _ => rfl)

theorem landOn_frame (room : Room) (conn : Nat) (cell : Int) :
    (landOn room conn cell).1.gameState.walls = room.gameState.walls ∧
    (landOn room conn cell).1.gameState.penaltyZones = room.gameState.penaltyZones ∧
    (landOn room conn cell).1.gameState.started = room.gameState.started ∧
    (landOn room conn cell).1.maxPlayers = room.maxPlayers ∧
    (landOn room conn cell).1.timer = room.timer := by
  unfold landOn
  obtain ⟨h1, h2, h3⟩ := checkPenalty_frame
    (checkPowerUp { room with
      players := updatePlayer room.players conn (fun q => { q with position := cell }) } conn) conn
  obtain ⟨g1, g2, g3, g4, g5⟩ := checkPowerUp_frame
    { room with
      players := updatePlayer room.players conn (fun q => { q with position := cell }) } conn
  dsimp only at h1 h2 h3 g1 g2 g3 g4 g5 ⊢
  rw [h1, h2, h3]
  exact ⟨g1, g2, g3, g4, g5⟩

theorem consumeBoost_ids (room : Room) (conn : Nat) (player : Player) :
    (consumeBoost room conn player).players.map (fun p => p.id) =
      room.players.map (fun p => p.id) := by
  unfold consumeBoost
  split
  · exact ids_updatePlayer _ _ _ (fun _ => rfl)
  · rfl

theorem consumeBoost_frame (room : Room) (conn : Nat) (player : Player) :
    (consumeBoost room conn player).maxPlayers = room.maxPlayers ∧
    (consumeBoost room conn player).timer = room.timer := by
  unfold consumeBoost
  split <;> simp

theorem spawnPowerUp_frame (room : Room) (code r : Nat) :
    (spawnPowerUp room code r).1.gameState.walls = room.gameState.walls ∧
    (spawnPowerUp room code r).1.gameState.penaltyZones = room.gameState.penaltyZones ∧
    (spawnPowerUp room code r).1.gameState.started = room.gameState.started ∧
    (spawnPowerUp room code r).1.maxPlayers = room.maxPlayers ∧
    (spawnPowerUp room code r).1.timer = room.timer := by
  unfold spawnPowerUp
  split <;> simp

theorem timerTick_frame (room : Room) (code r : Nat) :
    (timerTick room code r).1.gameState.walls = room.gameState.walls ∧
    (timerTick room code r).1.gameState.penaltyZones = room.gameState.penaltyZones ∧
    (timerTick room code r).1.maxPlayers = room.maxPlayers := by
  unfold timerTick
  split
  · simp
  · dsimp only
    split
    · obtain ⟨h1, h2, -, h4, -⟩ := spawnPowerUp_frame
        { room with timer := none, gameState := { room.gameState with started := true } } code r
      exact ⟨h1, h2, h4⟩
    · simp

/-- Frame of a handler body: the capacity never changes; the game state is replaced by
a fresh literal, or keeps its penalty zones with the walls either kept or hit once; the
key set of `players` is kept, gets one assignment, or loses one key. -/
theorem roomTrans_frame {room room1 : Room} (ht : RoomTrans room room1) :
    room1.maxPlayers = room.maxPlayers ∧
    ((∃ r1 r2, room1.gameState = freshGameState r1 r2) ∨
      (room1.gameState.penaltyZones = room.gameState.penaltyZones ∧
        (room1.gameState.walls = room.gameState.walls ∨
          ∃ pos wall, room.gameState.walls.find? (fun w => w.position == pos) = some wall ∧
            room1.gameState.walls = wallsAfterHit room.gameState.walls pos wall))) ∧
    (room1.players.map (fun p => p.id) = room.players.map (fun p => p.id) ∨
      (∃ conn, room1.players = setPlayer room.players (newPlayer conn) ∧
        (room.players.length : Int) < room.maxPlayers) ∨
      (∃ conn, room1.players = room.players.filter (fun p => p.id != conn) ∧
        room1.players ≠ [])) := by
  rcases ht with ⟨code, conn, outs, h⟩ | ⟨code, conn, u, a, outs, h⟩ | ⟨code, conn, outs, h⟩ |
    ⟨code, conn, outs, h⟩ | ⟨code, r1, r2, outs, h⟩ | ⟨code, conn, outs, h⟩ | ⟨code, r, h⟩ |
    ⟨code, r, h⟩
  · obtain ⟨h1, h2, h3, h4, -⟩ := joinRoomIn_ok h
    exact ⟨h3, Or.inr ⟨by rw [h2], Or.inl (by rw [h2])⟩, Or.inr (Or.inl ⟨conn, h1, h4⟩)⟩
  · simp only [setUserInfoIn, Option.some.injEq, Prod.mk.injEq] at h
    obtain ⟨h, -⟩ := h
    subst h
    exact ⟨rfl, Or.inr ⟨rfl, Or.inl rfl⟩, Or.inl (ids_updatePlayer _ _ _ (fun _ => rfl))⟩
  · obtain ⟨-, player, -, -, rfl, -⟩ := moveLeftIn_cases h
    obtain ⟨h1, h2, -, h4, -⟩ := landOn_frame room conn (player.position - 1)
    exact ⟨h4, Or.inr ⟨h2, Or.inl h1⟩, Or.inl (landOn_ids _ _ _)⟩
  · obtain ⟨-, player, -, hcase⟩ := moveRightIn_cases h
    rcases hcase with ⟨wall, hf, -, rfl, -⟩ | ⟨-, -, rfl, -⟩ | ⟨rfl, -⟩
    · exact ⟨(consumeBoost_frame _ _ _).1, Or.inr ⟨rfl, Or.inr ⟨_, wall, hf, rfl⟩⟩,
        Or.inl (consumeBoost_ids _ _ _)⟩
    · obtain ⟨h1, h2, -, h4, -⟩ := landOn_frame (consumeBoost room conn player) conn
        (targetCell player)
      rw [consumeBoost_gameState] at h1 h2
      refine ⟨h4.trans (consumeBoost_frame _ _ _).1, Or.inr ⟨h2, Or.inl h1⟩, Or.inl ?_⟩
      rw [landOn_ids, consumeBoost_ids]
    · refine ⟨(consumeBoost_frame _ _ _).1, Or.inr ⟨?_, Or.inl ?_⟩,
        Or.inl (consumeBoost_ids _ _ _)⟩ <;> rw [consumeBoost_gameState]
  · simp only [resetGameIn, Option.some.injEq, Prod.mk.injEq] at h
    obtain ⟨h, -⟩ := h
    subst h
    refine ⟨rfl, Or.inl ⟨r1, r2, rfl⟩, Or.inl ?_⟩
    simp [List.map_map, Function.comp_def]
  · unfold disconnectIn at h
    dsimp only at h
    split at h
    · exact absurd h (by simp)
    · rename_i hne
      have hne1 : room.players.filter (fun p => p.id != conn) ≠ [] := by
        intro h0
        exact hne (by rw [h0]; rfl)
      split at h
      all_goals
        simp only [Option.some.injEq, Prod.mk.injEq] at h
        obtain ⟨h, -⟩ := h
        subst h
        exact ⟨rfl, Or.inr ⟨rfl, Or.inl rfl⟩, Or.inr (Or.inr ⟨conn, rfl, hne1⟩)⟩
  · obtain ⟨h1, h2, h3⟩ := timerTick_frame room code r
    rw [h]
    exact ⟨h3, Or.inr ⟨h2, Or.inl h1⟩, Or.inl (by rw [timerTick_players])⟩
  · obtain ⟨h1, h2, -, h4, -⟩ := spawnPowerUp_frame room code r
    rw [h]
    exact ⟨h4, Or.inr ⟨h2, Or.inl h1⟩, Or.inl (by rw [spawnPowerUp_players])⟩

/-! ## Invariants of reachable states -/

theorem ids_setPlayer (players : List Player) (p : Player) :
    (setPlayer players p).map (fun q => q.id) =
      if players.any (fun q => q.id == p.id) then players.map (fun q => q.id)
      else players.map (fun q => q.id) ++ [p.id] := by
  unfold setPlayer
  split
  · have key : ∀ l : List Player, l.any (fun q => q.id == p.id) = true →
        (updatePlayer l p.id (fun _ => p)).map (fun q => q.id) = l.map (fun q => q.id) := by
      intro l
      induction l with
      | nil => intro h; simp at h
      | cons hd tl ih =>
        intro h
        unfold updatePlayer
        by_cases hc : (hd.id == p.id) = true
        · rw [if_pos hc]
          simp only [List.map_cons, List.cons.injEq, and_true]
          exact (beq_iff_eq.mp hc).symm
        · rw [if_neg hc]
          simp only [List.any_cons, Bool.or_eq_true] at h
          simp only [List.map_cons, List.cons.injEq, true_and]
          exact ih (h.resolve_left hc)
    exact key players (by assumption)
  · simp

theorem roomWF_fresh (conn : Nat) (maxPlayers : Int) (r1 r2 : Nat) :
    RoomWF (freshRoom conn maxPlayers r1 r2) :=
  ⟨wallsOK_fresh r1 r2, rfl, by simp [freshRoom], by simp [freshRoom]⟩

theorem roomWF_roomTrans {room room1 : Room} (hr : RoomWF room) (ht : RoomTrans room room1) :
    RoomWF room1 := by
  obtain ⟨-, hgs, hpl⟩ := roomTrans_frame ht
  have hw : WallsOK room1.gameState.walls ∧ room1.gameState.penaltyZones = [2, 7] := by
    rcases hgs with ⟨r1, r2, h⟩ | ⟨hz, h | ⟨pos, wall, hf, h⟩⟩
    · rw [h]; exact ⟨wallsOK_fresh r1 r2, rfl⟩
    · rw [h, hz]; exact ⟨hr.walls, hr.zones⟩
    · rw [h, hz]; exact ⟨wallsOK_hit hr.walls hf, hr.zones⟩
  have hp : (room1.players.map (fun p => p.id)).Nodup ∧ room1.players ≠ [] := by
    rcases hpl with h | ⟨conn, h, -⟩ | ⟨conn, h, hne⟩
    · refine ⟨h ▸ hr.ids, ?_⟩
      intro h0
      rw [h0] at h
      exact hr.nonempty (List.map_eq_nil_iff.mp h.symm)
    · refine ⟨?_, ?_⟩
      · rw [h, ids_setPlayer]
        split
        · exact hr.ids
        · rename_i hany
          refine List.Nodup.append hr.ids (List.nodup_singleton _) ?_
          simp only [List.disjoint_singleton, List.mem_map, not_exists, not_and]
          intro q hq hid
          exact hany (List.any_eq_true.mpr ⟨q, hq, by simpa using hid⟩)
      · intro h0
        have hlen := congrArg List.length (ids_setPlayer room.players (newPlayer conn))
        rw [← h, h0] at hlen
        have hpos : 0 < room.players.length := List.length_pos.mpr hr.nonempty
        split at hlen <;> simp at hlen
        omega
    · refine ⟨?_, hne⟩
      rw [h]
      exact hr.ids.sublist (List.Sublist.map _ (List.filter_sublist _))
  exact ⟨hw.1, hw.2, hp.1, hp.2⟩

theorem sorted_setRoom (rooms : List (Nat × Room)) (code : Nat) (room : Room)
    (h : (rooms.map (fun cr => cr.1)).Pairwise (fun a b => a < b)) :
    ((setRoom rooms code room).map (fun cr => cr.1)).Pairwise (fun a b => a < b) ∧
    ∀ c ∈ (setRoom rooms code room).map (fun cr => cr.1),
      c = code ∨ c ∈ rooms.map (fun cr => cr.1) := by
  induction rooms with
  | nil => simp [setRoom]
  | cons hd tl ih =>
    obtain ⟨c, r⟩ := hd
    simp only [List.map_cons, List.pairwise_cons] at h
    obtain ⟨h1, h2⟩ := h
    obtain ⟨ih1, ih2⟩ := ih h2
    unfold setRoom
    split_ifs with hlt heq
    · refine ⟨?_, ?_⟩
      · simp only [List.map_cons, List.pairwise_cons, List.mem_cons]
        refine ⟨?_, h1, h2⟩
        rintro a (rfl | ha)
        · exact hlt
        · exact lt_trans hlt (h1 a ha)
      · intro a ha
        simp only [List.map_cons, List.mem_cons] at ha ⊢
        tauto
    · subst heq
      refine ⟨?_, ?_⟩
      · simp only [List.map_cons, List.pairwise_cons]
        exact ⟨h1, h2⟩
      · intro a ha
        simp only [List.map_cons, List.mem_cons] at ha ⊢
        tauto
    · refine ⟨?_, ?_⟩
      · simp only [List.map_cons, List.pairwise_cons]
        refine ⟨?_, ih1⟩
        intro a ha
        rcases ih2 a ha with rfl | ha1
        · omega
        · exact h1 a ha1
      · intro a ha
        simp only [List.map_cons, List.mem_cons] at ha ⊢
        rcases ha with rfl | ha
        · exact Or.inr (Or.inl rfl)
        · rcases ih2 a ha with rfl | ha1
          · exact Or.inl rfl
          · exact Or.inr (Or.inr ha1)

/-- The table after an event is the old table, one assignment to it, or one deletion. -/
theorem step_shape (s : State) (e : Event) :
    (step s e).1.rooms = s.rooms ∨
      (∃ code room, (step s e).1.rooms = setRoom s.rooms code room) ∨
      ∃ code, (step s e).1.rooms = deleteRoom s.rooms code := by
  have key : ∀ (f : Nat → Room → Option (Room × List Out)) (conn : Nat),
      (onPlayerRoom s conn f).1.rooms = s.rooms ∨
        (∃ code room, (onPlayerRoom s conn f).1.rooms = setRoom s.rooms code room) ∨
        ∃ code, (onPlayerRoom s conn f).1.rooms = deleteRoom s.rooms code := by
    intro f conn
    unfold onPlayerRoom
    split
    · exact Or.inl rfl
    · split
      · exact Or.inl rfl
      · split
        · exact Or.inl rfl
        · exact Or.inr (Or.inl ⟨_, _, rfl⟩)
  cases e with
  | createRoom conn maxPlayers rCode r1 r2 => exact Or.inr (Or.inl ⟨_, _, rfl⟩)
  | joinRoom conn key1 =>
    cases key1 with
    | inherited => exact Or.inl rfl
    | text => exact Or.inl rfl
    | code roomCode =>
      simp only [step, joinRoom]
      split
      · exact Or.inl rfl
      · split
        · exact Or.inl rfl
        · exact Or.inr (Or.inl ⟨_, _, rfl⟩)
  | setUserInfo conn username avatar storeOk =>
    simp only [step, setUserInfo]
    split
    · exact key _ conn
    · exact Or.inl rfl
  | moveLeft conn => exact key _ conn
  | moveRight conn => exact key _ conn
  | resetGame conn r1 r2 => exact key _ conn
  | disconnect conn =>
    simp only [step, disconnect]
    split
    · exact Or.inl rfl
    · split
      · exact Or.inl rfl
      · split
        · exact Or.inr (Or.inr ⟨_, rfl⟩)
        · exact Or.inr (Or.inl ⟨_, _, rfl⟩)
  | tick roomCode r =>
    simp only [step, tick]
    split
    · exact Or.inl rfl
    · split
      · exact Or.inl rfl
      · exact Or.inr (Or.inl ⟨_, _, rfl⟩)
  | spawnPowerUp roomCode r =>
    rcases spawn_rooms s roomCode r with h | ⟨room, _, h⟩
    · exact Or.inl h
    · exact Or.inr (Or.inl ⟨_, _, h⟩)
  | orphanTick i r =>
    rcases orphanTick_rooms s i r with h | ⟨code, room, _, h⟩
    · exact Or.inl h
    · exact Or.inr (Or.inl ⟨_, _, h⟩)

theorem sorted_step (s : State) (e : Event) (h : Sorted s) : Sorted (step s e).1 := by
  unfold Sorted at h ⊢
  rcases step_shape s e with h1 | ⟨code, room, h1⟩ | ⟨code, h1⟩
  · rw [h1]; exact h
  · rw [h1]; exact (sorted_setRoom s.rooms code room h).1
  · rw [h1]
    exact List.Pairwise.sublist (List.Sublist.map _ (List.filter_sublist _)) h

theorem sorted_run (evs : List Event) : ∀ s, Sorted s → Sorted (run s evs).1 := by
  induction evs with
  | nil => intro s h; exact h
  | cons e es ih => intro s h; exact ih _ (sorted_step s e h)

/-- Every reachable state has ascending room codes and well-shaped rooms. -/
theorem reachable_wf {s : State} (h : Reachable s) :
    Sorted s ∧ ∀ cr ∈ s.rooms, RoomWF cr.2 := by
  obtain ⟨evs, rfl⟩ := h
  refine ⟨sorted_run evs init (by simp [Sorted, init]), ?_⟩
  exact run_allRooms RoomWF (fun _ => True)
    (fun conn mp _ r1 r2 _ => roomWF_fresh conn mp r1 r2)
    (fun room room1 hr ht => roomWF_roomTrans hr ht)
    evs init (fun _ _ => trivial) (by intro cr hcr; simp [init] at hcr)

/-! ## Right move into an active wall -/

theorem onPlayerRoom_eq {s : State} {conn code : Nat} {room : Room}
    (f : Nat → Room → Option (Room × List Out))
    (h1 : getPlayerRoom s conn = some code) (h2 : lookup s code = some room) :
    onPlayerRoom s conn f =
      match f code room with
      | none => (s, [])
      | some res => ({ s with rooms := setRoom s.rooms code res.1 }, res.2) := by
  simp only [onPlayerRoom, h1, h2]

theorem onPlayerRoom_some {s : State} {conn code : Nat} {room : Room}
    {f : Nat → Room → Option (Room × List Out)} {res : Room × List Out}
    (h1 : getPlayerRoom s conn = some code) (h2 : lookup s code = some room)
    (h3 : f code room = some res) :
    onPlayerRoom s conn f = ({ s with rooms := setRoom s.rooms code res.1 }, res.2) := by
  rw [onPlayerRoom_eq f h1 h2, h3]

theorem onPlayerRoom_none {s : State} {conn code : Nat} {room : Room}
    {f : Nat → Room → Option (Room × List Out)}
    (h1 : getPlayerRoom s conn = some code) (h2 : lookup s code = some room)
    (h3 : f code room = none) : onPlayerRoom s conn f = (s, []) := by
  rw [onPlayerRoom_eq f h1 h2, h3]

theorem find?_wall_of_nodup {walls : List Wall} {wall : Wall}
    (hnd : (walls.map (fun w => w.position)).Nodup) (hmem : wall ∈ walls) :
    walls.find? (fun w => w.position == wall.position) = some wall := by
  induction walls with
  | nil => simp at hmem
  | cons hd tl ih =>
    simp only [List.map_cons, List.nodup_cons] at hnd
    rcases List.mem_cons.mp hmem with rfl | h
    · simp [List.find?_cons]
    · have hne : (hd.position == wall.position) = false := by
        rw [beq_eq_false_iff_ne]
        intro he
        exact hnd.1 (he ▸ List.mem_map_of_mem (fun w => w.position) h)
      rw [List.find?_cons, hne]
      exact ih hnd.2 h

theorem hitWall_eq_map {walls : List Wall} {wall : Wall}
    (hnd : (walls.map (fun w => w.position)).Nodup) (hmem : wall ∈ walls) :
    hitWall walls wall.position =
      walls.map (fun w => if w = wall then { w with hits := w.hits + 1 } else w) := by
  induction walls with
  | nil => simp at hmem
  | cons hd tl ih =>
    simp only [List.map_cons, List.nodup_cons] at hnd
    unfold hitWall
    by_cases hc : hd.position = wall.position
    · have hw : hd = wall := by
        rcases List.mem_cons.mp hmem with h | h
        · exact h.symm
        · exact absurd (hc ▸ List.mem_map_of_mem (fun w => w.position) h) hnd.1
      subst hw
      rw [if_pos rfl]
      simp only [List.map_cons, if_true, List.cons.injEq, true_and]
      have : ∀ w ∈ tl, (if w = hd then { w with hits := w.hits + 1 } else w) = w := by
        intro w hw
        have : w ≠ hd := by
          rintro rfl
          exact hnd.1 (List.mem_map_of_mem (fun w => w.position) hw)
        rw [if_neg this]
      rw [List.map_congr_left this, List.map_id']
    · have hne : hd ≠ wall := fun he => hc (he ▸ rfl)
      have hin : wall ∈ tl := (List.mem_cons.mp hmem).resolve_left (fun he => hne he.symm)
      rw [if_neg hc]
      simp only [List.map_cons, if_neg hne, List.cons.injEq, true_and]
      exact ih hnd.2 hin

/-- With one wall per cell, a hit on `wall` bumps that wall alone, or removes that wall
alone when the hit is its last. -/
theorem wallsAfterHit_eq {walls : List Wall} {wall : Wall}
    (hnd : (walls.map (fun w => w.position)).Nodup) (hmem : wall ∈ walls) :
    wallsAfterHit walls wall.position wall =
      if wall.hits + 1 = wall.maxHits then walls.filter (fun w => w != wall)
      else walls.map (fun w => if w = wall then { w with hits := w.hits + 1 } else w) := by
  unfold wallsAfterHit
  rw [hitWall_eq_map hnd hmem]
  split
  · have hinj := List.inj_on_of_nodup_map hnd
    rw [List.filter_map]
    have h2 : ∀ x ∈ walls,
        ((fun w : Wall => w.position != wall.position) ∘
          (fun w => if w = wall then { w with hits := w.hits + 1 } else w)) x = (x != wall) := by
      intro x hx
      simp only [Function.comp]
      by_cases hxw : x = wall
      · subst hxw; simp
      · have hp : x.position ≠ wall.position := fun he => hxw (hinj hx hmem he)
        rw [if_neg hxw, bne_iff_ne.mpr hp, bne_iff_ne.mpr hxw]
    rw [List.filter_congr h2]
    refine (List.map_congr_left ?_).trans (List.map_id' _)
    intro x hx
    have hxw : x ≠ wall := by simpa using (List.mem_filter.mp hx).2
    exact if_neg hxw
  · rfl

theorem consumeBoost_player {room : Room} {conn : Nat} {player : Player}
    (h : room.player? conn = some player) :
    (consumeBoost room conn player).player? conn =
      some { player with speedBoost := player.speedBoost && !boostApplies player } := by
  unfold consumeBoost
  split
  · rename_i hb
    simp only [Room.player?]
    rw [find?_updatePlayer room.players conn (fun q => { q with speedBoost := false })
      (fun _ => rfl)]
    have h1 : room.players.find? (fun p => p.id == conn) = some player := h
    rw [h1]
    simp [hb]
  · rename_i hb
    rw [h]
    simp [hb]

/-- The `moveRight` handler when the target cell holds the active wall `wall` of a
well-shaped wall list. -/
theorem moveRightIn_wall (code : Nat) {room : Room} {conn : Nat} {player : Player} {wall : Wall}
    (hstarted : room.gameState.started = true) (hplayer : room.player? conn = some player)
    (hfind : room.gameState.walls.find? (fun w => w.position == targetCell player) = some wall)
    (hactive : wall.hits < wall.maxHits) :
    moveRightIn code room conn =
      some (absorbedBy room conn player wall,
        [snapshot code (absorbedBy room conn player wall)]) := by
  unfold moveRightIn
  rw [if_pos hstarted, hplayer]
  simp only [hfind, Option.filter, hactive, decide_True, if_true]

/-- Claim C2, for the room the handler acts on.  In a reachable state, let the room
getPlayerRoom resolves for a connection (the lowest-code room holding it) be started
and let the target cell of its right move there (position+1, or position+2 when the
boost applies) hold a wall with hits < maxHits.  Then moveRight
leaves the mover's position unchanged, emits no gameOver, and changes the wall list
only at that wall: its hits goes up by exactly 1 and every other wall is untouched,
or, exactly when the new hits equals maxHits (which is 3), that wall alone is
removed. -/
theorem C2_wall_absorbs_right_move (s : State) (hs : Reachable s) (conn code : Nat)
    (room : Room) (player : Player) (wall : Wall)
    (hcode : getPlayerRoom s conn = some code) (hroom : lookup s code = some room)
    (hstarted : room.gameState.started = true) (hplayer : room.player? conn = some player)
    (hwall : wall ∈ room.gameState.walls) (hcell : wall.position = targetCell player)
    (hactive : wall.hits < wall.maxHits) :
    ∃ room1, lookup (moveRight s conn).1 code = some room1 ∧
      (∃ p1, room1.player? conn = some p1 ∧ p1.position = player.position) ∧
      (∀ c w, Out.gameOver c w ∉ (moveRight s conn).2) ∧
      wall.maxHits = 3 ∧
      room1.gameState.walls =
        (if wall.hits + 1 = wall.maxHits then room.gameState.walls.filter (fun w => w != wall)
         else room.gameState.walls.map
           (fun w => if w = wall then { w with hits := w.hits + 1 } else w)) ∧
      ((∀ w ∈ room1.gameState.walls, w.position ≠ wall.position) ↔
        wall.hits + 1 = wall.maxHits) := by
  have wf := (reachable_wf hs).2 (code, room) (lookup_mem hroom)
  have hnd := wf.walls.2
  have hfind := find?_wall_of_nodup hnd hwall
  rw [hcell] at hfind
  have hm := moveRightIn_wall code hstarted hplayer hfind hactive
  have hstep : moveRight s conn = _ :=
    onPlayerRoom_some (f := fun code room => moveRightIn code room conn) hcode hroom hm
  rw [hstep]
  have hwalls : (absorbedBy room conn player wall).gameState.walls =
      wallsAfterHit room.gameState.walls wall.position wall := by rw [hcell]; rfl
  refine ⟨absorbedBy room conn player wall, ?_, ?_, ?_, (wf.walls.1 wall hwall).1, ?_, ?_⟩
  · dsimp only
    rw [lookup_setRoom, if_pos rfl]
  · exact ⟨_, consumeBoost_player hplayer, rfl⟩
  · intro c w hmem
    simp [snapshot] at hmem
  · rw [hwalls]
    exact wallsAfterHit_eq hnd hwall
  · rw [hwalls, wallsAfterHit_eq hnd hwall]
    have hinj := List.inj_on_of_nodup_map hnd
    constructor
    · intro hall
      by_contra hne
      rw [if_neg hne] at hall
      refine hall { wall with hits := wall.hits + 1 } ?_ rfl
      exact List.mem_map.mpr ⟨wall, hwall, if_pos rfl⟩
    · intro heq w hw
      rw [if_pos heq] at hw
      obtain ⟨hw1, hw2⟩ := List.mem_filter.mp hw
      intro he
      exact (bne_iff_ne.mp hw2) (hinj hw1 hwall he)

/-- Witness of C2: right after the start of the sample game, connection 1 stands on
cell 5 and the wall on cell 6 is untouched. -/
theorem C2_wall_absorbs_right_move_witness :
    ∃ room1, lookup (moveRight (run init startedTrace).1 1).1 1000 = some room1 ∧
      (∃ p1, room1.player? 1 = some p1 ∧ p1.position = (newPlayer 1).position) ∧
      (∀ c w, Out.gameOver c w ∉ (moveRight (run init startedTrace).1 1).2) ∧
      (3 : Nat) = 3 ∧
      room1.gameState.walls =
        (if (0 : Nat) + 1 = 3 then
          [({ position := 1, hits := 0, maxHits := 3 } : Wall),
            { position := 6, hits := 0, maxHits := 3 }].filter
            (fun w => w != { position := 6, hits := 0, maxHits := 3 })
         else [({ position := 1, hits := 0, maxHits := 3 } : Wall),
            { position := 6, hits := 0, maxHits := 3 }].map
           (fun w => if w = { position := 6, hits := 0, maxHits := 3 }
             then { w with hits := w.hits + 1 } else w)) ∧
      ((∀ w ∈ room1.gameState.walls, w.position ≠ 6) ↔ (0 : Nat) + 1 = 3) :=
  C2_wall_absorbs_right_move (run init startedTrace).1 ⟨startedTrace, rfl⟩ 1 1000
    { players := [newPlayer 1, newPlayer 2],
      gameState :=
        { walls := [{ position := 1, hits := 0, maxHits := 3 },
                    { position := 6, hits := 0, maxHits := 3 }],
          powerUp := some { position := some 0 },
          penaltyZones := [2, 7],
          started := true },
      maxPlayers := 2,
      timer := none }
    (newPlayer 1) { position := 6, hits := 0, maxHits := 3 }
    (by decide) (by decide) (by decide) (by decide) (by decide) (by decide) (by decide)

/-- Counterexample to C2 as stated: at the end of `twoRoomsStartedTrace` connection 1
stands on cell 5 of started room 2000, whose wall on target cell 6 has hits 0 < 3.  The
handler resolves room 1000 for the connection, which is not started, so moveRight
changes nothing: the wall's hits is not incremented and nothing is broadcast. -/
theorem C2_wall_not_hit_in_second_room :
    (lookup (run init twoRoomsStartedTrace).1 2000).map
        (fun room => (room.gameState.started, (room.player? 1).map targetCell,
          room.gameState.walls)) =
      some (true, some 6,
        [{ position := 1, hits := 0, maxHits := 3 }, { position := 6, hits := 0, maxHits := 3 }]) ∧
    getPlayerRoom (run init twoRoomsStartedTrace).1 1 = some 1000 ∧
    moveRight (run init twoRoomsStartedTrace).1 1 = ((run init twoRoomsStartedTrace).1, []) := by
  decide

/-! ## The mover's entry after a committed move -/

theorem checkPowerUp_player {room : Room} {conn : Nat} {p : Player}
    (h : room.player? conn = some p) :
    (checkPowerUp room conn).player? conn =
      some { p with speedBoost := p.speedBoost || powerUpAt room.gameState p.position } := by
  unfold checkPowerUp powerUpAt
  rw [h]
  cases hpu : room.gameState.powerUp with
  | none => simp [h]
  | some pu =>
    dsimp only
    split
    · rename_i hc
      simp only [Room.player?]
      rw [find?_updatePlayer room.players conn (fun q => { q with speedBoost := true })
        (fun _ => rfl)]
      have h1 : room.players.find? (fun p => p.id == conn) = some p := h
      rw [h1]
      simp [hc]
    · rename_i hc
      rw [h]
      simp [hc]

theorem checkPenalty_player {room : Room} {conn : Nat} {p : Player}
    (h : room.player? conn = some p) :
    (checkPenalty room conn).1.player? conn =
      some (checkPenaltyOn room.gameState.penaltyZones conn p).1 := by
  unfold checkPenalty
  rw [h]
  simp only [Room.player?]
  rw [find?_updatePlayer room.players conn
    (fun q => (checkPenaltyOn room.gameState.penaltyZones conn q).1)
    (fun q => checkPenaltyOn_id _ _ q)]
  have h1 : room.players.find? (fun p => p.id == conn) = some p := h
  rw [h1]
  rfl

theorem checkPowerUp_zones (room : Room) (conn : Nat) :
    (checkPowerUp room conn).gameState.penaltyZones = room.gameState.penaltyZones :=
  (checkPowerUp_frame room conn).2.1

/-- The mover's entry after `landOn`: the new cell, a boost collected there, and the
penalty rule applied on top. -/
theorem landOn_player {room : Room} {conn : Nat} {p : Player} (cell : Int)
    (h : room.player? conn = some p) :
    (landOn room conn cell).1.player? conn =
      some (checkPenaltyOn room.gameState.penaltyZones conn
        { p with position := cell,
                 speedBoost := p.speedBoost || powerUpAt room.gameState cell }).1 := by
  unfold landOn
  have h1 : ({ room with
      players := updatePlayer room.players conn (fun q => { q with position := cell }) } :
      Room).player? conn = some { p with position := cell } := by
    simp only [Room.player?]
    rw [find?_updatePlayer room.players conn (fun q => { q with position := cell })
      (fun _ => rfl)]
    have h1 : room.players.find? (fun p => p.id == conn) = some p := h
    rw [h1]
    rfl
  have h2 := checkPowerUp_player h1
  have h3 := checkPenalty_player h2
  rw [checkPowerUp_zones] at h3
  exact h3

theorem checkPenaltyOn_fields (zones : List Int) (conn : Nat) (p : Player) :
    (checkPenaltyOn zones conn p).1 =
      { p with penaltyTime := (checkPenaltyOn zones conn p).1.penaltyTime } := by
  unfold checkPenaltyOn
  split_ifs <;> rfl

theorem checkPenaltyOn_outs (zones : List Int) (conn : Nat) (p : Player) :
    (checkPenaltyOn zones conn p).2 = [] ∨
      (checkPenaltyOn zones conn p).2 = [Out.winsDelta conn (-1)] := by
  unfold checkPenaltyOn
  split_ifs <;> simp

theorem landOn_outs (room : Room) (conn : Nat) (cell : Int) :
    (landOn room conn cell).2 = [] ∨ (landOn room conn cell).2 = [Out.winsDelta conn (-1)] := by
  have key : ∀ r : Room, (checkPenalty r conn).2 = [] ∨
      (checkPenalty r conn).2 = [Out.winsDelta conn (-1)] := by
    intro r
    unfold checkPenalty
    split
    · exact Or.inl rfl
    · exact checkPenaltyOn_outs _ _ _
  exact key _

/-! ## Lookup of the caller's room after an assignment to the table -/

theorem getPlayerRoom_setRoom_aux (l : List (Nat × Room)) (o : List (Nat × Room)) (code : Nat)
    (room room1 : Room)
    (conn : Nat) (hs : (l.map (fun cr => cr.1)).Pairwise (fun a b => a < b))
    (hl : lookup { rooms := l, orphans := o } code = some room)
    (hids : room1.players.map (fun p => p.id) = room.players.map (fun p => p.id)) :
    getPlayerRoom { rooms := setRoom l code room1, orphans := o } conn =
      getPlayerRoom { rooms := l, orphans := o } conn := by
  have hany : room1.players.any (fun p => p.id == conn) =
      room.players.any (fun p => p.id == conn) := by
    have e : ∀ ps : List Player, ps.any (fun p => p.id == conn) =
        (ps.map (fun p => p.id)).any (fun i => i == conn) := by
      intro ps
      induction ps with
      | nil => rfl
      | cons hd tl ih => simp only [List.any_cons, List.map_cons, ih]
    rw [e, e, hids]
  induction l with
  | nil => simp [lookup] at hl
  | cons hd tl ih =>
    obtain ⟨c, r⟩ := hd
    simp only [List.map_cons, List.pairwise_cons] at hs
    obtain ⟨hs1, hs2⟩ := hs
    by_cases hc : c = code
    · subst hc
      have hr : r = room := by
        simpa [lookup, List.find?_cons] using hl
      subst hr
      unfold setRoom
      rw [if_neg (lt_irrefl _), if_pos rfl]
      simp only [getPlayerRoom, List.find?_cons, hany]
      cases List.any r.players (fun p => p.id == conn) <;> rfl
    · have hl1 : lookup { rooms := tl, orphans := o } code = some room := by
        have hc1 : (c == code) = false := by simpa using hc
        simpa [lookup, List.find?_cons, hc1] using hl
      have hmem : code ∈ tl.map (fun cr => cr.1) :=
        List.mem_map.mpr ⟨(code, room), lookup_mem hl1, rfl⟩
      have hlt : c < code := hs1 code hmem
      unfold setRoom
      rw [if_neg (by omega), if_neg (by omega)]
      have ih1 := ih hs2 hl1
      simp only [getPlayerRoom, List.find?_cons] at ih1 ⊢
      cases List.any r.players (fun p => p.id == conn)
      · exact ih1
      · rfl

/-- Replacing a room by one with the same player keys does not change which room
`getPlayerRoom` resolves for any connection. -/
theorem getPlayerRoom_setRoom {s : State} (hs : Sorted s) {code : Nat} {room room1 : Room}
    (hl : lookup s code = some room)
    (hids : room1.players.map (fun p => p.id) = room.players.map (fun p => p.id)) (conn : Nat) :
    getPlayerRoom { s with rooms := setRoom s.rooms code room1 } conn = getPlayerRoom s conn :=
  getPlayerRoom_setRoom_aux s.rooms s.orphans code room room1 conn hs hl hids

/-! ## After a win -/

theorem hit_none_of_no_active {walls : List Wall} {cell : Int}
    (h : activeWallAt walls cell = false) :
    (walls.find? (fun w => w.position == cell)).filter
      (fun wall => decide (wall.hits < wall.maxHits)) = none := by
  cases hf : walls.find? (fun w => w.position == cell) with
  | none => rfl
  | some w =>
    have h1 := List.find?_some hf
    have h2 := List.mem_of_find?_eq_some hf
    by_cases hact : w.hits < w.maxHits
    · exfalso
      have : activeWallAt walls cell = true := by
        unfold activeWallAt
        exact List.any_eq_true.mpr ⟨w, h2, by simp [hact, beq_iff_eq.mp h1]⟩
      rw [h] at this
      exact Bool.false_ne_true this
    · simp [Option.filter, hact]

/-- A right move from the last cell (or beyond) with no active wall ahead touches
nothing. -/
theorem moveRightIn_past_end {code : Nat} {room : Room} {conn : Nat} {p : Player}
    (hp : room.player? conn = some p) (hpos : 10 ≤ p.position)
    (hno : activeWallAt room.gameState.walls (targetCell p) = false) :
    moveRightIn code room conn = none := by
  have hb : boostApplies p = false := by
    unfold boostApplies MAX_POSITION
    have : ¬ (p.position + 1 < 10) := by omega
    simp [this]
  have ht : targetCell p = p.position + 1 := by
    unfold targetCell
    rw [hb]
    rfl
  unfold moveRightIn
  split
  · rw [hp]
    dsimp only
    rw [hit_none_of_no_active hno]
    dsimp only
    have : ¬ (targetCell p ≤ MAX_POSITION) := by
      rw [ht]
      unfold MAX_POSITION
      omega
    rw [if_neg (fun h => this h.1), hb]
    rfl
  · rfl

theorem no_active_wall_beyond {walls : List Wall} (h : WallsOK walls) {cell : Int}
    (hc : 10 ≤ cell) : activeWallAt walls cell = false := by
  unfold activeWallAt
  rw [List.any_eq_false]
  intro w hw
  have := (h.1 w hw).2.2.2
  have hne : ¬ w.position = cell := by omega
  simp [hne]

/-- Claim C3, as the server implements it.  The server keeps no winner flag.  In a
reachable state, a moveRight that emits gameOver emits exactly one, for the mover and
the mover's room, and leaves the mover on cell 10 in a room that is still started; a
further moveRight by that connection changes nothing and emits nothing.  (Moves that
leave cell 10, and moves of other players, are still processed, and a later landing
on cell 10 emits gameOver again.) -/
theorem C3_gameOver_on_landing (s : State) (hs : Reachable s) (conn c w : Nat)
    (h : Out.gameOver c w ∈ (moveRight s conn).2) :
    w = conn ∧ getPlayerRoom s conn = some c ∧
      (moveRight s conn).2.filter Out.isGameOver = [Out.gameOver c conn] ∧
      (∃ room1 p1, lookup (moveRight s conn).1 c = some room1 ∧
        room1.gameState.started = true ∧ room1.player? conn = some p1 ∧ p1.position = 10) ∧
      moveRight (moveRight s conn).1 conn = ((moveRight s conn).1, []) := by
  obtain ⟨hsorted, hwf⟩ := reachable_wf hs
  cases hg : getPlayerRoom s conn with
  | none => simp [moveRight, onPlayerRoom, hg] at h
  | some code =>
    cases hl : lookup s code with
    | none => simp [moveRight, onPlayerRoom, hg, hl] at h
    | some room =>
      cases hm : moveRightIn code room conn with
      | none =>
        have hstep : moveRight s conn = _ :=
          onPlayerRoom_none (f := fun code room => moveRightIn code room conn) hg hl hm
        rw [hstep] at h
        simp at h
      | some res =>
        obtain ⟨room1, outs⟩ := res
        have hstep : moveRight s conn = _ :=
          onPlayerRoom_some (f := fun code room => moveRightIn code room conn) hg hl hm
        rw [hstep] at h ⊢
        dsimp only at h ⊢
        have wf := hwf (code, room) (lookup_mem hl)
        obtain ⟨hst, player, hp, hcase⟩ := moveRightIn_cases hm
        rcases hcase with ⟨wall, -, -, -, ho⟩ | ⟨hle, hno, hr1, ho⟩ | ⟨-, ho⟩
        · rw [ho] at h
          simp [snapshot] at h
        · have hlo := landOn_outs (consumeBoost room conn player) conn (targetCell player)
          have hwin : targetCell player = 10 ∧ c = code ∧ w = conn := by
            rw [ho] at h
            unfold winOuts MAX_POSITION at h
            by_cases ht : targetCell player = 10
            · rcases hlo with h0 | h0 <;> rw [h0] at h <;> simp [snapshot, ht] at h <;>
                exact ⟨ht, h.1, h.2⟩
            · rcases hlo with h0 | h0 <;> rw [h0] at h <;> simp [snapshot, ht] at h
          obtain ⟨ht, rfl, rfl⟩ := hwin
          have hp0 := consumeBoost_player hp
          have hp1 := landOn_player (targetCell player) hp0
          rw [← hr1] at hp1
          obtain ⟨p1, hp1, hp1pos⟩ : ∃ p1, room1.player? w = some p1 ∧ p1.position = 10 :=
            ⟨_, hp1, by rw [checkPenaltyOn_position]; exact ht⟩
          obtain ⟨hf1, -, hf3, -, -⟩ := landOn_frame (consumeBoost room w player) w
            (targetCell player)
          rw [← hr1, consumeBoost_gameState] at hf1 hf3
          have hids : room1.players.map (fun p => p.id) = room.players.map (fun p => p.id) := by
            rw [hr1, landOn_ids, consumeBoost_ids]
          refine ⟨rfl, rfl, ?_, ⟨room1, p1, ?_, hf3.trans hst, hp1, hp1pos⟩, ?_⟩
          · rw [ho]
            unfold winOuts MAX_POSITION
            rcases hlo with h0 | h0 <;> rw [h0] <;>
              simp [snapshot, ht, List.filter_cons, Out.isGameOver]
          · rw [lookup_setRoom, if_pos rfl]
          · have hg1 : getPlayerRoom { s with rooms := setRoom s.rooms c room1 } w = some c := by
              rw [getPlayerRoom_setRoom hsorted hl hids, hg]
            have hl1 : lookup { s with rooms := setRoom s.rooms c room1 } c = some room1 := by
              rw [lookup_setRoom, if_pos rfl]
            have hno1 : activeWallAt room1.gameState.walls (targetCell p1) = false := by
              rw [hf1]
              refine no_active_wall_beyond wf.walls ?_
              unfold targetCell
              split <;> omega
            exact onPlayerRoom_none (f := fun code room => moveRightIn code room w) hg1 hl1
              (moveRightIn_past_end hp1 (by omega) hno1)
        · rw [ho] at h
          simp at h

/-- Witness of C3: in the sample game, connection 1 stands on cell 9 and moves right. -/
theorem C3_gameOver_on_landing_witness :
    Out.gameOver 1000 1 ∈ (moveRight (run init nearWinTrace).1 1).2 ∧
      ((1 : Nat) = 1 ∧ getPlayerRoom (run init nearWinTrace).1 1 = some 1000 ∧
        (moveRight (run init nearWinTrace).1 1).2.filter Out.isGameOver =
          [Out.gameOver 1000 1] ∧
        (∃ room1 p1, lookup (moveRight (run init nearWinTrace).1 1).1 1000 = some room1 ∧
          room1.gameState.started = true ∧ room1.player? 1 = some p1 ∧ p1.position = 10) ∧
        moveRight (moveRight (run init nearWinTrace).1 1).1 1 =
          ((moveRight (run init nearWinTrace).1 1).1, [])) :=
  ⟨by decide,
    C3_gameOver_on_landing (run init nearWinTrace).1 ⟨nearWinTrace, rfl⟩ 1 1000 1 (by decide)⟩

/-- Counterexample to C3 as stated: in `secondWinTrace`, which has no resetGame, the
run emits gameOver twice, and the moveLeft that follows the first gameOver changes the
state. -/
theorem C3_second_gameOver_without_reset :
    secondWinTrace.all (fun e => !e.isReset) = true ∧
      Out.gameOver 1000 1 ∈ (run init winTrace).2 ∧
      (moveLeft (run init winTrace).1 1).1 ≠ (run init winTrace).1 ∧
      ((run init secondWinTrace).2.filter Out.isGameOver).length = 2 := by
  decide

/-! ## Capacity -/

/-- Claim C4, as the server implements it.  The createRoom handler stores any
maxPlayers it is sent.  When every createRoom of a run asks for a capacity of at least
1, every room reached by the run (joins, disconnects and all other events included)
has at most maxPlayers entries in players. -/
theorem C4_players_within_capacity (evs : List Event) (hcap : evs.all validCapacity = true)
    (code : Nat) (room : Room) (hroom : (code, room) ∈ (run init evs).1.rooms) :
    (room.players.length : Int) ≤ room.maxPlayers := by
  have hall := run_allRooms (fun room => (room.players.length : Int) ≤ room.maxPlayers)
    (fun e => validCapacity e = true)
    (by
      intro conn mp rc r1 r2 hq
      simp only [validCapacity, decide_eq_true_eq] at hq
      simpa [freshRoom] using hq)
    (by
      intro room room1 hr ht
      obtain ⟨hmax, -, hpl⟩ := roomTrans_frame ht
      rw [hmax]
      rcases hpl with h | ⟨conn, h, hlt⟩ | ⟨conn, h, -⟩
      · have hlen := congrArg List.length h
        simp only [List.length_map] at hlen
        rw [hlen]
        exact hr
      · have hlen := congrArg List.length (ids_setPlayer room.players (newPlayer conn))
        rw [← h] at hlen
        split at hlen <;> simp at hlen <;> omega
      · rw [h]
        have := List.length_filter_le (fun p : Player => p.id != conn) room.players
        omega)
    evs init (fun e he => List.all_eq_true.mp hcap e he) (by intro cr hcr; simp [init] at hcr)
  exact hall (code, room) hroom

/-- Witness of C4: room 1000 is full with two players and a third join is rejected. -/
theorem C4_players_within_capacity_witness :
    fullRoomTrace.all validCapacity = true ∧
      (1000, ({ players := [newPlayer 1, newPlayer 2], gameState := freshGameState 0 0,
                maxPlayers := 2, timer := some 10 } : Room)) ∈ (run init fullRoomTrace).1.rooms ∧
      ((2 : Nat) : Int) ≤ 2 :=
  ⟨by decide, by decide,
    C4_players_within_capacity fullRoomTrace (by decide) 1000
      { players := [newPlayer 1, newPlayer 2], gameState := freshGameState 0 0,
        maxPlayers := 2, timer := some 10 } (by decide)⟩

/-- Counterexample to C4 as stated: createRoom with maxPlayers 0 yields a room with
one player. -/
theorem C4_room_over_capacity :
    (1000, freshRoom 1 0 0 0) ∈ (run init [Event.createRoom 1 0 0 0 0]).1.rooms ∧
      (freshRoom 1 0 0 0).maxPlayers < ((freshRoom 1 0 0 0).players.length : Int) := by
  decide

/-! ## Joining a room -/

theorem find?_updatePlayer_key (players : List Player) (conn : Nat) (f : Player → Player)
    (hf : ∀ p, p.id = conn → (f p).id = conn) :
    (updatePlayer players conn f).find? (fun p => p.id == conn) =
      (players.find? (fun p => p.id == conn)).map f := by
  induction players with
  | nil => simp [updatePlayer]
  | cons hd tl ih =>
    unfold updatePlayer
    by_cases hc : (hd.id == conn) = true
    · have hc2 : ((f hd).id == conn) = true := beq_iff_eq.mpr (hf hd (beq_iff_eq.mp hc))
      simp [List.find?_cons, hc, hc2]
    · simp only [Bool.not_eq_true] at hc
      simp [List.find?_cons, hc, ih]

theorem find?_updatePlayer_other (players : List Player) (conn other : Nat)
    (f : Player → Player) (hne : other ≠ conn) (hf : ∀ p, p.id = conn → (f p).id = conn) :
    (updatePlayer players conn f).find? (fun p => p.id == other) =
      players.find? (fun p => p.id == other) := by
  induction players with
  | nil => simp [updatePlayer]
  | cons hd tl ih =>
    unfold updatePlayer
    by_cases hc : (hd.id == conn) = true
    · have h1 : (hd.id == other) = false := by
        rw [beq_eq_false_iff_ne, beq_iff_eq.mp hc]
        exact fun e => hne e.symm
      have h2 : ((f hd).id == other) = false := by
        rw [beq_eq_false_iff_ne, hf hd (beq_iff_eq.mp hc)]
        exact fun e => hne e.symm
      rw [if_pos hc, List.find?_cons, List.find?_cons, h1, h2]
    · rw [if_neg hc, List.find?_cons, List.find?_cons, ih]

/-- The two ways `players[conn] = entry` acts: a new key is appended, an existing
key keeps its place and gets the new value. -/
theorem setPlayer_cases (players : List Player) (p : Player) :
    (players.find? (fun q => q.id == p.id) = none ∧ setPlayer players p = players ++ [p]) ∨
    (∃ q, players.find? (fun q => q.id == p.id) = some q ∧
      setPlayer players p = updatePlayer players p.id (fun _ => p)) := by
  unfold setPlayer
  cases hf : players.find? (fun q => q.id == p.id) with
  | none =>
    left
    have hany : players.any (fun q => q.id == p.id) = false := by
      rw [List.any_eq_false]
      intro q hq
      exact List.find?_eq_none.mp hf q hq
    rw [hany]
    exact ⟨rfl, rfl⟩
  | some q =>
    right
    have hany : players.any (fun q => q.id == p.id) = true :=
      List.any_eq_true.mpr ⟨q, List.mem_of_find?_eq_some hf,
        @List.find?_some _ (fun q => q.id == p.id) q players hf⟩
    rw [hany]
    exact ⟨q, rfl, rfl⟩

theorem setPlayer_player (players : List Player) (conn : Nat) :
    (setPlayer players (newPlayer conn)).find? (fun p => p.id == conn) =
      some (newPlayer conn) := by
  rcases setPlayer_cases players (newPlayer conn) with ⟨h1, h2⟩ | ⟨q, h1, h2⟩
  · rw [h2, List.find?_append]
    have h1c : players.find? (fun q => q.id == conn) = none := h1
    rw [h1c]
    simp [newPlayer]
  · rw [h2]
    have h1c : players.find? (fun q => q.id == conn) = some q := h1
    have := find?_updatePlayer_key players conn (fun _ => newPlayer conn) (fun _ _ => rfl)
    rw [h1c] at this
    exact this

theorem setPlayer_other (players : List Player) (conn other : Nat) (hne : other ≠ conn) :
    (setPlayer players (newPlayer conn)).find? (fun p => p.id == other) =
      players.find? (fun p => p.id == other) := by
  rcases setPlayer_cases players (newPlayer conn) with ⟨-, h2⟩ | ⟨q, -, h2⟩
  · rw [h2, List.find?_append]
    have : ((newPlayer conn).id == other) = false := by
      rw [beq_eq_false_iff_ne]
      exact fun e => hne e.symm
    simp [List.find?_cons, this]
  · rw [h2]
    exact find?_updatePlayer_other players conn other (fun _ => newPlayer conn) hne
      (fun _ _ => rfl)

/-- An admitted join returns a room and broadcasts `updatePlayers` and `joinedRoom`. -/
theorem joinRoomIn_admit (code : Nat) (room : Room) (conn : Nat)
    (hlt : (room.players.length : Int) < room.maxPlayers)
    (hst : room.gameState.started = false) :
    ∃ room1 outs, joinRoomIn code room conn = Except.ok (room1, outs) ∧
      (∃ players gs, Out.updatePlayers code players gs ∈ outs) ∧
      Out.joinedRoom conn code room.maxPlayers ∈ outs := by
  unfold joinRoomIn
  rw [if_neg (by omega), hst]
  simp only [Bool.false_eq_true, if_false]
  split
  · exact ⟨_, _, rfl, ⟨setPlayer room.players (newPlayer conn), room.gameState,
      by simp [snapshot]⟩, by simp⟩
  · exact ⟨_, _, rfl, ⟨setPlayer room.players (newPlayer conn), room.gameState,
      by simp [snapshot]⟩, by simp⟩

/-- For a name every object inherits, `rooms[roomCode]` is truthy and the handler throws
at `Object.keys(room.players)`: no error is sent to the caller. -/
theorem joinRoom_inherited (s : State) (conn : Nat) :
    joinRoom s conn RoomKey.inherited = (s, [Out.uncaught]) := rfl

/-- Claim C5, as the server implements it, for every roomCode that is not a name the
rooms object inherits.  joinRoom(roomCode) has four outcomes.  No room under the code
(text that is no number, or a number with no room): error "Room not found".  Else
player count >= maxPlayers: error "Room is full".  Else started: error "Game has
already started".  In these three the state is unchanged and the error is all that is
emitted.  Otherwise the caller's entry is assigned a fresh player (position 5, no
boost, penaltyTime 0, no user info): appended as one new entry when the caller had
none in the room, written over the caller's existing entry otherwise; every other
entry, the game state, the capacity and every other room stay as they were, and
updatePlayers and joinedRoom are emitted. -/
theorem C5_joinRoom_outcomes (s : State) (conn roomCode : Nat) :
    joinRoom s conn RoomKey.text = (s, [Out.error conn "Room not found"]) ∧
    ((lookup s roomCode = none ∧
      joinRoom s conn (RoomKey.code roomCode) = (s, [Out.error conn "Room not found"])) ∨
    (∃ room, lookup s roomCode = some room ∧ room.maxPlayers ≤ (room.players.length : Int) ∧
      joinRoom s conn (RoomKey.code roomCode) = (s, [Out.error conn "Room is full"])) ∨
    (∃ room, lookup s roomCode = some room ∧ (room.players.length : Int) < room.maxPlayers ∧
      room.gameState.started = true ∧
      joinRoom s conn (RoomKey.code roomCode) =
        (s, [Out.error conn "Game has already started"])) ∨
    (∃ room room1, lookup s roomCode = some room ∧
      (room.players.length : Int) < room.maxPlayers ∧ room.gameState.started = false ∧
      lookup (joinRoom s conn (RoomKey.code roomCode)).1 roomCode = some room1 ∧
      (∀ code1, code1 ≠ roomCode →
        lookup (joinRoom s conn (RoomKey.code roomCode)).1 code1 = lookup s code1) ∧
      (joinRoom s conn (RoomKey.code roomCode)).1.orphans = s.orphans ∧
      room1.player? conn =
        some { id := conn, position := 5, speedBoost := false, penaltyTime := 0,
               username := none, avatar := none } ∧
      (∀ other, other ≠ conn → room1.player? other = room.player? other) ∧
      ((room.player? conn = none ∧ room1.players = room.players ++ [newPlayer conn]) ∨
        (∃ p, room.player? conn = some p ∧
          room1.players = updatePlayer room.players conn (fun _ => newPlayer conn))) ∧
      room1.gameState = room.gameState ∧ room1.maxPlayers = room.maxPlayers ∧
      (∃ players gs,
        Out.updatePlayers roomCode players gs ∈ (joinRoom s conn (RoomKey.code roomCode)).2) ∧
      Out.joinedRoom conn roomCode room.maxPlayers ∈
        (joinRoom s conn (RoomKey.code roomCode)).2)) := by
  refine ⟨rfl, ?_⟩
  cases hl : lookup s roomCode with
  | none =>
    left
    exact ⟨rfl, by simp [joinRoom, hl]⟩
  | some room =>
    right
    by_cases hfull : room.maxPlayers ≤ (room.players.length : Int)
    · left
      refine ⟨room, rfl, hfull, ?_⟩
      simp [joinRoom, hl, joinRoomIn, hfull]
    · right
      have hlt : (room.players.length : Int) < room.maxPlayers := by omega
      cases hst : room.gameState.started with
      | true =>
        left
        refine ⟨room, rfl, hlt, hst, ?_⟩
        simp [joinRoom, hl, joinRoomIn, hfull, hst]
      | false =>
        right
        obtain ⟨room1, outs, hok, hup, hjoined⟩ := joinRoomIn_admit roomCode room conn hlt hst
        obtain ⟨h1, h2, h3, -, -⟩ := joinRoomIn_ok hok
        have hstep : joinRoom s conn (RoomKey.code roomCode) =
            ({ s with rooms := setRoom s.rooms roomCode room1 }, outs) := by
          simp only [joinRoom, hl, hok]
        rw [hstep]
        refine ⟨room, room1, rfl, hlt, hst, ?_, ?_, rfl, ?_, ?_, ?_, h2, h3, hup, hjoined⟩
        · rw [lookup_setRoom, if_pos rfl]
        · intro code1 hne
          rw [lookup_setRoom, if_neg hne]
        · simp only [Room.player?, h1]
          exact setPlayer_player room.players conn
        · intro other hne
          simp only [Room.player?, h1]
          exact setPlayer_other room.players conn other hne
        · rw [h1]
          exact setPlayer_cases room.players (newPlayer conn)

/-- Counterexample to C5 as stated: connection 1, already in room 1000 (one player
of two, not started), joins it again.  The join succeeds, the room still has one
entry, and the caller's old entry is gone. -/
theorem C5_rejoin_adds_no_entry :
    Out.joinedRoom 1 1000 2 ∈ (joinRoom (run init namedTrace).1 1 (RoomKey.code 1000)).2 ∧
      (lookup (run init namedTrace).1 1000).map (fun r => r.players.length) = some 1 ∧
      (lookup (joinRoom (run init namedTrace).1 1 (RoomKey.code 1000)).1 1000).map
        (fun r => r.players.length) = some 1 ∧
      (lookup (joinRoom (run init namedTrace).1 1 (RoomKey.code 1000)).1 1000).map
          (fun r => r.players) ≠
        (lookup (run init namedTrace).1 1000).map (fun r => r.players) := by
  decide

/-! ## Right move onto a free cell -/

/-- The `moveRight` handler when the target cell is on the track and holds no active
wall. -/
theorem moveRightIn_commit (code : Nat) {room : Room} {conn : Nat} {player : Player}
    (hstarted : room.gameState.started = true) (hplayer : room.player? conn = some player)
    (hno : activeWallAt room.gameState.walls (targetCell player) = false)
    (hle : targetCell player ≤ 10) :
    moveRightIn code room conn =
      some ((landOn (consumeBoost room conn player) conn (targetCell player)).1,
        (landOn (consumeBoost room conn player) conn (targetCell player)).2 ++
          [snapshot code (landOn (consumeBoost room conn player) conn (targetCell player)).1] ++
          winOuts code conn (targetCell player)) := by
  unfold moveRightIn
  rw [if_pos hstarted, hplayer]
  dsimp only
  rw [hit_none_of_no_active hno]
  dsimp only
  rw [if_pos ⟨hle, hno⟩]

theorem checkPenaltyOn_speedBoost (zones : List Int) (conn : Nat) (p : Player) :
    (checkPenaltyOn zones conn p).1.speedBoost = p.speedBoost := by
  unfold checkPenaltyOn
  split_ifs <;> rfl

/-- Claim C6, for the room the handler acts on.  Let the room getPlayerRoom resolves for
a connection (the lowest-code room holding it) be started, the mover stand on position
p there, and the target cell next (p+1, or p+2 when speedBoost is true and p+1 < 10)
hold no active wall.  If next <= 10, moveRight sets the mover's
position to next; the mover's speedBoost is true when a power-up lay on next, and
otherwise cleared when the doubled step was taken and left as it was when not; the
only gameOver emitted is for this connection and room, and it is emitted if and only
if next = 10.  If p >= 10 (so p = 10 on the track) the move changes nothing and emits
nothing. -/
theorem C6_right_move_commits (s : State) (conn code : Nat) (room : Room) (player : Player)
    (hcode : getPlayerRoom s conn = some code) (hroom : lookup s code = some room)
    (hstarted : room.gameState.started = true) (hplayer : room.player? conn = some player)
    (hno : activeWallAt room.gameState.walls (targetCell player) = false) :
    targetCell player =
      (if player.speedBoost = true ∧ player.position + 1 < 10 then player.position + 2
       else player.position + 1) ∧
    (targetCell player ≤ 10 →
      ∃ room1 p1, lookup (moveRight s conn).1 code = some room1 ∧
        room1.player? conn = some p1 ∧ p1.position = targetCell player ∧
        p1.speedBoost =
          (if powerUpAt room.gameState (targetCell player) = true then true
           else if player.speedBoost = true ∧ player.position + 1 < 10 then false
           else player.speedBoost) ∧
        (∀ c w, Out.gameOver c w ∈ (moveRight s conn).2 → c = code ∧ w = conn) ∧
        (Out.gameOver code conn ∈ (moveRight s conn).2 ↔ targetCell player = 10)) ∧
    (10 ≤ player.position → moveRight s conn = (s, [])) := by
  have hbo : boostApplies player = true ↔
      (player.speedBoost = true ∧ player.position + 1 < 10) := by
    unfold boostApplies MAX_POSITION
    simp
  refine ⟨?_, ?_, ?_⟩
  · unfold targetCell
    by_cases hb : boostApplies player = true
    · rw [if_pos hb, if_pos (hbo.mp hb)]
      omega
    · rw [if_neg hb, if_neg (fun h => hb (hbo.mpr h))]
  · intro hle
    have hm := moveRightIn_commit code hstarted hplayer hno hle
    have hstep : moveRight s conn = _ :=
      onPlayerRoom_some (f := fun code room => moveRightIn code room conn) hcode hroom hm
    rw [hstep]
    have hp1 := landOn_player (targetCell player) (consumeBoost_player hplayer)
    have hlo := landOn_outs (consumeBoost room conn player) conn (targetCell player)
    refine ⟨_, _, by rw [lookup_setRoom, if_pos rfl], hp1, checkPenaltyOn_position _ _ _,
      ?_, ?_, ?_⟩
    · rw [checkPenaltyOn_speedBoost, consumeBoost_gameState]
      dsimp only
      by_cases hpu : powerUpAt room.gameState (targetCell player) = true
      · rw [if_pos hpu, hpu, Bool.or_true]
      · rw [if_neg hpu]
        simp only [Bool.not_eq_true] at hpu
        rw [hpu, Bool.or_false]
        by_cases hb : boostApplies player = true
        · rw [if_pos (hbo.mp hb), hb]
          simp
        · rw [if_neg (fun h => hb (hbo.mpr h))]
          simp only [Bool.not_eq_true] at hb
          rw [hb]
          simp
    · intro c w hmem
      dsimp only at hmem
      unfold winOuts at hmem
      rcases hlo with h0 | h0 <;> rw [h0] at hmem <;> simp [snapshot] at hmem <;>
        exact ⟨hmem.2.1, hmem.2.2⟩
    · dsimp only
      unfold winOuts MAX_POSITION
      rcases hlo with h0 | h0 <;> rw [h0] <;> simp [snapshot]
  · intro hpos
    exact onPlayerRoom_none (f := fun code room => moveRightIn code room conn) hcode hroom
      (moveRightIn_past_end hplayer hpos hno)

/-- Witness of C6: the scenario of the claim, connection 1 on cell 9 without boost and
no wall on cell 10. -/
theorem C6_right_move_commits_witness :
    targetCell { newPlayer 1 with position := 9 } = 10 ∧
      ∃ room1 p1, lookup (moveRight (run init nearWinTrace).1 1).1 1000 = some room1 ∧
        room1.player? 1 = some p1 ∧ p1.position = targetCell { newPlayer 1 with position := 9 } ∧
        p1.speedBoost =
          (if powerUpAt nearWinRoom.gameState (targetCell { newPlayer 1 with position := 9 }) = true
           then true
           else if (false = true ∧ (9 : Int) + 1 < 10) then false
           else false) ∧
        (∀ c w, Out.gameOver c w ∈ (moveRight (run init nearWinTrace).1 1).2 →
          c = 1000 ∧ w = 1) ∧
        (Out.gameOver 1000 1 ∈ (moveRight (run init nearWinTrace).1 1).2 ↔
          targetCell { newPlayer 1 with position := 9 } = 10) :=
  ⟨by decide,
    (C6_right_move_commits (run init nearWinTrace).1 1 1000 nearWinRoom
      { newPlayer 1 with position := 9 } (by decide) (by decide) (by decide) (by decide)
      (by decide)).2.1 (by decide)⟩

/-- Counterexample to C6 as stated: at the end of `twoRoomsFreeTrace` connection 1
stands on cell 5 of started room 2000 without boost and target cell 6 holds no wall.
The handler resolves room 1000 for the connection, which is not started, so moveRight
changes nothing: the position stays 5. -/
theorem C6_no_move_in_second_room :
    (lookup (run init twoRoomsFreeTrace).1 2000).map
        (fun room => (room.gameState.started,
          (room.player? 1).map (fun p => (p.position, targetCell p)),
          activeWallAt room.gameState.walls 6)) =
      some (true, some (5, 6), false) ∧
    getPlayerRoom (run init twoRoomsFreeTrace).1 1 = some 1000 ∧
    moveRight (run init twoRoomsFreeTrace).1 1 = ((run init twoRoomsFreeTrace).1, []) := by
  decide

/-! ## Countdown -/

theorem moveLeftIn_ids {code : Nat} {room : Room} {conn : Nat} {res : Room × List Out}
    (h : moveLeftIn code room conn = some res) :
    res.1.players.map (fun p => p.id) = room.players.map (fun p => p.id) := by
  obtain ⟨room1, outs⟩ := res
  obtain ⟨-, player, -, -, rfl, -⟩ := moveLeftIn_cases h
  exact landOn_ids _ _ _

theorem moveRightIn_ids {code : Nat} {room : Room} {conn : Nat} {res : Room × List Out}
    (h : moveRightIn code room conn = some res) :
    res.1.players.map (fun p => p.id) = room.players.map (fun p => p.id) := by
  obtain ⟨room1, outs⟩ := res
  obtain ⟨-, player, -, hcase⟩ := moveRightIn_cases h
  rcases hcase with ⟨wall, -, -, rfl, -⟩ | ⟨-, -, rfl, -⟩ | ⟨rfl, -⟩
  · exact consumeBoost_ids _ _ _
  · dsimp only
    rw [landOn_ids, consumeBoost_ids]
  · exact consumeBoost_ids _ _ _

theorem resetGameIn_ids {code : Nat} {room : Room} {r1 r2 : Nat} {res : Room × List Out}
    (h : resetGameIn code room r1 r2 = some res) :
    res.1.players.map (fun p => p.id) = room.players.map (fun p => p.id) := by
  simp only [resetGameIn, Option.some.injEq] at h
  subst h
  simp [List.map_map, Function.comp_def]

theorem setUserInfoIn_ids {code : Nat} {room : Room} {conn : Nat} {u a : String}
    {res : Room × List Out} (h : setUserInfoIn code room conn u a = some res) :
    res.1.players.map (fun p => p.id) = room.players.map (fun p => p.id) := by
  simp only [setUserInfoIn, Option.some.injEq] at h
  subst h
  exact ids_updatePlayer _ _ _ (fun _ => rfl)

theorem run_append (s : State) (a b : List Event) :
    run s (a ++ b) = ((run (run s a).1 b).1, (run s a).2 ++ (run (run s a).1 b).2) := by
  induction a generalizing s with
  | nil => simp [run]
  | cons e es ih =>
    show run s (e :: (es ++ b)) = _
    simp only [run, ih, List.append_assoc]

/-- A tick of a countdown above 1 only lowers it and broadcasts the new value. -/
theorem tick_running {s : State} {code : Nat} {room : Room} {c : Int} (r : Nat)
    (hroom : lookup s code = some room) (htimer : room.timer = some c) (hc : 1 < c) :
    tick s code r =
      ({ s with rooms := setRoom s.rooms code { room with timer := some (c - 1) } },
        [Out.countdown code (c - 1)]) := by
  unfold tick timerTick
  rw [hroom]
  dsimp only
  rw [htimer]
  dsimp only
  rw [if_neg (by omega)]

/-- A tick that brings the countdown to 0 or below starts the game. -/
theorem tick_last {s : State} {code : Nat} {room : Room} {c : Int} (r : Nat)
    (hroom : lookup s code = some room) (htimer : room.timer = some c) (hc : c ≤ 1) :
    tick s code r =
      ({ s with
         rooms := setRoom s.rooms code
           (spawnPowerUp
             { room with timer := none, gameState := { room.gameState with started := true } }
             code r).1 },
        [Out.countdown code (c - 1)] ++
          (spawnPowerUp
            { room with timer := none, gameState := { room.gameState with started := true } }
            code r).2 ++ [Out.gameStarted code]) := by
  unfold tick timerTick
  rw [hroom]
  dsimp only
  rw [htimer]
  dsimp only
  rw [if_pos (by omega)]

theorem spawnPowerUp_isSome (room : Room) (code r : Nat) :
    (spawnPowerUp room code r).1.gameState.powerUp.isSome = true := by
  unfold spawnPowerUp
  split
  · rename_i h
    rw [h]
    rfl
  · rfl

/-- What `spawnPowerUp` broadcasts: nothing, or one `updatePlayers`. -/
theorem spawnPowerUp_outs (room : Room) (code r : Nat) :
    (spawnPowerUp room code r).2 = [] ∨
      ∃ players gs, (spawnPowerUp room code r).2 = [Out.updatePlayers code players gs] := by
  unfold spawnPowerUp
  split
  · exact Or.inl rfl
  · exact Or.inr ⟨_, _, rfl⟩

theorem tick_idle {s : State} {code : Nat} {room : Room} (r : Nat)
    (hroom : lookup s code = some room) (htimer : room.timer = none) :
    tick s code r = (s, []) := by
  unfold tick
  rw [hroom]
  dsimp only
  rw [htimer]

theorem lookup_rooms_congr {s1 s2 : State} (h : s1.rooms = s2.rooms) (code : Nat) :
    lookup s1 code = lookup s2 code := by
  unfold lookup
  rw [h]

theorem lookup_deleteRoom (s : State) (o : List (Nat × Room)) (code code1 : Nat)
    (hne : code1 ≠ code) :
    lookup { rooms := deleteRoom s.rooms code, orphans := o } code1 = lookup s code1 := by
  unfold lookup deleteRoom
  dsimp only
  congr 1
  induction s.rooms with
  | nil => rfl
  | cons hd tl ih =>
    by_cases h : hd.1 = code
    · have h1 : (hd.1 != code) = false := by simp [h]
      have h2 : (hd.1 == code1) = false := by
        rw [beq_eq_false_iff_ne, h]
        exact fun e => hne e.symm
      rw [List.filter_cons, h1, List.find?_cons, h2]
      exact ih
    · have h1 : (hd.1 != code) = true := by simp [h]
      rw [List.filter_cons, h1]
      simp only [if_true, List.find?_cons]
      rw [ih]

/-- The room stored under a code after a handler ran on the caller's room. -/
theorem onPlayerRoom_lookup (s : State) (conn : Nat) (f : Nat → Room → Option (Room × List Out))
    (code : Nat) :
    lookup (onPlayerRoom s conn f).1 code = lookup s code ∨
    ∃ room res, getPlayerRoom s conn = some code ∧ lookup s code = some room ∧
      f code room = some res ∧ lookup (onPlayerRoom s conn f).1 code = some res.1 := by
  unfold onPlayerRoom
  split
  · exact Or.inl rfl
  · rename_i code1 hg
    split
    · exact Or.inl rfl
    · rename_i room hl
      split
      · exact Or.inl rfl
      · rename_i res hres
        by_cases hc : code = code1
        · subst hc
          exact Or.inr ⟨room, res, hg, hl, hres, by rw [lookup_setRoom, if_pos rfl]⟩
        · exact Or.inl (by rw [lookup_setRoom, if_neg hc])

theorem moveLeftIn_phase {code : Nat} {room : Room} {conn : Nat} {res : Room × List Out}
    (h : moveLeftIn code room conn = some res) :
    res.1.timer = room.timer ∧ res.1.gameState.started = room.gameState.started ∧
      res.1.maxPlayers = room.maxPlayers := by
  obtain ⟨room1, outs⟩ := res
  obtain ⟨-, player, -, -, h1, -⟩ := moveLeftIn_cases h
  obtain ⟨-, -, g3, g4, g5⟩ := landOn_frame room conn (player.position - 1)
  subst h1
  exact ⟨g5, g3, g4⟩

theorem moveRightIn_phase {code : Nat} {room : Room} {conn : Nat} {res : Room × List Out}
    (h : moveRightIn code room conn = some res) :
    res.1.timer = room.timer ∧ res.1.gameState.started = room.gameState.started ∧
      res.1.maxPlayers = room.maxPlayers := by
  obtain ⟨room1, outs⟩ := res
  obtain ⟨-, player, -, h⟩ := moveRightIn_cases h
  obtain ⟨c1, c2⟩ := consumeBoost_frame room conn player
  rcases h with ⟨wall, -, -, h1, -⟩ | ⟨-, -, h1, -⟩ | ⟨h1, -⟩
  · subst h1
    exact ⟨c2, rfl, c1⟩
  · obtain ⟨-, -, g3, g4, g5⟩ := landOn_frame (consumeBoost room conn player) conn
      (targetCell player)
    subst h1
    refine ⟨?_, ?_, ?_⟩
    · rw [g5]
      exact c2
    · rw [g3, consumeBoost_gameState]
    · rw [g4]
      exact c1
  · subst h1
    refine ⟨c2, ?_, c1⟩
    rw [consumeBoost_gameState]

/-- A join into a room whose interval is running leaves the interval as it is. -/
theorem joinRoomIn_timer {code : Nat} {room : Room} {conn : Nat} {res : Room × List Out}
    (h : joinRoomIn code room conn = Except.ok res) (ht : room.timer ≠ none) :
    res.1.timer = room.timer := by
  unfold joinRoomIn at h
  split at h
  · exact absurd h (by simp)
  · split at h
    · exact absurd h (by simp)
    · dsimp only at h
      split at h
      · simp only [Except.ok.injEq] at h
        subst h
        unfold startGameCountdown
        split
        · rfl
        · rename_i hn
          exact absurd hn ht
      · simp only [Except.ok.injEq] at h
        subst h
        rfl

/-- An event that does not disturb the room stored under `code`, and is no firing of
its running interval, leaves the room's timer, `started` flag and capacity as they
were, provided the countdown is running, the game is started, or the event is no join
of the room; unless it is a join of the room it also leaves the keys of `players`. -/
theorem undisturbed_step {s : State} {code : Nat} {room : Room} (e : Event)
    (hroom : lookup s code = some room)
    (hph : room.timer ≠ none ∨ room.gameState.started = true ∨
      ∀ conn, e ≠ Event.joinRoom conn (RoomKey.code code))
    (hd : disturbs s code e = false)
    (hown : room.timer = none ∨ ∀ r, e ≠ Event.tick code r) :
    ∃ room1, lookup (step s e).1 code = some room1 ∧ room1.timer = room.timer ∧
      room1.gameState.started = room.gameState.started ∧
      room1.maxPlayers = room.maxPlayers ∧
      ((∀ conn, e ≠ Event.joinRoom conn (RoomKey.code code)) →
        room1.players.map (fun p => p.id) = room.players.map (fun p => p.id)) := by
  have same : lookup (step s e).1 code = lookup s code →
      ∃ room1, lookup (step s e).1 code = some room1 ∧ room1.timer = room.timer ∧
        room1.gameState.started = room.gameState.started ∧
        room1.maxPlayers = room.maxPlayers ∧
        ((∀ conn, e ≠ Event.joinRoom conn (RoomKey.code code)) →
          room1.players.map (fun p => p.id) = room.players.map (fun p => p.id)) :=
    fun h => ⟨room, by rw [h, hroom], rfl, rfl, rfl, fun _ => rfl⟩
  have viaSpawn : ∀ (s1 : State) (k r : Nat) (room2 : Room), lookup s k = some room2 →
      s1.rooms = setRoom s.rooms k (spawnPowerUp room2 k r).1 →
      ∃ room1, lookup s1 code = some room1 ∧ room1.timer = room.timer ∧
        room1.gameState.started = room.gameState.started ∧
        room1.maxPlayers = room.maxPlayers ∧
        ((∀ conn, e ≠ Event.joinRoom conn (RoomKey.code code)) →
          room1.players.map (fun p => p.id) = room.players.map (fun p => p.id)) := by
    intro s1 k r room2 hl h
    have h1 : lookup s1 code =
        lookup { s with rooms := setRoom s.rooms k (spawnPowerUp room2 k r).1 } code :=
      lookup_rooms_congr h code
    by_cases hc : code = k
    · subst hc
      rw [hroom] at hl
      simp only [Option.some.injEq] at hl
      subst hl
      obtain ⟨-, -, g3, g4, g5⟩ := spawnPowerUp_frame room code r
      exact ⟨_, by rw [h1, lookup_setRoom, if_pos rfl], g5, g3, g4,
        fun _ => by rw [spawnPowerUp_players]⟩
    · exact ⟨room, by rw [h1, lookup_setRoom, if_neg hc, hroom], rfl, rfl, rfl, fun _ => rfl⟩
  cases e with
  | createRoom conn mp rCode r1 r2 =>
    apply same
    simp only [disturbs, beq_eq_false_iff_ne] at hd
    simp only [step, createRoom]
    rw [lookup_set, if_neg (fun h => hd h.symm)]
    rfl
  | joinRoom conn key1 =>
    cases key1 with
    | inherited => exact same rfl
    | text => exact same rfl
    | code k =>
      simp only [step, joinRoom]
      split
      · exact ⟨room, hroom, rfl, rfl, rfl, fun _ => rfl⟩
      · rename_i room2 hl
        split
        · exact ⟨room, hroom, rfl, rfl, rfl, fun _ => rfl⟩
        · rename_i res hres
          by_cases hc : code = k
          · subst hc
            rw [hroom] at hl
            simp only [Option.some.injEq] at hl
            subst hl
            obtain ⟨-, h2, h3, -, h5⟩ := joinRoomIn_ok hres
            have ht : room.timer ≠ none := by
              rcases hph with h | h | h
              · exact h
              · rw [h5] at h
                exact absurd h (by simp)
              · exact absurd rfl (h conn)
            exact ⟨res.1, by rw [lookup_setRoom, if_pos rfl], joinRoomIn_timer hres ht,
              by rw [h2], h3, fun h => absurd rfl (h conn)⟩
          · exact ⟨room, by rw [lookup_setRoom, if_neg hc, hroom], rfl, rfl, rfl, fun _ => rfl⟩
  | setUserInfo conn username avatar storeOk =>
    simp only [step, setUserInfo]
    split
    · rcases onPlayerRoom_lookup s conn
        (fun code room => setUserInfoIn code room conn username avatar) code with
        h | ⟨room2, res, -, hl, hres, h⟩
      · exact ⟨room, by rw [h, hroom], rfl, rfl, rfl, fun _ => rfl⟩
      · rw [hroom] at hl
        simp only [Option.some.injEq] at hl
        subst hl
        have hids := setUserInfoIn_ids hres
        simp only [setUserInfoIn, Option.some.injEq] at hres
        subst hres
        exact ⟨_, h, rfl, rfl, rfl, fun _ => hids⟩
    · exact ⟨room, hroom, rfl, rfl, rfl, fun _ => rfl⟩
  | moveLeft conn =>
    rcases onPlayerRoom_lookup s conn (fun code room => moveLeftIn code room conn) code with
      h | ⟨room2, res, -, hl, hres, h⟩
    · exact same h
    · rw [hroom] at hl
      simp only [Option.some.injEq] at hl
      subst hl
      obtain ⟨g1, g2, g3⟩ := moveLeftIn_phase hres
      exact ⟨_, h, g1, g2, g3, fun _ => moveLeftIn_ids hres⟩
  | moveRight conn =>
    rcases onPlayerRoom_lookup s conn (fun code room => moveRightIn code room conn) code with
      h | ⟨room2, res, -, hl, hres, h⟩
    · exact same h
    · rw [hroom] at hl
      simp only [Option.some.injEq] at hl
      subst hl
      obtain ⟨g1, g2, g3⟩ := moveRightIn_phase hres
      exact ⟨_, h, g1, g2, g3, fun _ => moveRightIn_ids hres⟩
  | resetGame conn r1 r2 =>
    rcases onPlayerRoom_lookup s conn (fun code room => resetGameIn code room r1 r2) code with
      h | ⟨room2, res, hg, -, -, -⟩
    · exact same h
    · simp only [disturbs, hg] at hd
      exact absurd hd (by simp)
  | disconnect conn =>
    apply same
    simp only [step, disconnect]
    split
    · rfl
    · rename_i code1 hg
      have hc : code ≠ code1 := by
        intro hc
        subst hc
        simp only [disturbs, hg] at hd
        exact absurd hd (by simp)
      split
      · rfl
      · split
        · exact lookup_deleteRoom s _ code1 code hc
        · rw [lookup_setRoom, if_neg hc]
  | tick k r =>
    by_cases hc : code = k
    · subst hc
      rcases hown with h | h
      · apply same
        simp only [step]
        rw [tick_idle r hroom h]
      · exact absurd rfl (h r)
    · apply same
      simp only [step, tick]
      split
      · rfl
      · split
        · rfl
        · rw [lookup_setRoom, if_neg hc]
  | spawnPowerUp k r =>
    rcases spawn_rooms s k r with h | ⟨room2, hl, h⟩
    · exact same (lookup_rooms_congr h code)
    · exact viaSpawn _ k r room2 hl h
  | orphanTick i r =>
    rcases orphanTick_rooms s i r with h | ⟨k, room2, hl, h⟩
    · exact same (lookup_rooms_congr h code)
    · exact viaSpawn _ k r room2 hl h

/-- While the countdown of the room stored under `code` runs and nothing disturbs the
room, the counter has gone down by the number of firings of the room's interval. -/
theorem counting_run (code : Nat) (evs : List Event) :
    ∀ (s : State) (room : Room) (c : Int), lookup s code = some room → room.timer = some c →
      room.gameState.started = false → undisturbedRun code s evs = true →
      (ownTicks code evs : Int) < c →
      ∃ roomk, lookup (run s evs).1 code = some roomk ∧
        roomk.timer = some (c - (ownTicks code evs : Int)) ∧
        roomk.gameState.started = false := by
  induction evs with
  | nil =>
    intro s room c hroom htimer hst _ _
    exact ⟨room, hroom, by simp [ownTicks, htimer], hst⟩
  | cons e es ih =>
    intro s room c hroom htimer hst hund hlt
    simp only [undisturbedRun, Bool.and_eq_true, Bool.not_eq_true'] at hund
    obtain ⟨hd, hund⟩ := hund
    simp only [run]
    by_cases hown : ∃ r, e = Event.tick code r
    · obtain ⟨r, rfl⟩ := hown
      have hk : ownTicks code (Event.tick code r :: es) = 1 + ownTicks code es := by
        simp [ownTicks]
      rw [hk] at hlt ⊢
      push_cast at hlt ⊢
      have hstep : step s (Event.tick code r) = _ := tick_running r hroom htimer (by omega)
      rw [hstep] at hund ⊢
      obtain ⟨roomk, h1, h2, h3⟩ := ih _ { room with timer := some (c - 1) } (c - 1)
        (by rw [lookup_setRoom, if_pos rfl]) rfl hst hund (by omega)
      refine ⟨roomk, h1, ?_, h3⟩
      rw [h2]
      congr 1
      omega
    · have hown1 : ∀ r, e ≠ Event.tick code r := fun r h => hown ⟨r, h⟩
      obtain ⟨room1, g1, g2, g3, -, -⟩ := undisturbed_step e hroom
        (Or.inl (by rw [htimer]; simp)) hd (Or.inr hown1)
      have hk : ownTicks code (e :: es) = ownTicks code es := by
        cases e with
        | tick k r =>
          have hne : k ≠ code := fun h => hown1 r (by rw [h])
          simp [ownTicks, hne]
        | _ => rfl
      rw [hk] at hlt ⊢
      exact ih _ room1 c g1 (by rw [g2, htimer]) (by rw [g3, hst]) hund hlt

/-- Once the game of the room stored under `code` is started and its timer cleared,
both stay so as long as nothing disturbs the room. -/
theorem started_run (code : Nat) (evs : List Event) :
    ∀ (s : State) (room : Room), lookup s code = some room → room.timer = none →
      room.gameState.started = true → undisturbedRun code s evs = true →
      ∃ roomk, lookup (run s evs).1 code = some roomk ∧ roomk.timer = none ∧
        roomk.gameState.started = true := by
  induction evs with
  | nil =>
    intro s room hroom htimer hst _
    exact ⟨room, hroom, htimer, hst⟩
  | cons e es ih =>
    intro s room hroom htimer hst hund
    simp only [undisturbedRun, Bool.and_eq_true, Bool.not_eq_true'] at hund
    obtain ⟨hd, hund⟩ := hund
    simp only [run]
    obtain ⟨room1, g1, g2, g3, -, -⟩ :=
      undisturbed_step e hroom (Or.inr (Or.inl hst)) hd (Or.inl htimer)
    exact ih _ room1 g1 (by rw [g2, htimer]) (by rw [g3, hst]) hund

/-- Claim C7, as the server implements it.  Let startGameCountdown be triggered on a
room with no active timer and started = false: it arms the timer with counter 10 and
broadcasts countdown 10.  From the state holding that room under its code, take any
events that do not disturb the room: no leave or reset handled on it and no createRoom
that draws its code.  After k < 10 ticks of the room's interval among them, the room
is still not started and its timer is active with counter 10-k; the next tick of the
interval broadcasts exactly countdown 10-(k+1) when k < 9; when k = 9 it is the tenth:
it broadcasts countdown 0, then at most the updatePlayers of the spawn, then
gameStarted, and leaves started true, the timer null and a power-up present; from
then on, through any further events that do not disturb the room, the room's interval
does not fire (a tick finds no timer, changes nothing and emits nothing). -/
theorem C7_countdown_to_start (s : State) (code : Nat) (room0 : Room) (pre post : List Event)
    (r : Nat) (htimer : room0.timer = none) (hst : room0.gameState.started = false)
    (hroom : lookup s code = some (startGameCountdown room0 code).1)
    (hpre : undisturbedRun code s pre = true) :
    startGameCountdown room0 code = ({ room0 with timer := some 10 }, [Out.countdown code 10]) ∧
    (ownTicks code pre < 10 →
      ∃ roomk, lookup (run s pre).1 code = some roomk ∧
        roomk.timer = some (10 - (ownTicks code pre : Int)) ∧
        roomk.gameState.started = false) ∧
    (ownTicks code pre < 9 →
      (tick (run s pre).1 code r).2 = [Out.countdown code (10 - ((ownTicks code pre : Int) + 1))]) ∧
    (ownTicks code pre = 9 →
      ∃ room10 mid, lookup (tick (run s pre).1 code r).1 code = some room10 ∧
        room10.timer = none ∧ room10.gameState.started = true ∧
        room10.gameState.powerUp.isSome = true ∧
        (tick (run s pre).1 code r).2 = [Out.countdown code 0] ++ mid ++ [Out.gameStarted code] ∧
        (mid = [] ∨ ∃ players gs, mid = [Out.updatePlayers code players gs]) ∧
        (undisturbedRun code (tick (run s pre).1 code r).1 post = true →
          ∀ r1, tick (run (tick (run s pre).1 code r).1 post).1 code r1 =
            ((run (tick (run s pre).1 code r).1 post).1, []))) := by
  have hstart : startGameCountdown room0 code =
      ({ room0 with timer := some 10 }, [Out.countdown code 10]) := by
    unfold startGameCountdown
    rw [htimer]
  rw [hstart] at hroom
  dsimp only at hroom
  have hcount : ownTicks code pre < 10 →
      ∃ roomk, lookup (run s pre).1 code = some roomk ∧
        roomk.timer = some (10 - (ownTicks code pre : Int)) ∧
        roomk.gameState.started = false := by
    intro hk
    exact counting_run code pre s _ 10 hroom rfl hst hpre (by omega)
  refine ⟨hstart, hcount, ?_, ?_⟩
  · intro hk
    obtain ⟨roomk, h1, h2, -⟩ := hcount (by omega)
    rw [tick_running r h1 h2 (by omega)]
    dsimp only
    congr 2
    omega
  · intro hk
    obtain ⟨roomk, h1, h2, h3⟩ := hcount (by omega)
    rw [hk] at h2
    rw [tick_last r h1 h2 (by norm_num)]
    dsimp only
    obtain ⟨-, -, hf3, -, hf5⟩ := spawnPowerUp_frame
      { roomk with timer := none, gameState := { roomk.gameState with started := true } } code r
    have hl10 : lookup
        { (run s pre).1 with
          rooms := setRoom (run s pre).1.rooms code
            (spawnPowerUp
              { roomk with timer := none, gameState := { roomk.gameState with started := true } }
              code r).1 } code =
        some (spawnPowerUp
          { roomk with timer := none, gameState := { roomk.gameState with started := true } }
          code r).1 := by
      rw [lookup_setRoom, if_pos rfl]
    refine ⟨_, (spawnPowerUp
        { roomk with timer := none, gameState := { roomk.gameState with started := true } }
        code r).2, hl10, hf5, hf3, spawnPowerUp_isSome _ _ _, ?_, spawnPowerUp_outs _ _ _, ?_⟩
    · norm_num
    · intro hpost r1
      obtain ⟨room11, g1, g2, -⟩ := started_run code post _ _ hl10 hf5 hf3 hpost
      exact tick_idle r1 g1 g2

/-- Witness of C7: the countdown of room 1000 after connection 2 joined, with a move
and a rejected join among its ticks: the state after three ticks and the fourth tick,
and the tenth tick after nine, followed by a move. -/
theorem C7_countdown_to_start_witness :
    (undisturbedRun 1000 (run init joinedTrace).1 busyCountTrace = true ∧
      ownTicks 1000 busyCountTrace = 3 ∧
      (∃ roomk, lookup (run (run init joinedTrace).1 busyCountTrace).1 1000 = some roomk ∧
        roomk.timer = some (10 - (ownTicks 1000 busyCountTrace : Int)) ∧
        roomk.gameState.started = false) ∧
      (tick (run (run init joinedTrace).1 busyCountTrace).1 1000 0).2 =
        [Out.countdown 1000 (10 - ((ownTicks 1000 busyCountTrace : Int) + 1))]) ∧
    (undisturbedRun 1000 (run init joinedTrace).1 busyNineTrace = true ∧
      ownTicks 1000 busyNineTrace = 9 ∧
      undisturbedRun 1000 (tick (run (run init joinedTrace).1 busyNineTrace).1 1000 0).1
        [Event.moveRight 1] = true ∧
      ∃ room10 mid,
        lookup (tick (run (run init joinedTrace).1 busyNineTrace).1 1000 0).1 1000 = some room10 ∧
        room10.timer = none ∧ room10.gameState.started = true ∧
        room10.gameState.powerUp.isSome = true ∧
        (tick (run (run init joinedTrace).1 busyNineTrace).1 1000 0).2 =
          [Out.countdown 1000 0] ++ mid ++ [Out.gameStarted 1000] ∧
        (mid = [] ∨ ∃ players gs, mid = [Out.updatePlayers 1000 players gs]) ∧
        (undisturbedRun 1000 (tick (run (run init joinedTrace).1 busyNineTrace).1 1000 0).1
            [Event.moveRight 1] = true →
          ∀ r1, tick (run (tick (run (run init joinedTrace).1 busyNineTrace).1 1000 0).1
              [Event.moveRight 1]).1 1000 r1 =
            ((run (tick (run (run init joinedTrace).1 busyNineTrace).1 1000 0).1
              [Event.moveRight 1]).1, []))) :=
  ⟨⟨by decide, by decide,
      (C7_countdown_to_start (run init joinedTrace).1 1000 lobbyRoom busyCountTrace [] 0
        (by decide) (by decide) (by decide) (by decide)).2.1 (by decide),
      (C7_countdown_to_start (run init joinedTrace).1 1000 lobbyRoom busyCountTrace [] 0
        (by decide) (by decide) (by decide) (by decide)).2.2.1 (by decide)⟩,
    ⟨by decide, by decide, by decide,
      (C7_countdown_to_start (run init joinedTrace).1 1000 lobbyRoom busyNineTrace
        [Event.moveRight 1] 0 (by decide) (by decide) (by decide) (by decide)).2.2.2
        (by decide)⟩⟩

/-- Counterexample to C7 as stated: room 1000 is full and counting, with three ticks
elapsed, when a createRoom draws code 1000 again.  No leave and no reset occurs.  The
interval of the overwritten room fires its remaining seven times: the values 10 down to
0 are broadcast to code 1000 and gameStarted is emitted, but the room stored under 1000
is the new one, not started, into which the power-up was spawned; the object that
counted down is out of the table and got no power-up. -/
theorem C7_interval_outlives_overwritten_room :
    collisionTrace.all (fun e => !e.isReset && !e.isLeave) = true ∧
    Out.uncaught ∉ (run init collisionTrace).2 ∧
    countdownValues 1000 (run init collisionTrace).2 = [10, 9, 8, 7, 6, 5, 4, 3, 2, 1, 0] ∧
    Out.gameStarted 1000 ∈ (run init collisionTrace).2 ∧
    (run init collisionTrace).1.rooms.map
        (fun cr => (cr.1, cr.2.players.map (fun p => p.id))) = [(1000, [3])] ∧
    (run init collisionTrace).1.rooms.map
        (fun cr => (cr.2.gameState.started, cr.2.timer, cr.2.gameState.powerUp)) =
      [(false, none, some { position := some 0 })] ∧
    (run init collisionTrace).1.orphans.map
        (fun cr => (cr.1, cr.2.players.map (fun p => p.id))) = [(1000, [1, 2])] ∧
    (run init collisionTrace).1.orphans.map
        (fun cr => (cr.2.gameState.started, cr.2.timer, cr.2.gameState.powerUp)) =
      [(true, none, none)] := by
  decide

/-! ## Leaving during the countdown -/

theorem sorted_unique_key {s : State} (hs : Sorted s) {a b : Nat × Room}
    (ha : a ∈ s.rooms) (hb : b ∈ s.rooms) (hab : a.1 = b.1) : a = b := by
  have hnd : (s.rooms.map (fun cr => cr.1)).Nodup :=
    List.Pairwise.imp (fun h => Nat.ne_of_lt h) hs
  exact List.inj_on_of_nodup_map hnd ha hb hab

/-- In a state with distinct room codes, the room `getPlayerRoom` resolves holds an
entry for the connection. -/
theorem getPlayerRoom_member {s : State} (hs : Sorted s) {conn code : Nat} {room : Room}
    (hcode : getPlayerRoom s conn = some code) (hroom : lookup s code = some room) :
    room.players.any (fun p => p.id == conn) = true := by
  unfold getPlayerRoom at hcode
  cases hf : s.rooms.find? (fun cr => cr.2.players.any (fun p => p.id == conn)) with
  | none => simp [hf] at hcode
  | some cr =>
    rw [hf] at hcode
    simp only [Option.map_some', Option.some.injEq] at hcode
    have h1 := List.find?_some hf
    have h2 := List.mem_of_find?_eq_some hf
    have h3 := sorted_unique_key hs h2 (lookup_mem hroom) hcode
    rw [h3] at h1
    exact h1

theorem length_filter_remove (players : List Player) (conn : Nat)
    (hnd : (players.map (fun p => p.id)).Nodup)
    (hmem : players.any (fun p => p.id == conn) = true) :
    (players.filter (fun p => p.id != conn)).length + 1 = players.length := by
  induction players with
  | nil => simp at hmem
  | cons hd tl ih =>
    simp only [List.map_cons, List.nodup_cons] at hnd
    by_cases hc : hd.id = conn
    · have htl : ∀ q ∈ tl, (q.id != conn) = true := by
        intro q hq
        rw [bne_iff_ne]
        intro he
        exact hnd.1 (List.mem_map.mpr ⟨q, hq, he.trans hc.symm⟩)
      have hfl : tl.filter (fun p => p.id != conn) = tl := List.filter_eq_self.mpr htl
      have hhd : (hd.id != conn) = false := by simp [hc]
      rw [List.filter_cons, hhd]
      simp [hfl]
    · have hhd : (hd.id != conn) = true := bne_iff_ne.mpr hc
      have hmem1 : tl.any (fun p => p.id == conn) = true := by
        simp only [List.any_cons, Bool.or_eq_true, beq_iff_eq] at hmem
        exact hmem.resolve_left hc
      rw [List.filter_cons, hhd]
      simp only [if_true, List.length_cons]
      rw [ih hnd.2 hmem1]

/-- A join by a newcomer that fills a room with no active timer arms the countdown
at 10. -/
theorem joinRoomIn_fill (code : Nat) {room : Room} {conn : Nat}
    (htimer : room.timer = none) (hst : room.gameState.started = false)
    (hlen : (room.players.length : Int) + 1 = room.maxPlayers)
    (hnew : room.player? conn = none) :
    joinRoomIn code room conn =
      Except.ok
        ({ room with players := room.players ++ [newPlayer conn], timer := some 10 },
          [snapshot code { room with players := room.players ++ [newPlayer conn] },
            Out.joinedRoom conn code room.maxPlayers, Out.countdown code 10]) := by
  have hset : setPlayer room.players (newPlayer conn) = room.players ++ [newPlayer conn] := by
    rcases setPlayer_cases room.players (newPlayer conn) with ⟨-, h2⟩ | ⟨q, h1, -⟩
    · exact h2
    · have h1c : room.player? conn = some q := h1
      rw [hnew] at h1c
      exact absurd h1c (by simp)
  unfold joinRoomIn
  rw [if_neg (by omega), hst]
  simp only [Bool.false_eq_true, if_false, hset]
  have hfull : (((room.players ++ [newPlayer conn]).length : Nat) : Int) = room.maxPlayers := by
    rw [List.length_append, List.length_singleton, Nat.cast_add, Nat.cast_one]
    exact hlen
  rw [if_pos hfull]
  simp [startGameCountdown, htimer]

/-- The room stored under a code after a firing of an interval whose room object left
the table: as it was, or with a power-up spawned into it. -/
theorem orphanTick_lookup (s : State) (i r code : Nat) (room : Room)
    (hroom : lookup s code = some room) :
    lookup (orphanTick s i r).1 code = some room ∨
      lookup (orphanTick s i r).1 code = some (spawnPowerUp room code r).1 := by
  rcases orphanTick_rooms s i r with h | ⟨k, room2, hl, h⟩
  · exact Or.inl (by rw [lookup_rooms_congr h code, hroom])
  · have h1 : lookup (orphanTick s i r).1 code =
        lookup { s with rooms := setRoom s.rooms k (spawnPowerUp room2 k r).1 } code :=
      lookup_rooms_congr h code
    by_cases hc : code = k
    · subst hc
      rw [hroom] at hl
      simp only [Option.some.injEq] at hl
      subst hl
      exact Or.inr (by rw [h1, lookup_setRoom, if_pos rfl])
    · exact Or.inl (by rw [h1, lookup_setRoom, if_neg hc, hroom])

/-- While the room stored under `code` has no timer, events that do not disturb it and
are no join of it leave its timer, `started` flag, capacity and player keys alone. -/
theorem lobby_run (code : Nat) (evs : List Event) :
    ∀ (s : State) (room : Room), lookup s code = some room → room.timer = none →
      undisturbedRun code s evs = true → evs.all (fun e => !joinsRoom code e) = true →
      ∃ roomk, lookup (run s evs).1 code = some roomk ∧ roomk.timer = none ∧
        roomk.gameState.started = room.gameState.started ∧
        roomk.maxPlayers = room.maxPlayers ∧
        roomk.players.map (fun p => p.id) = room.players.map (fun p => p.id) := by
  induction evs with
  | nil =>
    intro s room hroom ht _ _
    exact ⟨room, hroom, ht, rfl, rfl, rfl⟩
  | cons e es ih =>
    intro s room hroom ht hund hj
    simp only [undisturbedRun, Bool.and_eq_true, Bool.not_eq_true'] at hund
    simp only [List.all_cons, Bool.and_eq_true, Bool.not_eq_true'] at hj
    obtain ⟨hd, hund⟩ := hund
    obtain ⟨hj1, hj⟩ := hj
    have hnj : ∀ conn, e ≠ Event.joinRoom conn (RoomKey.code code) := by
      intro conn h
      subst h
      simp [joinsRoom] at hj1
    obtain ⟨room1, g1, g2, g3, g4, g5⟩ :=
      undisturbed_step e hroom (Or.inr (Or.inr hnj)) hd (Or.inl ht)
    simp only [run]
    obtain ⟨roomk, k1, k2, k3, k4, k5⟩ := ih _ room1 g1 (by rw [g2, ht]) hund hj
    exact ⟨roomk, k1, k2, by rw [k3, g3], by rw [k4, g4], by rw [k5, g5 hnj]⟩

/-- Claim C8, for the room the handler acts on.  In a reachable state, let the room
getPlayerRoom resolves for a connection (the lowest-code room holding it) be full, not
started, with its countdown running and at least two players.  A disconnect of that
connection removes its entry, stops the timer (room.timer becomes null), emits
countdownStopped and leaves started false; after it the room's interval does not fire
(a tick of the room changes nothing and emits nothing), and a firing of an interval
left over from a room overwritten under the same code leaves the room's timer, started
flag, players and walls as they are.  After any further events that do not disturb the
room (no leave or reset handled on it, no createRoom that draws its code) and are no
join of it, the room still has no timer, is not started and has the same player keys,
and a joinRoom by a connection without an entry in the room brings the player count
back to maxPlayers and starts a new countdown: the timer is armed with counter 10 and
countdown 10 is broadcast. -/
theorem C8_leave_cancels_countdown (s : State) (hs : Reachable s) (conn code : Nat)
    (room : Room) (c : Int)
    (hcode : getPlayerRoom s conn = some code) (hroom : lookup s code = some room)
    (htimer : room.timer = some c) (hst : room.gameState.started = false)
    (hfull : (room.players.length : Int) = room.maxPlayers) (htwo : 2 ≤ room.players.length) :
    ∃ room1, lookup (disconnect s conn).1 code = some room1 ∧
      room1.timer = none ∧ room1.gameState.started = false ∧
      room1.players = room.players.filter (fun p => p.id != conn) ∧
      room1.players.length + 1 = room.players.length ∧
      Out.countdownStopped code ∈ (disconnect s conn).2 ∧
      (∀ r, tick (disconnect s conn).1 code r = ((disconnect s conn).1, [])) ∧
      (∀ i r, ∃ room2, lookup (orphanTick (disconnect s conn).1 i r).1 code = some room2 ∧
        room2.timer = none ∧ room2.gameState.started = false ∧
        room2.players = room1.players ∧ room2.gameState.walls = room1.gameState.walls) ∧
      ∀ mid, undisturbedRun code (disconnect s conn).1 mid = true →
        mid.all (fun e => !joinsRoom code e) = true →
        ∃ room2, lookup (run (disconnect s conn).1 mid).1 code = some room2 ∧
          room2.timer = none ∧ room2.gameState.started = false ∧
          room2.players.map (fun p => p.id) = room1.players.map (fun p => p.id) ∧
          ∀ conn2, room2.player? conn2 = none →
            ∃ room3,
              lookup (joinRoom (run (disconnect s conn).1 mid).1 conn2
                (RoomKey.code code)).1 code = some room3 ∧
              (room3.players.length : Int) = room3.maxPlayers ∧ room3.timer = some 10 ∧
              room3.gameState.started = false ∧
              Out.countdown code 10 ∈
                (joinRoom (run (disconnect s conn).1 mid).1 conn2 (RoomKey.code code)).2 := by
  obtain ⟨hsorted, hwf⟩ := reachable_wf hs
  have wf := hwf (code, room) (lookup_mem hroom)
  have hmem := getPlayerRoom_member hsorted hcode hroom
  have hlen := length_filter_remove room.players conn wf.ids hmem
  have hne : ¬ (room.players.filter (fun p => p.id != conn)).length = 0 := by omega
  obtain ⟨room1, hr1⟩ : ∃ r : Room,
      r = { room with players := room.players.filter (fun p => p.id != conn), timer := none } :=
    ⟨_, rfl⟩
  have hin : disconnectIn code room conn =
      some (room1, [Out.playerLeft code conn, Out.countdownStopped code]) := by
    rw [hr1]
    unfold disconnectIn
    dsimp only
    rw [if_neg hne, htimer]
  have hstep : disconnect s conn =
      ({ s with rooms := setRoom s.rooms code room1 },
        [Out.playerLeft code conn, Out.countdownStopped code]) := by
    unfold disconnect
    rw [hcode]
    dsimp only
    rw [hroom]
    dsimp only
    rw [hin]
  rw [hstep]
  have hl1 : lookup { s with rooms := setRoom s.rooms code room1 } code = some room1 := by
    rw [lookup_setRoom, if_pos rfl]
  have ht1 : room1.timer = none := by rw [hr1]
  have hs1 : room1.gameState.started = false := by rw [hr1]; exact hst
  have hp1 : room1.players = room.players.filter (fun p => p.id != conn) := by rw [hr1]
  have hm1 : room1.maxPlayers = room.maxPlayers := by rw [hr1]
  refine ⟨room1, hl1, ht1, hs1, hp1, by rw [hp1]; exact hlen, by simp,
    fun r => tick_idle r hl1 ht1, ?_, ?_⟩
  · intro i r
    rcases orphanTick_lookup _ i r code room1 hl1 with h | h
    · exact ⟨room1, h, ht1, hs1, rfl, rfl⟩
    · obtain ⟨g1, -, g3, -, g5⟩ := spawnPowerUp_frame room1 code r
      exact ⟨_, h, by rw [g5, ht1], by rw [g3, hs1], spawnPowerUp_players room1 code r, g1⟩
  intro mid hund hj
  obtain ⟨room2, l2, t2, s2, m2, i2⟩ := lobby_run code mid _ room1 hl1 ht1 hund hj
  have hlen2 : room2.players.length = room1.players.length := by
    have := congrArg List.length i2
    simpa using this
  refine ⟨room2, l2, t2, by rw [s2, hs1], i2, ?_⟩
  intro conn2 hnew
  have hfill := joinRoomIn_fill code t2 (by rw [s2, hs1])
    (by rw [hlen2, m2, hp1, hm1]; omega) hnew
  have hl2 : lookup (run { s with rooms := setRoom s.rooms code room1 } mid).1 code =
      some room2 := l2
  simp only [joinRoom, hl2, hfill]
  refine ⟨{ room2 with players := room2.players ++ [newPlayer conn2], timer := some 10 },
    by rw [lookup_setRoom, if_pos rfl], ?_, rfl, by rw [s2, hs1], by simp⟩
  dsimp only
  rw [List.length_append, List.length_singleton, Nat.cast_add, Nat.cast_one, hlen2, m2, hp1,
    hm1]
  omega

/-- Witness of C8: connection 2 leaves room 1000 three ticks into its countdown. -/
theorem C8_leave_cancels_countdown_witness :
    ∃ room1, lookup (disconnect (run init countingTrace).1 2).1 1000 = some room1 ∧
      room1.timer = none ∧ room1.gameState.started = false ∧
      room1.players = countingRoom.players.filter (fun p => p.id != 2) ∧
      room1.players.length + 1 = countingRoom.players.length ∧
      Out.countdownStopped 1000 ∈ (disconnect (run init countingTrace).1 2).2 ∧
      (∀ r, tick (disconnect (run init countingTrace).1 2).1 1000 r =
        ((disconnect (run init countingTrace).1 2).1, [])) ∧
      (∀ i r, ∃ room2,
        lookup (orphanTick (disconnect (run init countingTrace).1 2).1 i r).1 1000 =
          some room2 ∧
        room2.timer = none ∧ room2.gameState.started = false ∧
        room2.players = room1.players ∧ room2.gameState.walls = room1.gameState.walls) ∧
      ∀ mid, undisturbedRun 1000 (disconnect (run init countingTrace).1 2).1 mid = true →
        mid.all (fun e => !joinsRoom 1000 e) = true →
        ∃ room2, lookup (run (disconnect (run init countingTrace).1 2).1 mid).1 1000 =
            some room2 ∧
          room2.timer = none ∧ room2.gameState.started = false ∧
          room2.players.map (fun p => p.id) = room1.players.map (fun p => p.id) ∧
          ∀ conn2, room2.player? conn2 = none →
            ∃ room3,
              lookup (joinRoom (run (disconnect (run init countingTrace).1 2).1 mid).1 conn2
                (RoomKey.code 1000)).1 1000 = some room3 ∧
              (room3.players.length : Int) = room3.maxPlayers ∧ room3.timer = some 10 ∧
              room3.gameState.started = false ∧
              Out.countdown 1000 10 ∈
                (joinRoom (run (disconnect (run init countingTrace).1 2).1 mid).1 conn2
                  (RoomKey.code 1000)).2 :=
  C8_leave_cancels_countdown (run init countingTrace).1 ⟨countingTrace, rfl⟩ 2 1000
    countingRoom 7 (by decide) (by decide) (by decide) (by decide) (by decide) (by decide)

/-- Counterexample to C8 as stated: after `twoRoomsTrace` room 2000 is full (connections
2 and 1 of 2), not started, with its countdown running.  The disconnect of its member
connection 1 is handled on room 1000 only: nothing is emitted, and room 2000 keeps the
entry of connection 1 and its running timer. -/
theorem C8_leave_handled_in_other_room :
    (lookup (run init twoRoomsTrace).1 2000).map
        (fun room => (room.players.map (fun p => p.id), room.maxPlayers, room.timer,
          room.gameState.started)) =
      some ([2, 1], 2, some 10, false) ∧
    getPlayerRoom (run init twoRoomsTrace).1 1 = some 1000 ∧
    (disconnect (run init twoRoomsTrace).1 1).2 = [] ∧
    (lookup (disconnect (run init twoRoomsTrace).1 1).1 2000).map
        (fun room => (room.players.map (fun p => p.id), room.timer)) =
      some ([2, 1], some 10) := by
  decide


/-- What a left-over interval still does to a room whose countdown a leave has stopped:
at the end of `leftoverTrace` the room stored under 1000 has no timer and is not
started, and the last firing of the overwritten room's interval has put a power-up
into it and emitted gameStarted. -/
theorem leftover_interval_spawns_into_room :
    (lookup (run init (leftoverTrace.take 8)).1 1000).map
        (fun room => (room.timer, room.gameState.started, room.gameState.powerUp)) =
      some (none, false, none) ∧
    Out.countdownStopped 1000 ∈ (run init (leftoverTrace.take 8)).2 ∧
    Out.uncaught ∉ (run init leftoverTrace).2 ∧
    (lookup (run init leftoverTrace).1 1000).map
        (fun room => (room.timer, room.gameState.started, room.gameState.powerUp)) =
      some (none, false, some { position := some 0 }) ∧
    Out.gameStarted 1000 ∈ (run init leftoverTrace).2 := by
  decide

/-! ## Reset -/

/-- Claim C9, for the room the handler acts on.  resetGame by a connection acts on the
room getPlayerRoom resolves for it (the lowest-code room holding it), which stays under
its code with the same maxPlayers; every other room is untouched and no interval is
left running.  The player entries keep their order, ids, usernames and avatars and get
position 5, speedBoost false and penaltyTime 0.  The game state becomes two walls, one
on a cell in 1..4 and one on a cell in 6..9, each with hits 0 and maxHits 3, no
power-up, penalty zones [2, 7] and started false; the timer is null. -/
theorem C9_resetGame_frame (s : State) (conn code : Nat) (room : Room) (r1 r2 : Nat)
    (hcode : getPlayerRoom s conn = some code) (hroom : lookup s code = some room) :
    ∃ room1, lookup (resetGame s conn r1 r2).1 code = some room1 ∧
      (∀ code1, code1 ≠ code → lookup (resetGame s conn r1 r2).1 code1 = lookup s code1) ∧
      (resetGame s conn r1 r2).1.orphans = s.orphans ∧
      room1.maxPlayers = room.maxPlayers ∧ room1.timer = none ∧
      room1.players.map (fun p => p.id) = room.players.map (fun p => p.id) ∧
      room1.players = room.players.map (fun p =>
        { id := p.id, position := 5, speedBoost := false, penaltyTime := 0,
          username := p.username, avatar := p.avatar }) ∧
      (∃ w1 w2, room1.gameState.walls = [w1, w2] ∧
        1 ≤ w1.position ∧ w1.position ≤ 4 ∧ w1.hits = 0 ∧ w1.maxHits = 3 ∧
        6 ≤ w2.position ∧ w2.position ≤ 9 ∧ w2.hits = 0 ∧ w2.maxHits = 3) ∧
      room1.gameState.powerUp = none ∧ room1.gameState.penaltyZones = [2, 7] ∧
      room1.gameState.started = false := by
  obtain ⟨room1, hr1⟩ : ∃ r : Room,
      r = { room with
            players := room.players.map
              (fun q => { q with position := 5, speedBoost := false, penaltyTime := 0 }),
            gameState := freshGameState r1 r2,
            timer := none } :=
    ⟨_, rfl⟩
  have hin : resetGameIn code room r1 r2 = some (room1, [snapshot code room1]) := by
    rw [hr1]
    rfl
  have hstep : resetGame s conn r1 r2 = _ :=
    onPlayerRoom_some (f := fun code room => resetGameIn code room r1 r2) hcode hroom hin
  rw [hstep]
  have h1 := randIndex_lt r1 4 (by decide)
  have h2 := randIndex_lt r2 4 (by decide)
  refine ⟨room1, by rw [lookup_setRoom, if_pos rfl], ?_, rfl, by rw [hr1], by rw [hr1], ?_,
    by rw [hr1], ?_, by rw [hr1]; rfl, by rw [hr1]; rfl, by rw [hr1]; rfl⟩
  · intro code1 hne
    dsimp only
    rw [lookup_setRoom, if_neg hne]
  · rw [hr1]
    simp [List.map_map, Function.comp_def]
  · rw [hr1]
    refine ⟨_, _, rfl, ?_, ?_, rfl, rfl, ?_, ?_, rfl, rfl⟩ <;> dsimp only <;> omega

/-- Witness of C9: connection 2 resets room 1000 after connection 1 has won. -/
theorem C9_resetGame_frame_witness :
    ∃ room1, lookup (resetGame (run init winTrace).1 2 5 7).1 1000 = some room1 ∧
      (∀ code1, code1 ≠ 1000 →
        lookup (resetGame (run init winTrace).1 2 5 7).1 code1 =
          lookup (run init winTrace).1 code1) ∧
      (resetGame (run init winTrace).1 2 5 7).1.orphans = (run init winTrace).1.orphans ∧
      room1.maxPlayers = wonRoom.maxPlayers ∧ room1.timer = none ∧
      room1.players.map (fun p => p.id) = wonRoom.players.map (fun p => p.id) ∧
      room1.players = wonRoom.players.map (fun p =>
        { id := p.id, position := 5, speedBoost := false, penaltyTime := 0,
          username := p.username, avatar := p.avatar }) ∧
      (∃ w1 w2, room1.gameState.walls = [w1, w2] ∧
        1 ≤ w1.position ∧ w1.position ≤ 4 ∧ w1.hits = 0 ∧ w1.maxHits = 3 ∧
        6 ≤ w2.position ∧ w2.position ≤ 9 ∧ w2.hits = 0 ∧ w2.maxHits = 3) ∧
      room1.gameState.powerUp = none ∧ room1.gameState.penaltyZones = [2, 7] ∧
      room1.gameState.started = false :=
  C9_resetGame_frame (run init winTrace).1 2 1000 wonRoom 5 7 (by decide) (by decide)

/-- Counterexample to C9 as stated: after `twoRoomsStartedTrace` and a left move of
connection 2, connection 1 is in started room 2000, where connection 2 stands on cell
4 and a power-up lies.  Its resetGame is handled on room 1000 only: room 2000 is left
exactly as it was, started, with connection 2 on cell 4 and the power-up in place. -/
theorem C9_reset_handled_in_other_room :
    (lookup (run init (twoRoomsStartedTrace ++ [Event.moveLeft 2])).1 2000).map
        (fun room => (room.players.map (fun p => (p.id, p.position)), room.gameState.started,
          room.gameState.powerUp.isSome)) =
      some ([(2, 4), (1, 5)], true, true) ∧
    getPlayerRoom (run init (twoRoomsStartedTrace ++ [Event.moveLeft 2])).1 1 = some 1000 ∧
    lookup (resetGame (run init (twoRoomsStartedTrace ++ [Event.moveLeft 2])).1 1 0 0).1 2000 =
      lookup (run init (twoRoomsStartedTrace ++ [Event.moveLeft 2])).1 2000 := by
  decide

/-! ## Penalty rule -/

/-- Claim C10.  On a room whose player has penaltyTime in [0,3), checkPenalty changes
that player's penaltyTime only: on a penalty-zone cell it becomes penaltyTime+1, unless
that value is 3, in which case it becomes 0 and exactly one wins-decrement (-1) for the
player is issued to the store; off the zones it becomes 0 and nothing is issued.  The
new penaltyTime is again in [0,3).  Other players and the game state are untouched. -/
theorem C10_checkPenalty (room : Room) (conn : Nat) (player : Player)
    (hplayer : room.player? conn = some player) (hlt : player.penaltyTime < 3) :
    ∃ p1, (checkPenalty room conn).1.player? conn = some p1 ∧
      p1 = { player with penaltyTime := p1.penaltyTime } ∧
      p1.penaltyTime =
        (if player.position ∈ room.gameState.penaltyZones then
          (if player.penaltyTime + 1 = 3 then 0 else player.penaltyTime + 1)
         else 0) ∧
      (checkPenalty room conn).2 =
        (if player.position ∈ room.gameState.penaltyZones ∧ player.penaltyTime + 1 = 3 then
          [Out.winsDelta conn (-1)]
         else []) ∧
      p1.penaltyTime < 3 ∧
      (∀ other, other ≠ conn →
        (checkPenalty room conn).1.player? other = room.player? other) ∧
      (checkPenalty room conn).1.gameState = room.gameState := by
  have hp1 := checkPenalty_player hplayer
  have houts : (checkPenalty room conn).2 =
      (checkPenaltyOn room.gameState.penaltyZones conn player).2 := by
    unfold checkPenalty
    rw [hplayer]
  have hother : ∀ other, other ≠ conn →
      (checkPenalty room conn).1.player? other = room.player? other := by
    intro other hne
    unfold checkPenalty
    rw [hplayer]
    simp only [Room.player?]
    exact find?_updatePlayer_other room.players conn other _ hne
      (fun q hq => (checkPenaltyOn_id _ _ q).trans hq)
  have h3 : player.penaltyTime + 1 ≥ 3 ↔ player.penaltyTime + 1 = 3 := by omega
  refine ⟨_, hp1, checkPenaltyOn_fields _ _ _, ?_, ?_, ?_, hother, (checkPenalty_frame _ _).1⟩
  · unfold checkPenaltyOn
    by_cases hz : player.position ∈ room.gameState.penaltyZones <;>
      by_cases h : player.penaltyTime + 1 = 3 <;> simp [hz, h, h3]
  · rw [houts]
    unfold checkPenaltyOn
    by_cases hz : player.position ∈ room.gameState.penaltyZones <;>
      by_cases h : player.penaltyTime + 1 = 3 <;> simp [hz, h, h3]
  · unfold checkPenaltyOn
    split_ifs <;> dsimp only <;> omega

/-- Witness of C10: the third count on penalty cell 7 issues the decrement and resets
the counter. -/
theorem C10_checkPenalty_witness :
    ∃ p1, (checkPenalty penaltyRoom 1).1.player? 1 = some p1 ∧
      p1 = { ({ newPlayer 1 with position := 7, penaltyTime := 2 } : Player) with
             penaltyTime := p1.penaltyTime } ∧
      p1.penaltyTime =
        (if (7 : Int) ∈ penaltyRoom.gameState.penaltyZones then
          (if 2 + 1 = 3 then 0 else 2 + 1)
         else 0) ∧
      (checkPenalty penaltyRoom 1).2 =
        (if (7 : Int) ∈ penaltyRoom.gameState.penaltyZones ∧ 2 + 1 = 3 then
          [Out.winsDelta 1 (-1)]
         else []) ∧
      p1.penaltyTime < 3 ∧
      (∀ other, other ≠ 1 →
        (checkPenalty penaltyRoom 1).1.player? other = penaltyRoom.player? other) ∧
      (checkPenalty penaltyRoom 1).1.gameState = penaltyRoom.gameState :=
  C10_checkPenalty penaltyRoom 1 { newPlayer 1 with position := 7, penaltyTime := 2 }
    (by decide) (by decide)

/-! ## One room per connection -/

theorem hasPlayer_eq_ids (room : Room) (conn : Nat) :
    room.hasPlayer conn = (room.players.map (fun p => p.id)).any (fun i => i == conn) := by
  unfold Room.hasPlayer
  induction room.players with
  | nil => rfl
  | cons hd tl ih => simp only [List.any_cons, List.map_cons, ih]

theorem hasPlayer_of_ids {room room1 : Room} (conn : Nat)
    (h : room1.players.map (fun p => p.id) = room.players.map (fun p => p.id)) :
    room1.hasPlayer conn = room.hasPlayer conn := by
  rw [hasPlayer_eq_ids, hasPlayer_eq_ids, h]

theorem getPlayerRoom_none {s : State} {conn : Nat} (h : getPlayerRoom s conn = none) :
    ∀ cr ∈ s.rooms, cr.2.hasPlayer conn = false := by
  unfold getPlayerRoom at h
  cases hf : s.rooms.find? (fun cr => cr.2.players.any (fun p => p.id == conn)) with
  | some cr => rw [hf] at h; simp at h
  | none =>
    intro cr hcr
    have := List.find?_eq_none.mp hf cr hcr
    simpa [Room.hasPlayer] using this

theorem single_setRoom {s : State} {code : Nat} {room1 : Room} (hinv : SingleRoom s)
    (hnew : ∀ conn, room1.hasPlayer conn = true →
      ∀ cr ∈ s.rooms, cr.2.hasPlayer conn = true → cr.1 = code) :
    SingleRoom { s with rooms := setRoom s.rooms code room1 } := by
  intro conn cr1 h1 cr2 h2 hp1 hp2
  rcases mem_setRoom h1 with e1 | m1 <;> rcases mem_setRoom h2 with e2 | m2
  · rw [e1, e2]
  · rw [e1] at hp1 ⊢
    exact (hnew conn hp1 cr2 m2 hp2).symm
  · rw [e2] at hp2 ⊢
    exact hnew conn hp2 cr1 m1 hp1
  · exact hinv conn cr1 m1 cr2 m2 hp1 hp2

theorem single_congr {s1 s2 : State} (hinv : SingleRoom s2) (h : s1.rooms = s2.rooms) :
    SingleRoom s1 := by
  unfold SingleRoom at hinv ⊢
  rw [h]
  exact hinv

/-- Replacing a room by one that has no new keys keeps the invariant. -/
theorem single_replace {s : State} {code : Nat} {room room1 : Room} (hinv : SingleRoom s)
    (hl : lookup s code = some room)
    (hsub : ∀ conn, room1.hasPlayer conn = true → room.hasPlayer conn = true) :
    SingleRoom { s with rooms := setRoom s.rooms code room1 } := by
  refine single_setRoom hinv ?_
  intro conn hp cr hcr hpc
  exact hinv conn cr hcr (code, room) (lookup_mem hl) hpc (hsub conn hp)

theorem single_onPlayerRoom {s : State} (hinv : SingleRoom s) (conn : Nat)
    (f : Nat → Room → Option (Room × List Out))
    (hf : ∀ code room res, f code room = some res →
      res.1.players.map (fun p => p.id) = room.players.map (fun p => p.id)) :
    SingleRoom (onPlayerRoom s conn f).1 := by
  unfold onPlayerRoom
  split
  · exact hinv
  · split
    · exact hinv
    · rename_i code _ _ room hl
      split
      · exact hinv
      · rename_i res hres
        refine single_replace hinv hl ?_
        intro c hc
        rw [← hasPlayer_of_ids c (hf code room res hres)]
        exact hc

theorem hasPlayer_setPlayer {players : List Player} {conn c : Nat}
    (h : (setPlayer players (newPlayer conn)).any (fun p => p.id == c) = true) :
    c = conn ∨ players.any (fun p => p.id == c) = true := by
  obtain ⟨q, hq, hid⟩ := List.any_eq_true.mp h
  rcases mem_setPlayer hq with e | m
  · left
    rw [e] at hid
    exact (beq_iff_eq.mp hid).symm
  · right
    exact List.any_eq_true.mpr ⟨q, m, hid⟩

/-- An event of a disciplined run keeps every connection in at most one room. -/
theorem single_step (s : State) (e : Event) (hinv : SingleRoom s)
    (hout : entersFromOutside s e = true) : SingleRoom (step s e).1 := by
  cases e with
  | createRoom conn maxPlayers rCode r1 r2 =>
    simp only [entersFromOutside, Option.isNone_iff_eq_none] at hout
    have hnone := getPlayerRoom_none hout
    refine single_setRoom hinv ?_
    intro c hc cr hcr hpc
    have hcc : conn = c := by
      simpa [Room.hasPlayer, freshRoom, newPlayer] using hc
    rw [← hcc, hnone cr hcr] at hpc
    exact absurd hpc (by simp)
  | joinRoom conn key1 =>
    simp only [entersFromOutside, Option.isNone_iff_eq_none] at hout
    have hnone := getPlayerRoom_none hout
    cases key1 with
    | inherited => exact hinv
    | text => exact hinv
    | code roomCode =>
      simp only [step, joinRoom]
      split
      · exact hinv
      · rename_i room hl
        split
        · exact hinv
        · rename_i res hres
          obtain ⟨room1, outs⟩ := res
          obtain ⟨h1, -⟩ := joinRoomIn_ok hres
          refine single_setRoom hinv ?_
          intro c hc cr hcr hpc
          unfold Room.hasPlayer at hc
          rw [h1] at hc
          rcases hasPlayer_setPlayer hc with hcc | hold
          · rw [hcc, hnone cr hcr] at hpc
            exact absurd hpc (by simp)
          · exact hinv c cr hcr (roomCode, room) (lookup_mem hl) hpc hold
  | setUserInfo conn username avatar storeOk =>
    simp only [step, setUserInfo]
    split
    · exact single_onPlayerRoom hinv conn _ (fun _ _ _ h => setUserInfoIn_ids h)
    · exact hinv
  | moveLeft conn => exact single_onPlayerRoom hinv conn _ (fun _ _ _ h => moveLeftIn_ids h)
  | moveRight conn => exact single_onPlayerRoom hinv conn _ (fun _ _ _ h => moveRightIn_ids h)
  | resetGame conn r1 r2 =>
    exact single_onPlayerRoom hinv conn _ (fun _ _ _ h => resetGameIn_ids h)
  | disconnect conn =>
    simp only [step, disconnect]
    split
    · exact hinv
    · split
      · exact hinv
      · rename_i code _ _ room hl
        split
        · intro c cr1 h1 cr2 h2 hp1 hp2
          exact hinv c cr1 (mem_deleteRoom h1) cr2 (mem_deleteRoom h2) hp1 hp2
        · rename_i res hres
          refine single_replace hinv hl ?_
          intro c hc
          have hfilter : res.1.players = room.players.filter (fun p => p.id != conn) := by
            unfold disconnectIn at hres
            dsimp only at hres
            split at hres
            · exact absurd hres (by simp)
            · split at hres <;> simp only [Option.some.injEq] at hres <;> rw [← hres]
          unfold Room.hasPlayer at hc ⊢
          rw [hfilter] at hc
          obtain ⟨q, hq, hid⟩ := List.any_eq_true.mp hc
          exact List.any_eq_true.mpr ⟨q, (List.mem_filter.mp hq).1, hid⟩
  | tick roomCode r =>
    simp only [step, tick]
    split
    · exact hinv
    · rename_i room hl
      split
      · exact hinv
      · refine single_replace hinv hl ?_
        intro c hc
        rw [← hasPlayer_of_ids c (congrArg _ (timerTick_players room roomCode r))]
        exact hc
  | spawnPowerUp roomCode r =>
    simp only [step, spawn]
    split
    · exact hinv
    · rename_i room hl
      split
      · exact hinv
      · refine single_replace hinv hl ?_
        intro c hc
        rw [← hasPlayer_of_ids c (congrArg _ (spawnPowerUp_players room roomCode r))]
        exact hc
  | orphanTick i r =>
    rcases orphanTick_rooms s i r with h | ⟨code, room, hl, h⟩
    · exact single_congr hinv h
    · have h2 : SingleRoom { s with rooms := setRoom s.rooms code (spawnPowerUp room code r).1 } := by
        refine single_replace hinv hl ?_
        intro c hc
        rw [← hasPlayer_of_ids c (congrArg _ (spawnPowerUp_players room code r))]
        exact hc
      exact single_congr h2 h

theorem single_run (evs : List Event) :
    ∀ s, SingleRoom s → singleRoomRun s evs = true → SingleRoom (run s evs).1 := by
  induction evs with
  | nil => intro s h _; exact h
  | cons e es ih =>
    intro s h hrun
    simp only [singleRoomRun, Bool.and_eq_true] at hrun
    exact ih _ (single_step s e h hrun.1) hrun.2

/-- Claim C11, as the server implements it.  Neither createRoom nor joinRoom looks at
the rooms the caller is already in.  In every run in which createRoom and joinRoom are
only issued by connections that are in no room at that moment (all other events free),
each connection id is a key of room.players in at most one room of the table,
getPlayerRoom(connId) is the code of that room, and after a disconnect of the
connection no room has an entry for it. -/
theorem C11_one_room_per_connection (evs : List Event) (hrun : singleRoomRun init evs = true)
    (conn : Nat) :
    (∀ cr1 ∈ (run init evs).1.rooms, ∀ cr2 ∈ (run init evs).1.rooms,
      cr1.2.hasPlayer conn = true → cr2.2.hasPlayer conn = true → cr1 = cr2) ∧
    (∀ cr ∈ (run init evs).1.rooms, cr.2.hasPlayer conn = true →
      getPlayerRoom (run init evs).1 conn = some cr.1) ∧
    (∀ cr ∈ (disconnect (run init evs).1 conn).1.rooms, cr.2.hasPlayer conn = false) := by
  have hreach : Reachable (run init evs).1 := ⟨evs, rfl⟩
  obtain ⟨hsorted, -⟩ := reachable_wf hreach
  have hinv : SingleRoom (run init evs).1 :=
    single_run evs init (by intro c cr1 h1; simp [init] at h1) hrun
  generalize (run init evs).1 = s at hsorted hinv
  have hfound : ∀ cr ∈ s.rooms, cr.2.hasPlayer conn = true →
      getPlayerRoom s conn = some cr.1 := by
    intro cr hcr hp
    unfold getPlayerRoom
    cases hf : s.rooms.find? (fun cr => cr.2.players.any (fun p => p.id == conn)) with
    | none =>
      have := List.find?_eq_none.mp hf cr hcr
      exact absurd hp this
    | some cr1 =>
      have h1 := List.find?_some hf
      have h2 := List.mem_of_find?_eq_some hf
      simp only [Option.map_some', Option.some.injEq]
      exact hinv conn cr1 h2 cr hcr h1 hp
  refine ⟨?_, hfound, ?_⟩
  · intro cr1 h1 cr2 h2 hp1 hp2
    exact sorted_unique_key hsorted h1 h2 (hinv conn cr1 h1 cr2 h2 hp1 hp2)
  · intro cr hcr
    cases hg : getPlayerRoom s conn with
    | none =>
      have : disconnect s conn = (s, []) := by simp [disconnect, hg]
      rw [this] at hcr
      exact getPlayerRoom_none hg cr hcr
    | some code =>
      cases hl : lookup s code with
      | none =>
        have : disconnect s conn = (s, []) := by simp [disconnect, hg, hl]
        rw [this] at hcr
        by_contra hp
        simp only [Bool.not_eq_false] at hp
        have h1 := hfound cr hcr hp
        rw [hg] at h1
        have h2 := Option.some.inj h1
        have hmem : lookup s cr.1 = none := h2 ▸ hl
        unfold lookup at hmem
        simp only [Option.map_eq_none', List.find?_eq_none] at hmem
        exact hmem cr hcr (by simp)
      | some room =>
        have hroomHas := getPlayerRoom_member hsorted hg hl
        by_contra hp
        simp only [Bool.not_eq_false] at hp
        cases hd : disconnectIn code room conn with
        | none =>
          have hstep : disconnect s conn =
              ({ rooms := deleteRoom s.rooms code,
                 orphans := s.orphans ++
                   orphaned code
                     (some { room with players := room.players.filter (fun p => p.id != conn) }) },
                []) := by
            simp [disconnect, hg, hl, hd]
          rw [hstep] at hcr
          have hmem := (List.mem_filter.mp hcr).1
          have hne : cr.1 ≠ code := by simpa using (List.mem_filter.mp hcr).2
          exact hne (hinv conn cr hmem (code, room) (lookup_mem hl) hp hroomHas)
        | some res =>
          have hstep : disconnect s conn =
              ({ s with rooms := setRoom s.rooms code res.1 }, res.2) := by
            simp [disconnect, hg, hl, hd]
          rw [hstep] at hcr
          have hfilter : res.1.players = room.players.filter (fun p => p.id != conn) := by
            unfold disconnectIn at hd
            dsimp only at hd
            split at hd
            · exact absurd hd (by simp)
            · split at hd <;> simp only [Option.some.injEq] at hd <;> rw [← hd]
          have hgone : res.1.hasPlayer conn = false := by
            unfold Room.hasPlayer
            rw [hfilter, List.any_eq_false]
            intro q hq
            simpa using (List.mem_filter.mp hq).2
          have hsorted1 : Sorted { s with rooms := setRoom s.rooms code res.1 } :=
            (sorted_setRoom s.rooms code res.1 hsorted).1
          have hnew : (code, res.1) ∈ ({ s with rooms := setRoom s.rooms code res.1 } : State).rooms :=
            lookup_mem (by rw [lookup_setRoom, if_pos rfl])
          rcases mem_setRoom hcr with e | m
          · rw [e, hgone] at hp
            exact absurd hp (by simp)
          · have hcode := hinv conn cr m (code, room) (lookup_mem hl) hp hroomHas
            have := sorted_unique_key hsorted1 hcr hnew hcode
            rw [this, hgone] at hp
            exact absurd hp (by simp)

/-- Witness of C11: the two players of room 1000 and a rejected third connection. -/
theorem C11_one_room_per_connection_witness :
    singleRoomRun init fullRoomTrace = true ∧
      ((∀ cr1 ∈ (run init fullRoomTrace).1.rooms, ∀ cr2 ∈ (run init fullRoomTrace).1.rooms,
        cr1.2.hasPlayer 2 = true → cr2.2.hasPlayer 2 = true → cr1 = cr2) ∧
      (∀ cr ∈ (run init fullRoomTrace).1.rooms, cr.2.hasPlayer 2 = true →
        getPlayerRoom (run init fullRoomTrace).1 2 = some cr.1) ∧
      (∀ cr ∈ (disconnect (run init fullRoomTrace).1 2).1.rooms, cr.2.hasPlayer 2 = false)) :=
  ⟨by decide, C11_one_room_per_connection fullRoomTrace (by decide) 2⟩

/-- Counterexample to C11 as stated: after `twoRoomsTrace` (createRoom and joinRoom
events only) connection 1 has an entry in room 1000 and in room 2000; getPlayerRoom
gives 1000, and after its disconnect room 2000 still holds its entry. -/
theorem C11_connection_in_two_rooms :
    (lookup (run init twoRoomsTrace).1 1000).map (fun r => r.hasPlayer 1) = some true ∧
      (lookup (run init twoRoomsTrace).1 2000).map (fun r => r.hasPlayer 1) = some true ∧
      getPlayerRoom (run init twoRoomsTrace).1 1 = some 1000 ∧
      (lookup (disconnect (run init twoRoomsTrace).1 1).1 2000).map
        (fun r => r.hasPlayer 1) = some true := by
  decide

/-! ## Power-up spawn -/

theorem mem_availablePositions {gs : GameState} {pos : Int} :
    pos ∈ availablePositions gs ↔
      (0 ≤ pos ∧ pos ≤ 10) ∧ (∀ w ∈ gs.walls, w.position ≠ pos) ∧ pos ∉ gs.penaltyZones := by
  unfold availablePositions
  have hn : (MAX_POSITION + 1).toNat = 11 := rfl
  rw [hn, List.mem_filter]
  constructor
  · rintro ⟨hm, hp⟩
    obtain ⟨i, hi, rfl⟩ := List.mem_map.mp hm
    have hi' := List.mem_range.mp hi
    simp only [Bool.and_eq_true, Bool.not_eq_true', List.any_eq_false, beq_iff_eq] at hp
    refine ⟨⟨by omega, by omega⟩, hp.1, ?_⟩
    intro hz
    have := List.elem_iff.mpr hz
    exact absurd this (by simpa using hp.2)
  · rintro ⟨⟨h0, h10⟩, hw, hz⟩
    refine ⟨List.mem_map.mpr ⟨pos.toNat, List.mem_range.mpr (by omega), by omega⟩, ?_⟩
    simp only [Bool.and_eq_true, Bool.not_eq_true', List.any_eq_false, beq_iff_eq]
    refine ⟨hw, ?_⟩
    by_contra hc
    simp only [Bool.not_eq_false] at hc
    exact hz (List.elem_iff.mp hc)

/-- Cell 0 is always a candidate in a well-shaped room: walls stand on 1..9 and the
penalty zones are 2 and 7. -/
theorem availablePositions_ne_nil {room : Room} (wf : RoomWF room) :
    availablePositions room.gameState ≠ [] := by
  have h0 : (0 : Int) ∈ availablePositions room.gameState := by
    rw [mem_availablePositions]
    refine ⟨⟨le_refl _, by norm_num⟩, ?_, ?_⟩
    · intro w hw he
      have := (wf.walls.1 w hw).2.2.1
      omega
    · rw [wf.zones]
      decide
  intro hnil
  rw [hnil] at h0
  simp at h0

/-- Claim C12.  For every room of a reachable state and every random draw:
spawnPowerUp returns the room unchanged and emits nothing when a power-up exists; the
candidate list is never empty; and when there is no power-up it sets
gameState.powerUp.position to a defined integer in [0,10] that is no wall's position
and no penalty zone, changing nothing else in the game state.  The room has a single
powerUp slot, so at most one power-up is live.  The scheduled callback `spawn` stores
exactly that room under the code. -/
theorem C12_spawnPowerUp (s : State) (hs : Reachable s) (code : Nat) (room : Room) (r : Nat)
    (hroom : lookup s code = some room) :
    (∀ pu, room.gameState.powerUp = some pu → spawnPowerUp room code r = (room, [])) ∧
    availablePositions room.gameState ≠ [] ∧
    (room.gameState.powerUp = none →
      ∃ pos : Int,
        (spawnPowerUp room code r).1 =
          { room with
            gameState := { room.gameState with powerUp := some { position := some pos } } } ∧
        0 ≤ pos ∧ pos ≤ 10 ∧ (∀ w ∈ room.gameState.walls, w.position ≠ pos) ∧
        pos ∉ room.gameState.penaltyZones) ∧
    lookup (spawn s code r).1 code = some (spawnPowerUp room code r).1 := by
  have wf := (reachable_wf hs).2 (code, room) (lookup_mem hroom)
  have hne := availablePositions_ne_nil wf
  refine ⟨?_, hne, ?_, ?_⟩
  · intro pu hpu
    unfold spawnPowerUp
    rw [hpu]
  · intro hnone
    have hlen : 0 < (availablePositions room.gameState).length := List.length_pos.mpr hne
    have hidx := randIndex_lt r _ hlen
    refine ⟨(availablePositions room.gameState)[randIndex r
      (availablePositions room.gameState).length], ?_, ?_⟩
    · unfold spawnPowerUp
      rw [hnone]
      dsimp only
      rw [List.getElem?_eq_getElem hidx]
    · have hmem := List.getElem_mem hidx
      obtain ⟨⟨h0, h10⟩, hw, hz⟩ := mem_availablePositions.mp hmem
      exact ⟨h0, h10, hw, hz⟩
  · unfold spawn
    rw [hroom]
    dsimp only
    cases hpu : room.gameState.powerUp with
    | some pu =>
      dsimp only
      rw [hroom]
      unfold spawnPowerUp
      rw [hpu]
    | none =>
      dsimp only
      rw [lookup_setRoom, if_pos rfl]

/-- Witness of C12: room 1000 of `joinedTrace`, which has no power-up yet. -/
theorem C12_spawnPowerUp_witness :
    (∀ pu, countingRoom.gameState.powerUp = some pu →
      spawnPowerUp countingRoom 1000 4 = (countingRoom, [])) ∧
    availablePositions countingRoom.gameState ≠ [] ∧
    (countingRoom.gameState.powerUp = none →
      ∃ pos : Int,
        (spawnPowerUp countingRoom 1000 4).1 =
          { countingRoom with
            gameState :=
              { countingRoom.gameState with powerUp := some { position := some pos } } } ∧
        0 ≤ pos ∧ pos ≤ 10 ∧ (∀ w ∈ countingRoom.gameState.walls, w.position ≠ pos) ∧
        pos ∉ countingRoom.gameState.penaltyZones) ∧
    lookup (spawn (run init countingTrace).1 1000 4).1 1000 =
      some (spawnPowerUp countingRoom 1000 4).1 :=
  C12_spawnPowerUp (run init countingTrace).1 ⟨countingTrace, rfl⟩ 1000 countingRoom 4
    (by decide)

/-! ## Penalty counters along a run -/

theorem mem_updatePlayer_other {players : List Player} {conn : Nat} {f : Player → Player}
    {q : Player} (h : q ∈ updatePlayer players conn f) (hne : q.id ≠ conn)
    (hf : ∀ p, (f p).id = p.id) : q ∈ players := by
  rcases mem_updatePlayer h with h1 | ⟨p, hp, rfl⟩
  · exact h1
  · exfalso
    apply hne
    rw [hf]
    exact beq_iff_eq.mp (@List.find?_some _ (fun p => p.id == conn) p players hp)

theorem find?_of_mem_nodup {players : List Player} {q : Player}
    (hnd : (players.map (fun p => p.id)).Nodup) (hq : q ∈ players) :
    players.find? (fun p => p.id == q.id) = some q := by
  induction players with
  | nil => simp at hq
  | cons hd tl ih =>
    simp only [List.map_cons, List.nodup_cons] at hnd
    rcases List.mem_cons.mp hq with rfl | h
    · simp [List.find?_cons]
    · have hne : (hd.id == q.id) = false := by
        rw [beq_eq_false_iff_ne]
        intro he
        exact hnd.1 (he ▸ List.mem_map_of_mem (fun p => p.id) h)
      rw [List.find?_cons, hne]
      exact ih hnd.2 h

theorem mem_checkPenalty_other {room : Room} {conn : Nat} {q : Player}
    (h : q ∈ (checkPenalty room conn).1.players) (hne : q.id ≠ conn) : q ∈ room.players := by
  unfold checkPenalty at h
  split at h
  · exact h
  · exact mem_updatePlayer_other h hne (fun p => checkPenaltyOn_id _ _ p)

theorem mem_checkPowerUp_other {room : Room} {conn : Nat} {q : Player}
    (h : q ∈ (checkPowerUp room conn).players) (hne : q.id ≠ conn) : q ∈ room.players := by
  unfold checkPowerUp at h
  split at h
  · split at h
    · exact mem_updatePlayer_other h hne (fun _ => rfl)
    · exact h
  · exact h

/-- With distinct keys, an entry of the room after `landOn` is an untouched entry of
another connection or the mover's entry. -/
theorem mem_landOn {room : Room} {conn : Nat} {cell : Int} {q : Player}
    (hnd : (room.players.map (fun p => p.id)).Nodup)
    (hq : q ∈ (landOn room conn cell).1.players) :
    (q ∈ room.players ∧ q.id ≠ conn) ∨ (landOn room conn cell).1.player? conn = some q := by
  by_cases hid : q.id = conn
  · right
    have hnd1 : ((landOn room conn cell).1.players.map (fun p => p.id)).Nodup := by
      rw [landOn_ids]
      exact hnd
    have := find?_of_mem_nodup hnd1 hq
    rw [hid] at this
    exact this
  · left
    refine ⟨?_, hid⟩
    unfold landOn at hq
    exact mem_updatePlayer_other (mem_checkPowerUp_other (mem_checkPenalty_other hq hid) hid)
      hid (fun _ => rfl)

theorem penaltyOK_updatePlayer_keep {players : List Player} {conn : Nat} {f : Player → Player}
    (h : PenaltyOK players)
    (hf : ∀ p, (f p).position = p.position ∧ (f p).penaltyTime = p.penaltyTime) :
    PenaltyOK (updatePlayer players conn f) := by
  intro q hq
  rcases mem_updatePlayer hq with h1 | ⟨p, hp, rfl⟩
  · exact h q h1
  · rw [(hf p).1, (hf p).2]
    exact h p (List.mem_of_find?_eq_some hp)

theorem penaltyOK_consumeBoost {room : Room} (conn : Nat) (player : Player)
    (h : PenaltyOK room.players) : PenaltyOK (consumeBoost room conn player).players := by
  unfold consumeBoost
  split
  · exact penaltyOK_updatePlayer_keep h (fun _ => ⟨rfl, rfl⟩)
  · exact h

/-- The penalty rule on a counter of at most 1 issues nothing. -/
theorem checkPenaltyOn_quiet (zones : List Int) (conn : Nat) (p : Player)
    (h : p.penaltyTime ≤ 1) : (checkPenaltyOn zones conn p).2 = [] := by
  unfold checkPenaltyOn
  split_ifs with h1 h2
  · omega
  · rfl
  · rfl

theorem checkPenalty_quiet (room : Room) (conn : Nat)
    (h : ∀ p ∈ room.players, p.penaltyTime ≤ 1) : (checkPenalty room conn).2 = [] := by
  unfold checkPenalty
  split
  · rfl
  · rename_i player hp
    exact checkPenaltyOn_quiet _ _ _ (h player (List.mem_of_find?_eq_some hp))

theorem landOn_quiet (room : Room) (conn : Nat) (cell : Int)
    (h : ∀ p ∈ room.players, p.penaltyTime ≤ 1) : (landOn room conn cell).2 = [] := by
  unfold landOn
  apply checkPenalty_quiet
  intro q hq
  have h1 : ∀ p ∈ updatePlayer room.players conn (fun q => { q with position := cell }),
      p.penaltyTime ≤ 1 := by
    intro p hp
    rcases mem_updatePlayer hp with h1 | ⟨p0, hp0, rfl⟩
    · exact h p h1
    · exact h p0 (List.mem_of_find?_eq_some hp0)
  unfold checkPowerUp at hq
  split at hq
  · split at hq
    · rcases mem_updatePlayer hq with h2 | ⟨p0, hp0, rfl⟩
      · exact h1 q h2
      · exact h1 p0 (List.mem_of_find?_eq_some hp0)
    · exact h1 q hq
  · exact h1 q hq

/-- A committed move keeps the counters in shape: the mover cannot step from one
penalty cell onto a penalty cell. -/
theorem penaltyOK_landOn {room : Room} {conn : Nat} {p : Player} {cell : Int}
    (hnd : (room.players.map (fun p => p.id)).Nodup)
    (hz : room.gameState.penaltyZones = [2, 7]) (hok : PenaltyOK room.players)
    (hp : room.player? conn = some p)
    (hcell : cell ∈ ([2, 7] : List Int) → p.position ∉ ([2, 7] : List Int)) :
    PenaltyOK (landOn room conn cell).1.players := by
  intro q hq
  rcases mem_landOn hnd hq with ⟨hold, -⟩ | hfound
  · exact hok q hold
  · rw [landOn_player cell hp] at hfound
    have hq1 := (Option.some.inj hfound).symm
    have hpok := hok p (List.mem_of_find?_eq_some hp)
    rw [hq1, hz, checkPenaltyOn_position]
    unfold checkPenaltyOn
    dsimp only
    by_cases hc : cell ∈ ([2, 7] : List Int)
    · have hpt : p.penaltyTime = 0 := hpok.2 (hcell hc)
      have hcon : ([2, 7] : List Int).contains cell = true := List.elem_iff.mpr hc
      rw [hcon, hpt]
      simp [hc]
    · have hcon : ¬ ([2, 7] : List Int).contains cell = true :=
        fun h => hc (List.elem_iff.mp h)
      rw [if_neg hcon]
      simp

theorem penaltyOK_roomTrans {room room1 : Room} (wf : RoomWF room) (hok : PenaltyOK room.players)
    (ht : RoomTrans room room1) : PenaltyOK room1.players := by
  rcases ht with ⟨code, conn, outs, h⟩ | ⟨code, conn, u, a, outs, h⟩ | ⟨code, conn, outs, h⟩ |
    ⟨code, conn, outs, h⟩ | ⟨code, r1, r2, outs, h⟩ | ⟨code, conn, outs, h⟩ | ⟨code, r, h⟩ |
    ⟨code, r, h⟩
  · rw [(joinRoomIn_ok h).1]
    intro q hq
    rcases mem_setPlayer hq with h1 | h1
    · subst h1
      simp [newPlayer]
    · exact hok q h1
  · simp only [setUserInfoIn, Option.some.injEq, Prod.mk.injEq] at h
    obtain ⟨h, -⟩ := h
    subst h
    exact penaltyOK_updatePlayer_keep hok (fun _ => ⟨rfl, rfl⟩)
  · obtain ⟨-, player, hp, hpos, rfl, -⟩ := moveLeftIn_cases h
    refine penaltyOK_landOn wf.ids wf.zones hok hp ?_
    intro hc hc2
    simp only [List.mem_cons, List.mem_singleton, List.not_mem_nil, or_false] at hc hc2
    omega
  · obtain ⟨-, player, hp, hcase⟩ := moveRightIn_cases h
    rcases hcase with ⟨wall, -, -, rfl, -⟩ | ⟨-, -, rfl, -⟩ | ⟨rfl, -⟩
    · exact penaltyOK_consumeBoost conn player hok
    · refine penaltyOK_landOn (by rw [consumeBoost_ids]; exact wf.ids)
        (by rw [consumeBoost_gameState]; exact wf.zones)
        (penaltyOK_consumeBoost conn player hok) (consumeBoost_player hp) ?_
      intro hc hc2
      simp only [List.mem_cons, List.mem_singleton, List.not_mem_nil, or_false] at hc hc2
      unfold targetCell at hc
      split at hc <;> omega
    · exact penaltyOK_consumeBoost conn player hok
  · simp only [resetGameIn, Option.some.injEq, Prod.mk.injEq] at h
    obtain ⟨h, -⟩ := h
    subst h
    intro q hq
    simp only [List.mem_map] at hq
    obtain ⟨p, -, rfl⟩ := hq
    simp
  · unfold disconnectIn at h
    dsimp only at h
    split_ifs at h
    split at h
    all_goals
      simp only [Option.some.injEq, Prod.mk.injEq] at h
      obtain ⟨h, -⟩ := h
      subst h
      intro q hq
      exact hok q (List.mem_filter.mp hq).1
  · rw [h, timerTick_players]
    exact hok
  · rw [h, spawnPowerUp_players]
    exact hok

theorem noDecrement_onPlayerRoom (s : State) (conn : Nat)
    (f : Nat → Room → Option (Room × List Out))
    (hf : ∀ code room res, (code, room) ∈ s.rooms → f code room = some res →
      NoDecrement res.2) :
    NoDecrement (onPlayerRoom s conn f).2 := by
  unfold onPlayerRoom
  split
  · intro c; simp
  · split
    · intro c; simp
    · rename_i code _ _ room hl
      split
      · intro c; simp
      · rename_i res hres
        exact hf code room res (lookup_mem hl) hres

theorem spawn_noDecrement (s : State) (code r : Nat) : NoDecrement (spawn s code r).2 := by
  intro c
  unfold spawn
  split
  · simp
  · split
    · simp
    · unfold spawnPowerUp
      split <;> simp

/-- In a state whose counters are in shape, no event issues a wins-decrement. -/
theorem noDecrement_step (s : State) (e : Event)
    (hok : ∀ cr ∈ s.rooms, PenaltyOK cr.2.players) : NoDecrement (step s e).2 := by
  have hpt : ∀ code room, (code, room) ∈ s.rooms → ∀ p ∈ room.players, p.penaltyTime ≤ 1 :=
    fun code room hm p hp => (hok (code, room) hm p hp).1
  cases e with
  | createRoom conn maxPlayers rCode r1 r2 =>
    intro c
    simp [step, createRoom]
  | joinRoom conn key1 =>
    intro c
    cases key1 with
    | inherited => simp [step, joinRoom]
    | text => simp [step, joinRoom]
    | code roomCode =>
      simp only [step, joinRoom]
      split
      · simp
      · split
        · simp
        · rename_i room _ res hres
          unfold joinRoomIn at hres
          split at hres
          · exact absurd hres (by simp)
          · split at hres
            · exact absurd hres (by simp)
            · dsimp only at hres
              split at hres
              · simp only [Except.ok.injEq] at hres
                rw [← hres]
                simp only [startGameCountdown]
                split <;> simp [snapshot]
              · simp only [Except.ok.injEq] at hres
                rw [← hres]
                simp [snapshot]
  | setUserInfo conn username avatar storeOk =>
    simp only [step, setUserInfo]
    split
    · refine noDecrement_onPlayerRoom s conn _ ?_
      intro code room res _ hres c
      simp only [setUserInfoIn, Option.some.injEq] at hres
      rw [← hres]
      simp [snapshot]
    · intro c; simp
  | moveLeft conn =>
    refine noDecrement_onPlayerRoom s conn _ ?_
    intro code room res hm hres c
    obtain ⟨room1, outs⟩ := res
    obtain ⟨-, player, -, -, -, ho⟩ := moveLeftIn_cases hres
    dsimp only
    rw [ho, landOn_quiet room conn _ (hpt code room hm)]
    simp [snapshot]
  | moveRight conn =>
    refine noDecrement_onPlayerRoom s conn _ ?_
    intro code room res hm hres c
    obtain ⟨room1, outs⟩ := res
    obtain ⟨-, player, -, hcase⟩ := moveRightIn_cases hres
    dsimp only
    rcases hcase with ⟨wall, -, -, -, ho⟩ | ⟨-, -, -, ho⟩ | ⟨-, ho⟩
    · rw [ho]
      simp [snapshot]
    · have hq : ∀ p ∈ (consumeBoost room conn player).players, p.penaltyTime ≤ 1 :=
        fun p hp => (penaltyOK_consumeBoost conn player (hok (code, room) hm) p hp).1
      rw [ho, landOn_quiet _ conn _ hq]
      unfold winOuts
      split <;> simp [snapshot]
    · rw [ho]
      simp
  | resetGame conn r1 r2 =>
    refine noDecrement_onPlayerRoom s conn _ ?_
    intro code room res _ hres c
    simp only [resetGameIn, Option.some.injEq] at hres
    rw [← hres]
    simp [snapshot]
  | disconnect conn =>
    intro c
    simp only [step, disconnect]
    split
    · simp
    · split
      · simp
      · split
        · simp
        · rename_i room _ res hres
          unfold disconnectIn at hres
          dsimp only at hres
          split at hres
          · exact absurd hres (by simp)
          · split at hres <;> simp only [Option.some.injEq] at hres <;> rw [← hres] <;> simp
  | tick roomCode r =>
    intro c
    simp only [step, tick]
    split
    · simp
    · split
      · simp
      · unfold timerTick spawnPowerUp
        split
        · simp
        · dsimp only
          split
          · split <;> simp
          · simp
  | spawnPowerUp roomCode r => exact spawn_noDecrement s roomCode r
  | orphanTick i r =>
    intro c
    simp only [step, orphanTick]
    split
    · simp
    · split
      · simp
      · split
        · split
          · simp
          · simp only [List.mem_append, List.mem_singleton, List.mem_cons, List.not_mem_nil,
              or_false, not_or]
            exact ⟨⟨by simp, spawn_noDecrement _ _ _ c⟩, by simp⟩
        · simp

theorem penalty_inv_step (s : State) (e : Event)
    (h : ∀ cr ∈ s.rooms, RoomWF cr.2 ∧ PenaltyOK cr.2.players) :
    ∀ cr ∈ (step s e).1.rooms, RoomWF cr.2 ∧ PenaltyOK cr.2.players := by
  intro cr hcr
  rcases step_rooms s e cr hcr with h1 | ⟨conn, mp, rc, r1, r2, -, hr⟩ | ⟨room, hmem, ht⟩
  · exact h cr h1
  · rw [hr]
    refine ⟨roomWF_fresh conn mp r1 r2, ?_⟩
    intro q hq
    simp only [freshRoom, List.mem_singleton] at hq
    subst hq
    simp [newPlayer]
  · obtain ⟨wf, hok⟩ := h (cr.1, room) hmem
    exact ⟨roomWF_roomTrans wf ht, penaltyOK_roomTrans wf hok ht⟩

theorem penalty_inv_run (evs : List Event) :
    ∀ s, (∀ cr ∈ s.rooms, RoomWF cr.2 ∧ PenaltyOK cr.2.players) →
      (∀ cr ∈ (run s evs).1.rooms, RoomWF cr.2 ∧ PenaltyOK cr.2.players) ∧
      NoDecrement (run s evs).2 := by
  induction evs with
  | nil =>
    intro s h
    exact ⟨h, fun c => by simp [run]⟩
  | cons e es ih =>
    intro s h
    obtain ⟨h1, h2⟩ := ih (step s e).1 (penalty_inv_step s e h)
    refine ⟨h1, ?_⟩
    intro c hc
    simp only [run, List.mem_append] at hc
    rcases hc with hc | hc
    · exact noDecrement_step s e (fun cr hcr => (h cr hcr).2) c hc
    · exact h2 c hc

/-- Claim C13.  In every state reached from the empty table by any sequence of events
(moveLeft, moveRight with or without boost and wall hits, resetGame and all others),
every player has penaltyTime <= 1, and penaltyTime = 0 when the position is not in
the room's penaltyZones (which are [2, 7]).  Hence checkPenalty on a room of such a
state never takes its penaltyTime >= 3 branch, and no run ever issues a
wins-decrement. -/
theorem C13_penalty_branch_unreachable (evs : List Event) :
    (∀ cr ∈ (run init evs).1.rooms,
      cr.2.gameState.penaltyZones = [2, 7] ∧
      ∀ p ∈ cr.2.players, p.penaltyTime ≤ 1 ∧
        (p.position ∉ cr.2.gameState.penaltyZones → p.penaltyTime = 0)) ∧
    (∀ cr ∈ (run init evs).1.rooms, ∀ conn, (checkPenalty cr.2 conn).2 = []) ∧
    (∀ conn, Out.winsDelta conn (-1) ∉ (run init evs).2) := by
  obtain ⟨hinv, hdec⟩ := penalty_inv_run evs init (by intro cr hcr; simp [init] at hcr)
  refine ⟨?_, ?_, hdec⟩
  · intro cr hcr
    obtain ⟨wf, hok⟩ := hinv cr hcr
    refine ⟨wf.zones, ?_⟩
    intro p hp
    rw [wf.zones]
    exact hok p hp
  · intro cr hcr conn
    exact checkPenalty_quiet cr.2 conn (fun p hp => ((hinv cr hcr).2 p hp).1)

end Game
